import Mathlib

/-!
Verification of the simAuctionAI tournament engine.

Shallow embedding of the core of the repository:
* `src/models/types.ts` — data model (`generateId`, configuration, state, bids,
  period results, rescind ledger entries);
* `src/core/strategies/vickrey.ts` — second-price single-winner clearing and the
  in-memory `TournamentStore`;
* `src/core/strategies/uniformPrice.ts` — uniform-price multi-winner clearing
  with pro-rata rationing;
* `src/core/engine.ts` — the `TournamentEngine` driver (period runner, rescind
  protocol, SP awards, result building).

Modelling conventions:
* `decimal.js` / JS numeric quantities are modelled as `ℚ` (the source performs
  all clearing math in decimal arithmetic); the single explicit rounding step
  (`toDecimalPlaces(8, ROUND_HALF_EVEN)`) is modelled by `round8`.
* `Date.now()` / `new Date()` wall-clock reads are modelled by an ambient clock
  `clock : ℕ → ℕ` queried at an increasing tick counter threaded through the run.
* Throwing operations return `Except String _`; a `.error` propagates exactly as
  a JS exception would (and, as in the source, leaves no partially-built state
  in the hands of the caller).
* JS `Array.prototype.sort` (stable, comparator-based) is modelled by
  `List.insertionSort` with the comparator's "must come weakly before" relation.
* The TS `Map<string, BotState>` keeps insertion order; it is modelled as a
  `List BotState` (ids are unique by construction), updates rewrite the unique
  matching entry.
* `metadata` fields (analysis-only, never read by the engine) are omitted.
-/

namespace SimAuction

-- Let concrete rational arithmetic reduce when evaluating the model on
-- concrete inputs (these library definitions are irreducible by default).
attribute [local semireducible] Rat.add Rat.mul Rat.inv Rat.sub Rat.ofScientific

/-- Decidable equality on `Except` values (used to evaluate concrete runs). -/
instance {ε α : Type _} [DecidableEq ε] [DecidableEq α] : DecidableEq (Except ε α) :=
  fun a b =>
  match a, b with
  | .ok x, .ok y =>
    if h : x = y then isTrue (congrArg Except.ok h)
    else isFalse (fun hc => h (Except.ok.inj hc))
  | .error e, .error f =>
    if h : e = f then isTrue (congrArg Except.error h)
    else isFalse (fun hc => h (Except.error.inj hc))
  | .ok _, .error _ => isFalse (fun hc => Except.noConfusion hc)
  | .error _, .ok _ => isFalse (fun hc => Except.noConfusion hc)

/-! ### Numeric helpers: banker's rounding at 8 fractional digits -/

/-- Round a rational to an integer, half to even (decimal.js `ROUND_HALF_EVEN`). -/
def roundHalfEven (x : ℚ) : ℤ :=
  let f := ⌊x⌋
  let frac := x - f
  if frac < 1/2 then f
  else if 1/2 < frac then f + 1
  else if f % 2 = 0 then f else f + 1

/-- `Decimal.toDecimalPlaces(8, ROUND_HALF_EVEN)`: banker's rounding at 8
fractional digits. -/
def round8 (x : ℚ) : ℚ :=
  (roundHalfEven (x * 100000000) : ℚ) / 100000000

/-! ### `generateId` (src/models/types.ts)

`generateId(prefix)` consumes the module-level `_idCounter` (incremented before
use) and the wall clock: `prefix_<Date.now() base36><counter base36 padded to 4>`. -/

/-- Character for one base-36 digit, as produced by JS `Number.toString(36)`. -/
def base36Digit (d : ℕ) : Char :=
  if d < 10 then Char.ofNat (48 + d) else Char.ofNat (87 + d)

/-- Base-36 digit list of `n` (most significant first); `fuel` bounds recursion
and is always sufficient at `n + 1`. -/
def toBase36Aux : ℕ → ℕ → List Char
  | 0, _ => []
  | fuel + 1, n =>
    if n < 36 then [base36Digit n]
    else toBase36Aux fuel (n / 36) ++ [base36Digit (n % 36)]

/-- JS `n.toString(36)` for a natural number. -/
def toBase36 (n : ℕ) : String :=
  String.mk (toBase36Aux (n + 1) n)

/-- JS `String.prototype.padStart(4, '0')`. -/
def padStart4 (s : String) : String :=
  if s.length < 4 then String.mk (List.replicate (4 - s.length) '0' ++ s.data)
  else s

/-- `generateId` from src/models/types.ts, with the two ambient inputs made
explicit: `ts` is the `Date.now()` read and `counter` the already-incremented
`_idCounter` value. -/
def generateId (pfx : String) (ts counter : ℕ) : String :=
  let count := padStart4 (toBase36 counter)
  if pfx = "" then toBase36 ts ++ count else pfx ++ "_" ++ toBase36 ts ++ count

/-! ### Data model (src/models/types.ts) -/

/-- `ClearingStrategyType`. -/
inductive ClearingStrategyType where
  | vickrey
  | uniform_price
  | discriminatory
  | dutch
  | sealed_first
  deriving DecidableEq, Repr

/-- `StageConfig` (semantic fields; `period_duration_seconds` drives only the
real-time front-end and is omitted). -/
structure StageConfig where
  base_token_supply : ℚ
  points_per_token : ℚ
  floor_price : ℚ
  num_periods : ℕ
  max_bids_per_period : ℕ
  clearing_strategy : ClearingStrategyType
  deriving DecidableEq, Repr

/-- `TournamentConfig` (the `name` label is omitted). -/
structure TournamentConfig where
  budget_per_bot : ℚ
  stages : List StageConfig
  sp_awards : List ℚ
  overall_bonus_sp : ℚ
  deriving DecidableEq, Repr

/-- `TokenHolding`. -/
structure TokenHolding where
  stage : ℕ
  period : ℕ
  quantity : ℚ
  price_paid_per_token : ℚ
  points_per_token : ℚ
  deriving DecidableEq, Repr

/-- `PrivateRescindInfo`. -/
structure PrivateRescindInfo where
  target_stage : ℕ
  target_period : ℕ
  tokens : ℚ
  reveal_at_absolute_period : ℕ
  deriving DecidableEq, Repr

/-- `BotState`. -/
structure BotState where
  bot_id : String
  remaining_budget : ℚ
  holdings : List TokenHolding
  weighted_points : ℚ
  tokens_per_stage : List ℚ
  sp : ℚ
  private_info : List PrivateRescindInfo
  deriving DecidableEq, Repr

/-- `Bid`; `submitted_at` is the `new Date()` wall-clock read in milliseconds. -/
structure Bid where
  id : String
  bot_id : String
  stage : ℕ
  period : ℕ
  price_per_token : ℚ
  total_cost : ℚ
  submitted_at : ℕ
  deriving DecidableEq, Repr

/-- `PeriodAllocation`. -/
structure PeriodAllocation where
  bot_id : String
  tokens_allocated : ℚ
  price_paid_per_token : ℚ
  total_paid : ℚ
  deriving DecidableEq, Repr

/-- `PeriodResult`; `rescinded : boolean | null` is `Option Bool` (`none` = JS
`null`), `winner_bot_id : string | null` is `Option String`. -/
structure PeriodResult where
  stage : ℕ
  period : ℕ
  absolute_period : ℕ
  tokens_available : ℚ
  floor_price : ℚ
  points_per_token : ℚ
  clearing_price : ℚ
  allocations : List PeriodAllocation
  rescinded : Option Bool
  winner_bot_id : Option String
  bids_submitted : List Bid
  strategy_used : ClearingStrategyType
  deriving DecidableEq, Repr

/-- `PendingRescind`. -/
structure PendingRescind where
  bot_id : String
  source_stage : ℕ
  source_period : ℕ
  tokens : ℚ
  price_refunded_per_token : ℚ
  total_refunded : ℚ
  rescinded_at_absolute : ℕ
  reveal_at_absolute : ℕ
  deriving DecidableEq, Repr

/-- `RescindSupplyEntry`. -/
structure RescindSupplyEntry where
  target_absolute_period : ℕ
  tokens : ℚ
  source_description : String
  deriving DecidableEq, Repr

/-- `TournamentPhase`. -/
inductive TournamentPhase where
  | not_started
  | stage_active
  | stage_transition
  | completed
  deriving DecidableEq, Repr

/-- `TournamentState` (the store's single state record).  `current_stage` and
`current_period` are `-1` before the run starts, hence `ℤ`. -/
structure TournamentState where
  config : TournamentConfig
  phase : TournamentPhase
  current_stage : ℤ
  current_period : ℤ
  bots : List BotState
  period_results : List PeriodResult
  pending_rescinds : List PendingRescind
  rescind_supply_queue : List RescindSupplyEntry
  deriving DecidableEq, Repr

/-- `PeriodClearingResult` (the analysis-only `metadata` record is omitted). -/
structure PeriodClearingResult where
  clearing_price : ℚ
  allocations : List PeriodAllocation
  total_tokens_allocated : ℚ
  deriving DecidableEq, Repr

/-- `LeaderboardEntry`. -/
structure LeaderboardEntry where
  bot_id : String
  tokens_per_stage : List ℚ
  weighted_points : ℚ
  sp : ℚ
  deriving DecidableEq, Repr

/-- `BotSummary`. -/
structure BotSummary where
  bot_id : String
  total_sp : ℚ
  weighted_points : ℚ
  tokens_per_stage : List ℚ
  budget_spent : ℚ
  budget_remaining : ℚ
  periods_won : ℕ
  rescinds_made : ℕ
  avg_price_paid : ℚ
  capital_efficiency : ℚ
  deriving DecidableEq, Repr

/-- `TournamentResult`; `bot_summaries` is the id-keyed map in bot order. -/
structure TournamentResult where
  config : TournamentConfig
  final_leaderboard : List LeaderboardEntry
  winner_bot_id : String
  all_period_results : List PeriodResult
  bot_summaries : List (String × BotSummary)
  deriving DecidableEq, Repr

/-- `BotObservation`. -/
structure BotObservation where
  stage : ℕ
  period : ℕ
  absolute_period : ℕ
  periods_remaining_in_stage : ℤ
  stages_remaining : ℤ
  remaining_budget : ℚ
  holdings : List TokenHolding
  weighted_points : ℚ
  tokens_per_stage : List ℚ
  sp : ℚ
  tokens_available : ℚ
  floor_price : ℚ
  points_per_token : ℚ
  history : List PeriodResult
  leaderboard : List LeaderboardEntry
  private_rescind_info : List PrivateRescindInfo
  deriving DecidableEq, Repr

/-- `PeriodContext`. -/
structure PeriodContext where
  stage : ℕ
  period : ℕ
  absolute_period : ℕ
  tokens_available : ℚ
  floor_price : ℚ
  points_per_token : ℚ
  deriving DecidableEq, Repr

/-! ### Sort comparators

JS `Array.prototype.sort` is stable; a comparator `cmp` sorts by the total
preorder "`a` comes weakly before `b`".  Each comparator of the source is
rendered as such a relation. -/

/-- Comparator of `VickreyStrategy.clear` / `UniformPriceStrategy.clear`:
price descending, then `submitted_at` ascending (FIFO). -/
def bidBefore (pr : Bid → ℚ) (ts : Bid → ℕ) (a b : Bid) : Prop :=
  pr b < pr a ∨ (pr a = pr b ∧ ts a ≤ ts b)

instance (pr ts) : DecidableRel (bidBefore pr ts) := fun a b => by
  unfold bidBefore; infer_instance

/-- The price-descending / time-ascending order on bids used by both clearing
strategies. -/
def bidOrder : Bid → Bid → Prop :=
  bidBefore (fun b => b.price_per_token) (fun b => b.submitted_at)

instance : DecidableRel bidOrder := fun a b => by
  unfold bidOrder; infer_instance

instance : IsTotal Bid bidOrder where
  total a b := by
    unfold bidOrder bidBefore
    rcases lt_trichotomy a.price_per_token b.price_per_token with h | h | h
    · exact Or.inr (Or.inl h)
    · rcases Nat.le_total a.submitted_at b.submitted_at with h' | h'
      · exact Or.inl (Or.inr ⟨h, h'⟩)
      · exact Or.inr (Or.inr ⟨h.symm, h'⟩)
    · exact Or.inl (Or.inl h)

instance : IsTrans Bid bidOrder where
  trans a b c hab hbc := by
    unfold bidOrder bidBefore at *
    rcases hab with h1 | ⟨h1, h1'⟩ <;> rcases hbc with h2 | ⟨h2, h2'⟩
    · exact Or.inl (h2.trans h1)
    · exact Or.inl (by rw [← h2]; exact h1)
    · exact Or.inl (by rw [h1]; exact h2)
    · exact Or.inr ⟨h1.trans h2, h1'.trans h2'⟩

/-! ### Second-price (Vickrey) clearing — src/core/strategies/vickrey.ts -/

/-- The bids at or above the floor price (`validBids`). -/
def vickreyValidBids (bids : List Bid) (floorPrice : ℚ) : List Bid :=
  bids.filter (fun b => floorPrice ≤ b.price_per_token)

/-- The valid bids sorted by price descending, FIFO tiebreak. -/
def vickreySorted (bids : List Bid) (floorPrice : ℚ) : List Bid :=
  (vickreyValidBids bids floorPrice).insertionSort bidOrder

/-- The winner's payment price: second-highest sorted price, or the floor for a
single bid, clamped from below by the floor. -/
def vickreyPaymentPrice (bids : List Bid) (floorPrice : ℚ) (w : Bid) : ℚ :=
  let sorted := vickreySorted bids floorPrice
  let paymentPrice0 : ℚ :=
    if 2 ≤ sorted.length then (sorted.getD 1 w).price_per_token else floorPrice
  if paymentPrice0 < floorPrice then floorPrice else paymentPrice0

/-- `VickreyStrategy.clear`. -/
def vickreyClear (bids : List Bid) (supply floorPrice : ℚ) : PeriodClearingResult :=
  match vickreyValidBids bids floorPrice with
  | [] =>
    { clearing_price := floorPrice
      allocations := []
      total_tokens_allocated := 0 }
  | w :: _ =>
    let winner := (vickreySorted bids floorPrice).headD w
    let paymentPrice := vickreyPaymentPrice bids floorPrice w
    { clearing_price := paymentPrice
      allocations := [{ bot_id := winner.bot_id
                        tokens_allocated := supply
                        price_paid_per_token := paymentPrice
                        total_paid := paymentPrice * supply }]
      total_tokens_allocated := supply }

/-! ### Uniform-price clearing — src/core/strategies/uniformPrice.ts -/

/-- A demand entry of `UniformPriceStrategy.clear`: the bid, its price and the
implied quantity `total_cost / price_per_token`. -/
structure UEntry where
  bid : Bid
  price : ℚ
  quantity : ℚ
  deriving DecidableEq, Repr

/-- Comparator on demand entries: price descending, FIFO tiebreak. -/
def entryOrder (a b : UEntry) : Prop :=
  b.price < a.price ∨ (a.price = b.price ∧ a.bid.submitted_at ≤ b.bid.submitted_at)

instance : DecidableRel entryOrder := fun a b => by
  unfold entryOrder; infer_instance

instance : IsTotal UEntry entryOrder where
  total a b := by
    unfold entryOrder
    rcases lt_trichotomy a.price b.price with h | h | h
    · exact Or.inr (Or.inl h)
    · rcases Nat.le_total a.bid.submitted_at b.bid.submitted_at with h' | h'
      · exact Or.inl (Or.inr ⟨h, h'⟩)
      · exact Or.inr (Or.inr ⟨h.symm, h'⟩)
    · exact Or.inl (Or.inl h)

instance : IsTrans UEntry entryOrder where
  trans a b c hab hbc := by
    unfold entryOrder at *
    rcases hab with h1 | ⟨h1, h1'⟩ <;> rcases hbc with h2 | ⟨h2, h2'⟩
    · exact Or.inl (h2.trans h1)
    · exact Or.inl (by rw [← h2]; exact h1)
    · exact Or.inl (by rw [h1]; exact h2)
    · exact Or.inr ⟨h1.trans h2, h1'.trans h2'⟩

/-- The loop finding the clearing price: the price of the first entry at which
cumulative demand reaches or exceeds supply (`floor` if the loop never breaks). -/
def findClearingPrice (supply : ℚ) : List UEntry → ℚ → ℚ → ℚ
  | [], _, floor => floor
  | e :: rest, cum, floor =>
    if supply ≤ cum + e.quantity then e.price
    else findClearingPrice supply rest (cum + e.quantity) floor

/-- The pro-rata loop over the at-clearing entries: every entry but the last
gets `round8(remaining × quantity / totalAtClearing)`, the last gets the
leftover `remaining − proRataAllocated`; non-positive shares are skipped and do
not advance `proRataAllocated`. -/
def proRataLoop (remaining clearingPrice totalAtClearing : ℚ) :
    List UEntry → ℚ → List PeriodAllocation
  | [], _ => []
  | [e], acc =>
    let tokens := remaining - acc
    if 0 < tokens then
      [{ bot_id := e.bid.bot_id
         tokens_allocated := tokens
         price_paid_per_token := clearingPrice
         total_paid := tokens * clearingPrice }]
    else []
  | e :: e' :: rest, acc =>
    let tokens := round8 (remaining * (e.quantity / totalAtClearing))
    if 0 < tokens then
      { bot_id := e.bid.bot_id
        tokens_allocated := tokens
        price_paid_per_token := clearingPrice
        total_paid := tokens * clearingPrice } ::
        proRataLoop remaining clearingPrice totalAtClearing (e' :: rest) (acc + tokens)
    else proRataLoop remaining clearingPrice totalAtClearing (e' :: rest) acc

/-- The valid bids of the uniform-price mechanism: at or above floor with a
strictly positive total cost. -/
def uniformValidBids (bids : List Bid) (floorPrice : ℚ) : List Bid :=
  bids.filter (fun b => floorPrice ≤ b.price_per_token ∧ 0 < b.total_cost)

/-- A bid's demand entry: implied quantity is `total_cost / price_per_token`. -/
def mkEntry (b : Bid) : UEntry :=
  { bid := b, price := b.price_per_token, quantity := b.total_cost / b.price_per_token }

/-- The demand entries sorted by price descending, FIFO tiebreak. -/
def uniformEntries (bids : List Bid) (floorPrice : ℚ) : List UEntry :=
  ((uniformValidBids bids floorPrice).map mkEntry).insertionSort entryOrder

/-- Total demand over the entries. -/
def uniformTotalDemand (bids : List Bid) (floorPrice : ℚ) : ℚ :=
  ((uniformEntries bids floorPrice).map (fun e => e.quantity)).sum

/-- The clearing price in the over-subscribed case. -/
def uniformCP (bids : List Bid) (supply floorPrice : ℚ) : ℚ :=
  findClearingPrice supply (uniformEntries bids floorPrice) 0 floorPrice

/-- Entries strictly above the clearing price. -/
def uniformAbove (bids : List Bid) (supply floorPrice : ℚ) : List UEntry :=
  (uniformEntries bids floorPrice).filter
    (fun e => uniformCP bids supply floorPrice < e.price)

/-- Entries exactly at the clearing price. -/
def uniformAtClearing (bids : List Bid) (supply floorPrice : ℚ) : List UEntry :=
  (uniformEntries bids floorPrice).filter
    (fun e => e.price = uniformCP bids supply floorPrice)

/-- Residual supply after the full fills above the clearing price. -/
def uniformRemaining (bids : List Bid) (supply floorPrice : ℚ) : ℚ :=
  supply - ((uniformAbove bids supply floorPrice).map (fun e => e.quantity)).sum

/-- `UniformPriceStrategy.clear`. -/
def uniformClear (bids : List Bid) (supply floorPrice : ℚ) : PeriodClearingResult :=
  if uniformValidBids bids floorPrice = [] then
    { clearing_price := floorPrice
      allocations := []
      total_tokens_allocated := 0 }
  else
    let entries := uniformEntries bids floorPrice
    let totalDemand := uniformTotalDemand bids floorPrice
    if totalDemand ≤ supply then
      { clearing_price := floorPrice
        allocations := entries.map (fun e =>
          { bot_id := e.bid.bot_id
            tokens_allocated := e.quantity
            price_paid_per_token := floorPrice
            total_paid := e.quantity * floorPrice })
        total_tokens_allocated := totalDemand }
    else
      let clearingPrice := uniformCP bids supply floorPrice
      let aboveClearing := uniformAbove bids supply floorPrice
      let atClearing := uniformAtClearing bids supply floorPrice
      let aboveAllocs := aboveClearing.map (fun e =>
        { bot_id := e.bid.bot_id
          tokens_allocated := e.quantity
          price_paid_per_token := clearingPrice
          total_paid := e.quantity * clearingPrice : PeriodAllocation })
      let aboveTokens := (aboveClearing.map (fun e => e.quantity)).sum
      let remaining := uniformRemaining bids supply floorPrice
      let proAllocs :=
        if 0 < remaining ∧ atClearing ≠ [] then
          proRataLoop remaining clearingPrice
            ((atClearing.map (fun e => e.quantity)).sum) atClearing 0
        else []
      { clearing_price := clearingPrice
        allocations := aboveAllocs ++ proAllocs
        total_tokens_allocated :=
          aboveTokens + (proAllocs.map (fun a => a.tokens_allocated)).sum }

/-- The pro-rata loop's final leftover share (the amount the last at-clearing
entry would receive), tracking `proRataAllocated` exactly as `proRataLoop`
does. -/
def proRataLastShare (remaining totalAtClearing : ℚ) : List UEntry → ℚ → ℚ
  | [], acc => remaining - acc
  | [_], acc => remaining - acc
  | e :: e' :: rest, acc =>
    let t := round8 (remaining * (e.quantity / totalAtClearing))
    proRataLastShare remaining totalAtClearing (e' :: rest)
      (if 0 < t then acc + t else acc)

/-! ### State store — `TournamentStore` (src/core/store/tournamentStore.ts)

The TS store mutates a single `TournamentState` in place; here every operation
is a pure function `TournamentState → …`, and operations that `throw` return
`Except String _`. -/

/-- Rewrite the (unique — the constructor rejects duplicates) bot with the
given id. -/
def updateBot (bots : List BotState) (botId : String) (f : BotState → BotState) :
    List BotState :=
  bots.map (fun b => if b.bot_id = botId then f b else b)

/-- `store.getBot(botId)` — `Map.get` keyed by id. -/
def findBot (st : TournamentState) (botId : String) : Option BotState :=
  st.bots.find? (fun b => b.bot_id == botId)

/-- `array[i] += d` on a per-stage quantity vector (index always in range during
a run; out-of-range is a no-op). -/
def bumpAt (xs : List ℚ) (i : ℕ) (d : ℚ) : List ℚ :=
  xs.set i (xs.getD i 0 + d)

namespace TournamentStore

/-- `new TournamentStore(config, botIds)`. -/
def new (config : TournamentConfig) (botIds : List String) : TournamentState :=
  { config := config
    phase := .not_started
    current_stage := -1
    current_period := -1
    bots := botIds.map (fun id =>
      { bot_id := id
        remaining_budget := config.budget_per_bot
        holdings := []
        weighted_points := 0
        tokens_per_stage := List.replicate config.stages.length 0
        sp := 0
        private_info := [] })
    period_results := []
    pending_rescinds := []
    rescind_supply_queue := [] }

/-- `setPhase`. -/
def setPhase (st : TournamentState) (phase : TournamentPhase) : TournamentState :=
  { st with phase := phase }

/-- `setCurrentStage`. -/
def setCurrentStage (st : TournamentState) (stage : ℤ) : TournamentState :=
  { st with current_stage := stage }

/-- `setCurrentPeriod`. -/
def setCurrentPeriod (st : TournamentState) (period : ℤ) : TournamentState :=
  { st with current_period := period }

/-- `deductBudget`: throws for an unknown bot, throws "cannot afford" when the
balance is strictly below the amount, otherwise subtracts. -/
def deductBudget (st : TournamentState) (botId : String) (amount : ℚ) :
    Except String TournamentState :=
  match findBot st botId with
  | none => .error ("Bot " ++ botId ++ " not found")
  | some bot =>
    if bot.remaining_budget < amount then
      .error ("Bot " ++ botId ++ " cannot afford the amount")
    else
      .ok { st with bots := updateBot st.bots botId (fun b =>
              { b with remaining_budget := b.remaining_budget - amount }) }

/-- `refundBudget`: throws for an unknown bot, otherwise adds. -/
def refundBudget (st : TournamentState) (botId : String) (amount : ℚ) :
    Except String TournamentState :=
  match findBot st botId with
  | none => .error ("Bot " ++ botId ++ " not found")
  | some _ =>
    .ok { st with bots := updateBot st.bots botId (fun b =>
            { b with remaining_budget := b.remaining_budget + amount }) }

/-- `addHolding`: appends the holding and updates the materialised per-stage
token count and weighted points. -/
def addHolding (st : TournamentState) (botId : String) (h : TokenHolding) :
    Except String TournamentState :=
  match findBot st botId with
  | none => .error ("Bot " ++ botId ++ " not found")
  | some _ =>
    .ok { st with bots := updateBot st.bots botId (fun b =>
            { b with
              holdings := b.holdings ++ [h]
              tokens_per_stage := bumpAt b.tokens_per_stage h.stage h.quantity
              weighted_points := b.weighted_points + h.quantity * h.points_per_token }) }

/-- `removeHolding`: removes the first holding matching `(stage, period)`,
decrements the counters, returns the removed holding (`none` = no-op). -/
def removeHolding (st : TournamentState) (botId : String) (stage period : ℕ) :
    TournamentState × Option TokenHolding :=
  match findBot st botId with
  | none => (st, none)
  | some bot =>
    match bot.holdings.find? (fun h => h.stage == stage && h.period == period) with
    | none => (st, none)
    | some h =>
      ({ st with bots := updateBot st.bots botId (fun b =>
          { b with
            holdings := b.holdings.eraseP (fun h' => h'.stage == stage && h'.period == period)
            tokens_per_stage := bumpAt b.tokens_per_stage h.stage (-h.quantity)
            weighted_points := b.weighted_points - h.quantity * h.points_per_token }) },
       some h)

/-- `addPeriodResult` — append-only log. -/
def addPeriodResult (st : TournamentState) (r : PeriodResult) : TournamentState :=
  { st with period_results := st.period_results ++ [r] }

/-- `getPeriodResult` — first record matching `(stage, period)`. -/
def getPeriodResult (st : TournamentState) (stage period : ℕ) : Option PeriodResult :=
  st.period_results.find? (fun r => r.stage == stage && r.period == period)

/-- `addPendingRescind`. -/
def addPendingRescind (st : TournamentState) (r : PendingRescind) : TournamentState :=
  { st with pending_rescinds := st.pending_rescinds ++ [r] }

/-- `revealRescinds`: removes and returns every pending rescind with
`reveal_at_absolute ≤ atAbsolutePeriod`. -/
def revealRescinds (st : TournamentState) (atAbsolutePeriod : ℕ) :
    TournamentState × List PendingRescind :=
  ({ st with pending_rescinds :=
      st.pending_rescinds.filter (fun r => atAbsolutePeriod < r.reveal_at_absolute) },
   st.pending_rescinds.filter (fun r => r.reveal_at_absolute ≤ atAbsolutePeriod))

/-- `addRescindSupply`. -/
def addRescindSupply (st : TournamentState) (e : RescindSupplyEntry) : TournamentState :=
  { st with rescind_supply_queue := st.rescind_supply_queue ++ [e] }

/-- `getRescindSupplyForPeriod`: total injected tokens targeting the period. -/
def getRescindSupplyForPeriod (st : TournamentState) (absolutePeriod : ℕ) : ℚ :=
  ((st.rescind_supply_queue.filter
      (fun e => e.target_absolute_period == absolutePeriod)).map (fun e => e.tokens)).sum

/-- `awardSP`: throws for an unknown bot, otherwise adds to the SP total. -/
def awardSP (st : TournamentState) (botId : String) (points : ℚ) :
    Except String TournamentState :=
  match findBot st botId with
  | none => .error ("Bot " ++ botId ++ " not found")
  | some _ =>
    .ok { st with bots := updateBot st.bots botId (fun b => { b with sp := b.sp + points }) }

end TournamentStore

/-- Comparator of `getStageRanking`: token count descending, then bot id
ascending (`localeCompare`, modelled by the lexicographic `String` order). -/
def rankOrder (a b : String × ℚ) : Prop :=
  b.2 < a.2 ∨ (a.2 = b.2 ∧ a.1 ≤ b.1)

instance : DecidableRel rankOrder := fun a b => by
  unfold rankOrder; infer_instance

instance : IsTotal (String × ℚ) rankOrder where
  total a b := by
    unfold rankOrder
    rcases lt_trichotomy a.2 b.2 with h | h | h
    · exact Or.inr (Or.inl h)
    · rcases le_total a.1 b.1 with h' | h'
      · exact Or.inl (Or.inr ⟨h, h'⟩)
      · exact Or.inr (Or.inr ⟨h.symm, h'⟩)
    · exact Or.inl (Or.inl h)

instance : IsTrans (String × ℚ) rankOrder where
  trans a b c hab hbc := by
    unfold rankOrder at *
    rcases hab with h1 | ⟨h1, h1'⟩ <;> rcases hbc with h2 | ⟨h2, h2'⟩
    · exact Or.inl (h2.trans h1)
    · exact Or.inl (by rw [← h2]; exact h1)
    · exact Or.inl (by rw [h1]; exact h2)
    · exact Or.inr ⟨h1.trans h2, h1'.trans h2'⟩

namespace TournamentStore

/-- `getStageRanking`: bots with strictly positive tokens in the stage, ordered
by token count descending with id-ascending tiebreak. -/
def getStageRanking (st : TournamentState) (stage : ℕ) : List (String × ℚ) :=
  ((st.bots.map (fun b => (b.bot_id, b.tokens_per_stage.getD stage 0))).filter
      (fun e => 0 < e.2)).insertionSort rankOrder

/-- `getOverallRanking`: all bots by weighted points descending, id-ascending
tiebreak. -/
def getOverallRanking (st : TournamentState) : List (String × ℚ) :=
  (st.bots.map (fun b => (b.bot_id, b.weighted_points))).insertionSort rankOrder

end TournamentStore

/-! ### Tournament engine — `TournamentEngine` (src/core/engine.ts)

Agent decisions are inputs of the run (the source calls
`agent.decideBids(observation)` / `agent.decideRescind(observation, prelim)`
synchronously; a run is determined by the decision values returned, modelled as
oracles indexed by absolute period).  `none` models a thrown exception, which
the engine catches (§ steps 3 and 6). -/

/-- An agent: its stable id and its decision values per absolute period. -/
structure AgentOracle where
  bot_id : String
  decideBids : ℕ → Option (List ℚ)
  decideRescind : ℕ → Option Bool

/-- `RESCIND_REVEAL_DELAY`. -/
def RESCIND_REVEAL_DELAY : ℕ := 2

/-- Engine-side mutable context that is not in the store: the ambient wall
clock's query index and the module-level `_idCounter`. -/
structure EngineState where
  store : TournamentState
  tick : ℕ
  idCounter : ℕ

namespace TournamentEngine

/-- The constructor's duplicate-id scan (first duplicate reported). -/
def findDuplicateId : List AgentOracle → List String → Option String
  | [], _ => none
  | a :: rest, seen =>
    if a.bot_id ∈ seen then some a.bot_id else findDuplicateId rest (a.bot_id :: seen)

/-- `new TournamentEngine(config, agents)`: throws on a duplicate `bot_id`,
otherwise builds the initial store.  (No other validation is performed.) -/
def create (config : TournamentConfig) (agents : List AgentOracle) :
    Except String TournamentState :=
  match findDuplicateId agents [] with
  | some id => .error ("Duplicate bot_id: " ++ id)
  | none => .ok (TournamentStore.new config (agents.map (fun a => a.bot_id)))

/-- `absoluteToStagePeriod` scan. -/
def absoluteToStagePeriodAux : List StageConfig → ℕ → ℕ → Option (ℕ × ℕ)
  | [], _, _ => none
  | s :: rest, idx, remaining =>
    if remaining < s.num_periods then some (idx, remaining)
    else absoluteToStagePeriodAux rest (idx + 1) (remaining - s.num_periods)

/-- `absoluteToStagePeriod`: decompose an absolute period across stage lengths;
beyond the horizon, fall back to the last stage's last period. -/
def absoluteToStagePeriod (stages : List StageConfig) (absolutePeriod : ℕ) : ℕ × ℕ :=
  match absoluteToStagePeriodAux stages 0 absolutePeriod with
  | some sp => sp
  | none => (stages.length - 1, ((stages.getLast?.map (fun s => s.num_periods)).getD 0) - 1)

/-- Offer admission loop of `runPeriod`: for each offered price (already capped
at `max_bids_per_period`) check floor, budget affordability at
`price × tokens_available`, and positivity; an admitted offer becomes a `Bid`
with a fresh id (one `Date.now()` read) and a `submitted_at` timestamp (a second
wall-clock read), advancing the clock tick and the id counter. -/
def admitOffers (clock : ℕ → ℕ) (st : TournamentState) (botId : String)
    (ctx : PeriodContext) :
    List ℚ → ℕ → ℕ → List Bid × ℕ × ℕ
  | [], tick, counter => ([], tick, counter)
  | price :: rest, tick, counter =>
    match findBot st botId with
    | none => ([], tick, counter)   -- unreachable: ids iterate over the store's bots
    | some bot =>
      let totalCost := price * ctx.tokens_available
      if price < ctx.floor_price then admitOffers clock st botId ctx rest tick counter
      else if bot.remaining_budget < totalCost then
        admitOffers clock st botId ctx rest tick counter
      else if price ≤ 0 then admitOffers clock st botId ctx rest tick counter
      else
        let bid : Bid :=
          { id := generateId "bid" (clock tick) (counter + 1)
            bot_id := botId
            stage := ctx.stage
            period := ctx.period
            price_per_token := price
            total_cost := totalCost
            submitted_at := clock (tick + 1) }
        let (bids, tick', counter') :=
          admitOffers clock st botId ctx rest (tick + 2) (counter + 1)
        (bid :: bids, tick', counter')

/-- Bid collection loop of `runPeriod`: agents in registration order; a thrown
`decideBids` (`none`) drops all of that agent's offers; offer lists are capped
at `max_bids_per_period` before admission. -/
def collectBids (clock : ℕ → ℕ) (agents : List AgentOracle) (st : TournamentState)
    (ctx : PeriodContext) (maxBids : ℕ) :
    List String → ℕ → ℕ → List Bid × ℕ × ℕ
  | [], tick, counter => ([], tick, counter)
  | botId :: rest, tick, counter =>
    match agents.find? (fun a => a.bot_id == botId) with
    | none => collectBids clock agents st ctx maxBids rest tick counter
    | some agent =>
      match agent.decideBids ctx.absolute_period with
      | none => collectBids clock agents st ctx maxBids rest tick counter
      | some prices =>
        let (bids, tick', counter') :=
          admitOffers clock st botId ctx (prices.take maxBids) tick counter
        let (bids2, tick'', counter'') :=
          collectBids clock agents st ctx maxBids rest tick' counter'
        (bids ++ bids2, tick'', counter'')

/-- Settlement loop of `runPeriod`: deduct each allocation's `total_paid`, then
add the holding. -/
def settleAllocations (st : TournamentState) (ctx : PeriodContext) :
    List PeriodAllocation → Except String TournamentState
  | [] => .ok st
  | alloc :: rest => do
    let st1 ← TournamentStore.deductBudget st alloc.bot_id alloc.total_paid
    let st2 ← TournamentStore.addHolding st1 alloc.bot_id
      { stage := ctx.stage
        period := ctx.period
        quantity := alloc.tokens_allocated
        price_paid_per_token := alloc.price_paid_per_token
        points_per_token := ctx.points_per_token }
    settleAllocations st2 ctx rest

/-- `winnerBotId` after the allocation loop: the single allocation's bot when
the mechanism produced exactly one allocation. -/
def singleWinner : List PeriodAllocation → Option String
  | [a] => some a.bot_id
  | _ => none

/-- `processRescind`: remove the holding, refund the full `total_paid`, queue
the pending revelation and the supply injection at `p + 2`, and give the
rescinding bot its private-info entry. -/
def processRescind (st : TournamentState) (botId : String) (ctx : PeriodContext)
    (alloc : PeriodAllocation) (absolutePeriod : ℕ) : Except String TournamentState := do
  let (st1, _) := TournamentStore.removeHolding st botId ctx.stage ctx.period
  let st2 ← TournamentStore.refundBudget st1 botId alloc.total_paid
  let targetAbsolute := absolutePeriod + RESCIND_REVEAL_DELAY
  let st3 := TournamentStore.addPendingRescind st2
    { bot_id := botId
      source_stage := ctx.stage
      source_period := ctx.period
      tokens := alloc.tokens_allocated
      price_refunded_per_token := alloc.price_paid_per_token
      total_refunded := alloc.total_paid
      rescinded_at_absolute := absolutePeriod
      reveal_at_absolute := targetAbsolute }
  let st4 := TournamentStore.addRescindSupply st3
    { target_absolute_period := targetAbsolute
      tokens := alloc.tokens_allocated
      source_description :=
        "Rescind from stage " ++ toString ctx.stage ++ " period " ++
          toString ctx.period ++ " by " ++ botId }
  let target := absoluteToStagePeriod st4.config.stages targetAbsolute
  match findBot st4 botId with
  | none => .ok st4
  | some _ =>
    .ok { st4 with bots := updateBot st4.bots botId (fun b =>
            { b with private_info := b.private_info ++
                [{ target_stage := target.1
                   target_period := target.2
                   tokens := alloc.tokens_allocated
                   reveal_at_absolute_period := targetAbsolute }] }) }

/-- Flip the first record matching `(stage, period)` to `rescinded = true`
(no-op when absent), as `getPeriodResult` + in-place mutation does. -/
def markRescinded : List PeriodResult → ℕ → ℕ → List PeriodResult
  | [], _, _ => []
  | r :: rest, stage, period =>
    if r.stage = stage ∧ r.period = period then { r with rescinded := some true } :: rest
    else r :: markRescinded rest stage period

/-- One step of `processRescindRevelations`: flip the source record's flag to
`true` and purge the bot's matching private-info entries (now public). -/
def revealOne (acc : TournamentState) (r : PendingRescind) : TournamentState :=
  let acc1 := { acc with
    period_results := markRescinded acc.period_results r.source_stage r.source_period }
  match findBot acc1 r.bot_id with
  | none => acc1
  | some _ =>
    { acc1 with bots := updateBot acc1.bots r.bot_id (fun b =>
        { b with private_info := (b.private_info.filter
            (fun info => info.reveal_at_absolute_period ≠ r.reveal_at_absolute)) }) }

/-- `processRescindRevelations`: apply `revealOne` to each revealed rescind. -/
def processRescindRevelations (st : TournamentState) (revealed : List PendingRescind) :
    TournamentState :=
  revealed.foldl revealOne st

/-- Junk stage configuration used only for (in-run unreachable) out-of-range
indexing, mirroring the source's unchecked `stages[i]`. -/
def junkStage : StageConfig :=
  { base_token_supply := 0, points_per_token := 0, floor_price := 0
    num_periods := 0, max_bids_per_period := 0, clearing_strategy := .vickrey }

/-- `buildObservation` (the source crashes on an unknown bot id — `none` here). -/
def buildObservation (st : TournamentState) (botId : String) (ctx : PeriodContext) :
    Option BotObservation :=
  match findBot st botId with
  | none => none
  | some bot =>
    let stageConfig := st.config.stages.getD ctx.stage junkStage
    some
      { stage := ctx.stage
        period := ctx.period
        absolute_period := ctx.absolute_period
        periods_remaining_in_stage := (stageConfig.num_periods : ℤ) - ctx.period - 1
        stages_remaining := (st.config.stages.length : ℤ) - ctx.stage - 1
        remaining_budget := bot.remaining_budget
        holdings := bot.holdings
        weighted_points := bot.weighted_points
        tokens_per_stage := bot.tokens_per_stage
        sp := bot.sp
        tokens_available := ctx.tokens_available
        floor_price := ctx.floor_price
        points_per_token := ctx.points_per_token
        -- the source's "filter" is a field-preserving copy: rescinded is
        -- exposed exactly as stored in the log
        history := st.period_results
        leaderboard := st.bots.map (fun b =>
          { bot_id := b.bot_id
            tokens_per_stage := b.tokens_per_stage
            weighted_points := b.weighted_points
            sp := b.sp })
        private_rescind_info := bot.private_info }

/-- The clearing dispatch of `runPeriod`: `getStrategy` + `clear`; the reserved
tags' placeholder classes throw at `clear` time. -/
def clearFor (strategyType : ClearingStrategyType) (bids : List Bid)
    (supply floorPrice : ℚ) : Except String PeriodClearingResult :=
  match strategyType with
  | .vickrey => .ok (vickreyClear bids supply floorPrice)
  | .uniform_price => .ok (uniformClear bids supply floorPrice)
  | _ => .error "Strategy not yet implemented"

/-- `runPeriod`: collect bids, clear, settle, offer rescind to a single winner
when allowed, and assemble the period record (`rescinded = some false` is the
source's internal not-yet-revealed sentinel stored when the winner rescinds). -/
def runPeriod (clock : ℕ → ℕ) (agents : List AgentOracle) (es : EngineState)
    (ctx : PeriodContext) (strategyType : ClearingStrategyType) (maxBids : ℕ)
    (rescindAllowed : Bool) : Except String (EngineState × PeriodResult) := do
  let st := es.store
  let (allBids, tick', counter') :=
    collectBids clock agents st ctx maxBids (st.bots.map (fun b => b.bot_id))
      es.tick es.idCounter
  let clearingResult ← clearFor strategyType allBids ctx.tokens_available ctx.floor_price
  let st1 ← settleAllocations st ctx clearingResult.allocations
  let winnerBotId := singleWinner clearingResult.allocations
  let mkRecord := fun (resc : Option Bool) =>
    { stage := ctx.stage
      period := ctx.period
      absolute_period := ctx.absolute_period
      tokens_available := ctx.tokens_available
      floor_price := ctx.floor_price
      points_per_token := ctx.points_per_token
      clearing_price := clearingResult.clearing_price
      allocations := clearingResult.allocations
      rescinded := resc
      winner_bot_id := winnerBotId
      bids_submitted := allBids
      strategy_used := strategyType : PeriodResult }
  match clearingResult.allocations, rescindAllowed with
  | [alloc], true =>
    match (agents.find? (fun a => a.bot_id == alloc.bot_id)).bind
        (fun a => a.decideRescind ctx.absolute_period) with
    | some true => do
      let st2 ← processRescind st1 alloc.bot_id ctx alloc ctx.absolute_period
      .ok ({ store := st2, tick := tick', idCounter := counter' }, mkRecord (some false))
    | _ =>
      .ok ({ store := st1, tick := tick', idCounter := counter' }, mkRecord none)
  | _, _ =>
    .ok ({ store := st1, tick := tick', idCounter := counter' }, mkRecord none)

/-- `awardStageSP`: the stage ranking truncated to the SP vector's length, the
i-th place receiving the i-th SP value. -/
def awardStageSP (st : TournamentState) (stageIdx : ℕ) : Except String TournamentState :=
  let ranking := TournamentStore.getStageRanking st stageIdx
  (ranking.zip st.config.sp_awards).foldlM
    (fun acc p => TournamentStore.awardSP acc p.1.1 p.2) st

/-- `awardOverallBonusSP`: bonus to the overall ranking's top entry when its
weighted points are strictly positive. -/
def awardOverallBonusSP (st : TournamentState) : Except String TournamentState :=
  match TournamentStore.getOverallRanking st with
  | [] => .ok st
  | top :: _ =>
    if 0 < top.2 then TournamentStore.awardSP st top.1 st.config.overall_bonus_sp
    else .ok st

/-- The rescind-allowed flag of `run`: forbidden in the last
`RESCIND_REVEAL_DELAY` periods of the terminal stage. -/
def rescindAllowedFor (config : TournamentConfig) (stageCfg : StageConfig)
    (stageIdx periodIdx : ℕ) : Bool :=
  !(decide (stageIdx = config.stages.length - 1) &&
    decide (stageCfg.num_periods - 1 - periodIdx < RESCIND_REVEAL_DELAY))

/-- Period loop of `run` within one stage (`periodsLeft` counts down from the
stage's `num_periods`). -/
def runStagePeriods (clock : ℕ → ℕ) (agents : List AgentOracle)
    (config : TournamentConfig) (stageIdx : ℕ) (stageCfg : StageConfig)
    (baseSupply : ℚ) :
    ℕ → ℕ → ℕ → EngineState → Except String (EngineState × ℕ)
  | 0, _, absolutePeriod, es => .ok (es, absolutePeriod)
  | periodsLeft + 1, periodIdx, absolutePeriod, es => do
    let st0 := TournamentStore.setCurrentPeriod es.store (periodIdx : ℤ)
    let (st1, revealed) := TournamentStore.revealRescinds st0 absolutePeriod
    let st2 := processRescindRevelations st1 revealed
    let rescindExtra := TournamentStore.getRescindSupplyForPeriod st2 absolutePeriod
    let tokensAvailable := baseSupply + rescindExtra
    let ctx : PeriodContext :=
      { stage := stageIdx
        period := periodIdx
        absolute_period := absolutePeriod
        tokens_available := tokensAvailable
        floor_price := stageCfg.floor_price
        points_per_token := stageCfg.points_per_token }
    let rescindAllowed := rescindAllowedFor config stageCfg stageIdx periodIdx
    let (es1, record) ← runPeriod clock agents { es with store := st2 } ctx
      stageCfg.clearing_strategy stageCfg.max_bids_per_period rescindAllowed
    let es2 := { es1 with store := TournamentStore.addPeriodResult es1.store record }
    runStagePeriods clock agents config stageIdx stageCfg baseSupply
      periodsLeft (periodIdx + 1) (absolutePeriod + 1) es2

/-- Stage loop of `run`. -/
def runStages (clock : ℕ → ℕ) (agents : List AgentOracle) (config : TournamentConfig) :
    List StageConfig → ℕ → ℕ → EngineState → Except String EngineState
  | [], _, _, es => .ok es
  | stageCfg :: rest, stageIdx, absolutePeriod, es => do
    let es0 := { es with store := TournamentStore.setCurrentStage es.store (stageIdx : ℤ) }
    let baseSupply := stageCfg.base_token_supply / (stageCfg.num_periods : ℚ)
    let (es1, abs1) ← runStagePeriods clock agents config stageIdx stageCfg baseSupply
      stageCfg.num_periods 0 absolutePeriod es0
    let stAwarded ← awardStageSP es1.store stageIdx
    let stPhased :=
      if stageIdx < config.stages.length - 1 then
        TournamentStore.setPhase (TournamentStore.setPhase stAwarded .stage_transition)
          .stage_active
      else stAwarded
    runStages clock agents config rest (stageIdx + 1) abs1 { es1 with store := stPhased }

/-- `buildResult` leaderboard comparator: SP descending, weighted-points
descending tiebreak. -/
def leaderboardOrder (a b : LeaderboardEntry) : Prop :=
  b.sp < a.sp ∨ (a.sp = b.sp ∧ b.weighted_points ≤ a.weighted_points)

instance : DecidableRel leaderboardOrder := fun a b => by
  unfold leaderboardOrder; infer_instance

/-- `buildResult`. -/
def buildResult (st : TournamentState) : TournamentResult :=
  let finalLeaderboard :=
    (st.bots.map (fun b =>
      { bot_id := b.bot_id
        tokens_per_stage := b.tokens_per_stage
        weighted_points := b.weighted_points
        sp := b.sp : LeaderboardEntry })).insertionSort leaderboardOrder
  let botSummaries := st.bots.map (fun bot =>
    let budgetSpent := st.config.budget_per_bot - bot.remaining_budget
    let periodsWon := (st.period_results.filter (fun r =>
      r.winner_bot_id == some bot.bot_id && r.rescinded != some true)).length
    let rescindsMade := (st.period_results.filter (fun r =>
      r.winner_bot_id == some bot.bot_id && r.rescinded == some true)).length
    let totalTokens : ℚ := (bot.holdings.map (fun h => h.quantity)).sum
    let totalPaid : ℚ := (bot.holdings.map (fun h => h.quantity * h.price_paid_per_token)).sum
    let avgPrice := if 0 < totalTokens then totalPaid / totalTokens else 0
    (bot.bot_id,
      { bot_id := bot.bot_id
        total_sp := bot.sp
        weighted_points := bot.weighted_points
        tokens_per_stage := bot.tokens_per_stage
        budget_spent := budgetSpent
        budget_remaining := bot.remaining_budget
        periods_won := periodsWon
        rescinds_made := rescindsMade
        avg_price_paid := avgPrice
        capital_efficiency :=
          if 0 < budgetSpent then bot.weighted_points / budgetSpent else 0 : BotSummary }))
  { config := st.config
    final_leaderboard := finalLeaderboard
    winner_bot_id := match finalLeaderboard with | [] => "" | e :: _ => e.bot_id
    all_period_results := st.period_results
    bot_summaries := botSummaries }

/-- `run` up to (and excluding) result building: returns the final store state
(phase `completed`). -/
def runEngine (clock : ℕ → ℕ) (idCounter0 : ℕ) (config : TournamentConfig)
    (agents : List AgentOracle) : Except String TournamentState := do
  let st0 ← create config agents
  let st1 := TournamentStore.setPhase st0 .stage_active
  let esFinal ← runStages clock agents config config.stages 0 0
    { store := st1, tick := 0, idCounter := idCounter0 }
  let st2 ← awardOverallBonusSP esFinal.store
  .ok (TournamentStore.setPhase st2 .completed)

/-- `run`: the full tournament, producing the `TournamentResult`. -/
def runTournament (clock : ℕ → ℕ) (idCounter0 : ℕ) (config : TournamentConfig)
    (agents : List AgentOracle) : Except String TournamentResult :=
  (runEngine clock idCounter0 config agents).map buildResult

end TournamentEngine

/-! ### Auxiliary definitions used by theorem statements -/

/-- Erase the wall-clock-derived fields of a bid (its generated id and its
submission timestamp). -/
def scrubBid (b : Bid) : Bid :=
  { b with id := "", submitted_at := 0 }

/-- Erase the wall-clock-derived fields from a period record (only the stored
bid set carries any). -/
def scrubRecord (r : PeriodResult) : PeriodResult :=
  { r with bids_submitted := r.bids_submitted.map scrubBid }

/-- Erase the wall-clock-derived fields from a store state. -/
def scrubStore (st : TournamentState) : TournamentState :=
  { st with period_results := st.period_results.map scrubRecord }

/-- Erase the wall-clock-derived fields from a tournament result. -/
def scrubResult (r : TournamentResult) : TournamentResult :=
  { r with all_period_results := r.all_period_results.map scrubRecord }

/-- Engine state up to wall-clock artefacts: the scrubbed store (the clock tick
and the id counter are themselves ambient artefacts). -/
def scrubES (es : EngineState) : TournamentState :=
  scrubStore es.store

/-- Maximum of a list of rationals (`0` for the empty list, which is never
used). -/
def maxQ : List ℚ → ℚ
  | [] => 0
  | x :: xs => xs.foldl max x

/-- The second-highest price of a multiset of prices: the maximum after
removing one occurrence of the maximum. -/
def secondHighestPrice (l : List ℚ) : ℚ :=
  maxQ (l.erase (maxQ l))

/-- The SP total of the bot with the given id (`0` if absent). -/
def botSP (st : TournamentState) (botId : String) : ℚ :=
  ((findBot st botId).map (fun b => b.sp)).getD 0

/-- The SP total of the bot with the given id in a bot list (`0` if absent). -/
def spOf (bots : List BotState) (botId : String) : ℚ :=
  ((bots.find? (fun b => b.bot_id == botId)).map (fun b => b.sp)).getD 0

/-- The pure effect of a sequence of SP awards on the bot list. -/
def awardAll (bots : List BotState) (pairs : List ((String × ℚ) × ℚ)) :
    List BotState :=
  pairs.foldl (fun bs p => updateBot bs p.1.1 (fun b => { b with sp := b.sp + p.2 })) bots

/-- The total number of periods of a configuration (the tournament horizon). -/
def totalPeriods (config : TournamentConfig) : ℕ :=
  (config.stages.map (fun s => s.num_periods)).sum

/-- The rescind-horizon invariant maintained by the run loop: every queued
supply injection targets a period inside the tournament horizon, every pending
rescind originates from a period where the rescind choice was offered, and
every record of a period where the choice was not offered still carries an
unset `rescinded` flag. -/
def rescindHorizonInv (config : TournamentConfig) (st : TournamentState) : Prop :=
  (∀ e ∈ st.rescind_supply_queue,
    e.target_absolute_period < totalPeriods config) ∧
  (∀ pr ∈ st.pending_rescinds,
    TournamentEngine.rescindAllowedFor config
      (config.stages.getD pr.source_stage TournamentEngine.junkStage)
      pr.source_stage pr.source_period = true) ∧
  (∀ r ∈ st.period_results,
    TournamentEngine.rescindAllowedFor config
      (config.stages.getD r.stage TournamentEngine.junkStage)
      r.stage r.period = false → r.rescinded = none)

/-- Two one-period stages: the only period whose winner may rescind is stage 0
period 0, and its injection targets absolute period 2 — exactly the horizon. -/
def c7_config : TournamentConfig :=
  { budget_per_bot := 100
    stages := [
      { base_token_supply := 1, points_per_token := 1, floor_price := 1,
        num_periods := 1, max_bids_per_period := 1, clearing_strategy := .vickrey },
      { base_token_supply := 1, points_per_token := 2, floor_price := 1,
        num_periods := 1, max_bids_per_period := 1, clearing_strategy := .vickrey }]
    sp_awards := [3, 2, 1]
    overall_bonus_sp := 1 }

/-- An agent that always offers price 2 and always rescinds its wins. -/
def c7_agent : AgentOracle :=
  { bot_id := "A", decideBids := fun _ => some [2],
    decideRescind := fun _ => some true }

/-- A single three-period stage (terminal stage with at least two periods). -/
def c7w_config : TournamentConfig :=
  { budget_per_bot := 100
    stages := [
      { base_token_supply := 3, points_per_token := 1, floor_price := 1,
        num_periods := 3, max_bids_per_period := 1, clearing_strategy := .vickrey }]
    sp_awards := [3, 2, 1]
    overall_bonus_sp := 1 }

/-- An agent that always offers price 2 and always rescinds its wins. -/
def c7w_agent : AgentOracle :=
  { bot_id := "B", decideBids := fun _ => some [2],
    decideRescind := fun _ => some true }

/-- The final store state of the three-period witness run. -/
def c7w_final : TournamentState :=
  (TournamentEngine.runEngine (fun t => t) 0 c7w_config [c7w_agent]).toOption.getD
    (TournamentStore.new c7w_config [])

/-- Equality of demand entries up to the generated id and timestamp of the
underlying bid. -/
def entryScrubEq (e₁ e₂ : UEntry) : Prop :=
  e₁.price = e₂.price ∧ e₁.quantity = e₂.quantity ∧
    scrubBid e₁.bid = scrubBid e₂.bid

/-! ### Concrete instances used by the theorems below -/

/-- A store state with a single bot `A` holding a budget of 5. -/
def c10_bot : BotState :=
  { bot_id := "A", remaining_budget := 5, holdings := [], weighted_points := 0,
    tokens_per_stage := [0], sp := 0, private_info := [] }

/-- The configuration behind `c10_state`. -/
def c10_config : TournamentConfig :=
  { budget_per_bot := 5
    stages := [{ base_token_supply := 10, points_per_token := 1, floor_price := 1,
                 num_periods := 1, max_bids_per_period := 1, clearing_strategy := .vickrey }]
    sp_awards := [1]
    overall_bonus_sp := 1 }

/-- A concrete tournament state for exercising `deductBudget`. -/
def c10_state : TournamentState :=
  { config := c10_config
    phase := .stage_active
    current_stage := 0
    current_period := 0
    bots := [c10_bot]
    period_results := []
    pending_rescinds := []
    rescind_supply_queue := [] }

/-- A malformed configuration: a stage with zero periods and a negative floor
price. -/
def badConfig : TournamentConfig :=
  { budget_per_bot := 100
    stages := [{ base_token_supply := 10, points_per_token := 1, floor_price := -1,
                 num_periods := 0, max_bids_per_period := 1, clearing_strategy := .vickrey }]
    sp_awards := [3, 2, 1]
    overall_bonus_sp := 1 }

/-- A trivial agent with id `X` (never bids, never rescinds). -/
def oracleX : AgentOracle :=
  { bot_id := "X", decideBids := fun _ => some [], decideRescind := fun _ => some false }

/-- Two stages of one period each: a rescind in stage 0 period 0 (absolute 0)
targets absolute period 2, which equals the tournament's total period count. -/
def c1_config : TournamentConfig :=
  { budget_per_bot := 10
    stages := [
      { base_token_supply := 1, points_per_token := 1, floor_price := 1,
        num_periods := 1, max_bids_per_period := 5, clearing_strategy := .vickrey },
      { base_token_supply := 1, points_per_token := 2, floor_price := 1,
        num_periods := 1, max_bids_per_period := 5, clearing_strategy := .vickrey }]
    sp_awards := [3, 2, 1]
    overall_bonus_sp := 1 }

/-- An agent that always bids 2 per token and always rescinds when asked. -/
def c1_agent : AgentOracle :=
  { bot_id := "A", decideBids := fun _ => some [2], decideRescind := fun _ => some true }

/-- An arbitrary observation context (the observation's `history` does not
depend on it). -/
def c1_ctx : PeriodContext :=
  { stage := 1, period := 0, absolute_period := 1, tokens_available := 1,
    floor_price := 1, points_per_token := 2 }

/-- A single-stage, single-period configuration for the determinism
counterexample. -/
def c2_config : TournamentConfig :=
  { budget_per_bot := 10
    stages := [
      { base_token_supply := 1, points_per_token := 1, floor_price := 1,
        num_periods := 1, max_bids_per_period := 5, clearing_strategy := .vickrey }]
    sp_awards := [3, 2, 1]
    overall_bonus_sp := 1 }

/-- An agent that always bids 2 per token and never rescinds. -/
def c2_agent : AgentOracle :=
  { bot_id := "A", decideBids := fun _ => some [2], decideRescind := fun _ => some false }

/-- Four bids tied at price 1 whose implied quantities are in ratio 3:3:3:1 at
the 10⁻⁸ scale; with supply 2·10⁻⁸ the three non-last pro-rata shares each
round *up* to 10⁻⁸, over-allocating the residual supply. -/
def c5_bids : List Bid :=
  [{ id := "u1", bot_id := "A", stage := 0, period := 0, price_per_token := 1,
     total_cost := 3/100000000, submitted_at := 0 },
   { id := "u2", bot_id := "B", stage := 0, period := 0, price_per_token := 1,
     total_cost := 3/100000000, submitted_at := 1 },
   { id := "u3", bot_id := "C", stage := 0, period := 0, price_per_token := 1,
     total_cost := 3/100000000, submitted_at := 2 },
   { id := "u4", bot_id := "D", stage := 0, period := 0, price_per_token := 1,
     total_cost := 1/100000000, submitted_at := 3 }]

/-- A uniform-price stage with supply 6·10⁻⁸ and budget exactly
floor × supply: ten tied bids at the floor make the pro-rata rounding
over-allocate, so settlement deducts more than the budget. -/
def c3_config : TournamentConfig :=
  { budget_per_bot := 6/100000000
    stages := [
      { base_token_supply := 6/100000000, points_per_token := 1, floor_price := 1,
        num_periods := 1, max_bids_per_period := 10,
        clearing_strategy := .uniform_price }]
    sp_awards := [3, 2, 1]
    overall_bonus_sp := 1 }

/-- An agent submitting ten bids at the floor price (each individually
affordable: price × supply = budget). -/
def c3_agent : AgentOracle :=
  { bot_id := "A"
    decideBids := fun _ => some [1, 1, 1, 1, 1, 1, 1, 1, 1, 1]
    decideRescind := fun _ => some false }

/-- A one-bot store for the rescind round-trip witness. -/
def c6_bot : BotState :=
  { bot_id := "A", remaining_budget := 10, holdings := [], weighted_points := 0,
    tokens_per_stage := [0], sp := 0, private_info := [] }

/-- Configuration behind `c6_state`. -/
def c6_config : TournamentConfig :=
  { budget_per_bot := 10
    stages := [{ base_token_supply := 1, points_per_token := 1, floor_price := 1,
                 num_periods := 1, max_bids_per_period := 1, clearing_strategy := .vickrey }]
    sp_awards := [1]
    overall_bonus_sp := 1 }

/-- A concrete pre-settlement state for the rescind round-trip witness. -/
def c6_state : TournamentState :=
  { config := c6_config
    phase := .stage_active
    current_stage := 0
    current_period := 0
    bots := [c6_bot]
    period_results := []
    pending_rescinds := []
    rescind_supply_queue := [] }

/-- The witnessed period context. -/
def c6_ctx : PeriodContext :=
  { stage := 0, period := 0, absolute_period := 0, tokens_available := 1,
    floor_price := 1, points_per_token := 1 }

/-- The witnessed single-winner allocation. -/
def c6_alloc : PeriodAllocation :=
  { bot_id := "A", tokens_allocated := 1, price_paid_per_token := 1, total_paid := 1 }

/-- Bids for the Vickrey witness: two admitted bids at prices 12 and 11. -/
def c4_bids : List Bid :=
  [{ id := "v1", bot_id := "X", stage := 0, period := 0, price_per_token := 12,
     total_cost := 60, submitted_at := 0 },
   { id := "v2", bot_id := "Y", stage := 0, period := 0, price_per_token := 11,
     total_cost := 55, submitted_at := 1 }]

/-- Configuration behind `c8_state`. -/
def c8_config : TournamentConfig :=
  { budget_per_bot := 100
    stages := [{ base_token_supply := 9, points_per_token := 1, floor_price := 1,
                 num_periods := 1, max_bids_per_period := 3, clearing_strategy := .vickrey }]
    sp_awards := [3, 2, 1]
    overall_bonus_sp := 1 }

/-- A three-bot end-of-stage state: A holds 5 stage-0 tokens, B holds 3, C
holds none. -/
def c8_state : TournamentState :=
  { config := c8_config
    phase := .stage_active
    current_stage := 0
    current_period := 0
    bots := [
      { bot_id := "A", remaining_budget := 50, holdings := [], weighted_points := 5,
        tokens_per_stage := [5], sp := 0, private_info := [] },
      { bot_id := "B", remaining_budget := 70, holdings := [], weighted_points := 3,
        tokens_per_stage := [3], sp := 0, private_info := [] },
      { bot_id := "C", remaining_budget := 100, holdings := [], weighted_points := 0,
        tokens_per_stage := [0], sp := 0, private_info := [] }]
    period_results := []
    pending_rescinds := []
    rescind_supply_queue := [] }

/-- Two tied bids at price 2, each demanding half the unit supply: the
pro-rata half-shares are exact at 8 decimals and the leftover share is
positive, so the allocation identity holds. -/
def c5w_bids : List Bid :=
  [{ id := "w1", bot_id := "A", stage := 0, period := 0, price_per_token := 2,
     total_cost := 2, submitted_at := 0 },
   { id := "w2", bot_id := "B", stage := 0, period := 0, price_per_token := 2,
     total_cost := 2, submitted_at := 1 }]

/-- Bot, state, context and single admitted bid for the Vickrey settlement
witness: budget 10, one bid at price 2 for the whole unit supply
(total cost 2). -/
def c3w_bot : BotState :=
  { bot_id := "A", remaining_budget := 10, holdings := [], weighted_points := 0,
    tokens_per_stage := [0], sp := 0, private_info := [] }

/-- Configuration behind `c3w_state`. -/
def c3w_config : TournamentConfig :=
  { budget_per_bot := 10
    stages := [{ base_token_supply := 1, points_per_token := 1, floor_price := 1,
                 num_periods := 1, max_bids_per_period := 3, clearing_strategy := .vickrey }]
    sp_awards := [3, 2, 1]
    overall_bonus_sp := 1 }

/-- The store state of the Vickrey settlement witness. -/
def c3w_state : TournamentState :=
  { config := c3w_config
    phase := .stage_active
    current_stage := 0
    current_period := 0
    bots := [c3w_bot]
    period_results := []
    pending_rescinds := []
    rescind_supply_queue := [] }

/-- The period context of the Vickrey settlement witness. -/
def c3w_ctx : PeriodContext :=
  { stage := 0, period := 0, absolute_period := 0, tokens_available := 1,
    floor_price := 1, points_per_token := 1 }

/-- The single admitted bid of the Vickrey settlement witness. -/
def c3w_bids : List Bid :=
  [{ id := "v9", bot_id := "A", stage := 0, period := 0, price_per_token := 2,
     total_cost := 2, submitted_at := 0 }]

/-! ### Theorems -/

/-! #### Helper lemmas about store updates -/

theorem find?_updateBot (bots : List BotState) (botId : String)
    (f : BotState → BotState) (hpres : ∀ b, (f b).bot_id = b.bot_id) :
    (updateBot bots botId f).find? (fun b => b.bot_id == botId) =
      (bots.find? (fun b => b.bot_id == botId)).map f := by
  unfold updateBot
  induction bots with
  | nil => rfl
  | cons b rest ih =>
    rw [List.map_cons]
    by_cases hb : b.bot_id = botId
    · rw [if_pos hb, List.find?_cons_of_pos _ (by simp [hpres b, hb]),
        List.find?_cons_of_pos _ (by simp [hb]), Option.map_some']
    · rw [if_neg hb, List.find?_cons_of_neg _ (by simp [hb]),
        List.find?_cons_of_neg _ (by simp [hb])]
      exact ih

theorem find?_updateBot_ne (bots : List BotState) (botId botId2 : String)
    (f : BotState → BotState) (hpres : ∀ b, (f b).bot_id = b.bot_id)
    (hne : botId ≠ botId2) :
    (updateBot bots botId f).find? (fun b => b.bot_id == botId2) =
      bots.find? (fun b => b.bot_id == botId2) := by
  unfold updateBot
  induction bots with
  | nil => rfl
  | cons b rest ih =>
    rw [List.map_cons]
    by_cases hb : b.bot_id = botId
    · rw [if_pos hb, List.find?_cons_of_neg _ (by simp [hpres b, hb, hne]),
        List.find?_cons_of_neg _ (by simp [hb, hne])]
      exact ih
    · rw [if_neg hb]
      by_cases hb2 : b.bot_id = botId2
      · rw [List.find?_cons_of_pos _ (by simp [hb2]),
          List.find?_cons_of_pos _ (by simp [hb2])]
      · rw [List.find?_cons_of_neg _ (by simp [hb2]),
          List.find?_cons_of_neg _ (by simp [hb2])]
        exact ih

theorem updateBot_comp (bots : List BotState) (botId : String)
    (f g : BotState → BotState) (hpres : ∀ b, (f b).bot_id = b.bot_id) :
    updateBot (updateBot bots botId f) botId g =
      updateBot bots botId (fun b => g (f b)) := by
  unfold updateBot
  rw [List.map_map]
  apply List.map_congr_left
  intro b _
  by_cases hb : b.bot_id = botId
  · simp only [Function.comp_apply, if_pos hb, hpres b, if_pos hb]
  · simp only [Function.comp_apply, if_neg hb]

theorem map_updateBot_eq (bots : List BotState) (botId : String)
    (f : BotState → BotState) {β : Type _} (proj : BotState → β)
    (h : ∀ b ∈ bots, b.bot_id = botId → proj (f b) = proj b) :
    (updateBot bots botId f).map proj = bots.map proj := by
  unfold updateBot
  rw [List.map_map]
  apply List.map_congr_left
  intro b hbmem
  by_cases hb : b.bot_id = botId
  · simp only [Function.comp_apply, if_pos hb]
    exact h b hbmem hb
  · simp only [Function.comp_apply, if_neg hb]

/-- Reversal of `bumpAt`: adding then subtracting the same quantity at the same
index restores the vector. -/
theorem bumpAt_bumpAt_neg (xs : List ℚ) (i : ℕ) (d : ℚ) :
    bumpAt (bumpAt xs i d) i (-d) = xs := by
  induction xs generalizing i with
  | nil => rfl
  | cons x t ih =>
    cases i with
    | zero =>
      show (x + d + -d) :: t = x :: t
      rw [add_neg_cancel_right]
    | succ n =>
      show x :: bumpAt (bumpAt t n d) n (-d) = x :: t
      rw [ih]

theorem exceptBind_ok {α β : Type _} (a : α) (f : α → Except String β) :
    (Except.ok a >>= f) = f a := rfl

theorem deductBudget_ok (st : TournamentState) (botId : String) (amount : ℚ)
    (bot : BotState) (hfind : findBot st botId = some bot)
    (h : ¬ bot.remaining_budget < amount) :
    TournamentStore.deductBudget st botId amount =
      .ok { st with bots := updateBot st.bots botId (fun b =>
              { b with remaining_budget := b.remaining_budget - amount }) } := by
  unfold TournamentStore.deductBudget
  rw [hfind]
  simp [h]

theorem addHolding_ok (st : TournamentState) (botId : String) (h : TokenHolding)
    (bot : BotState) (hfind : findBot st botId = some bot) :
    TournamentStore.addHolding st botId h =
      .ok { st with bots := updateBot st.bots botId (fun b =>
              { b with
                holdings := b.holdings ++ [h]
                tokens_per_stage := bumpAt b.tokens_per_stage h.stage h.quantity
                weighted_points :=
                  b.weighted_points + h.quantity * h.points_per_token }) } := by
  unfold TournamentStore.addHolding
  rw [hfind]

theorem refundBudget_ok (st : TournamentState) (botId : String) (amount : ℚ)
    (bot : BotState) (hfind : findBot st botId = some bot) :
    TournamentStore.refundBudget st botId amount =
      .ok { st with bots := updateBot st.bots botId (fun b =>
              { b with remaining_budget := b.remaining_budget + amount }) } := by
  unfold TournamentStore.refundBudget
  rw [hfind]

theorem awardSP_ok (st : TournamentState) (botId : String) (points : ℚ)
    (bot : BotState) (hfind : findBot st botId = some bot) :
    TournamentStore.awardSP st botId points =
      .ok { st with bots := updateBot st.bots botId (fun b =>
              { b with sp := b.sp + points }) } := by
  unfold TournamentStore.awardSP
  rw [hfind]

theorem removeHolding_found (st : TournamentState) (botId : String)
    (stage period : ℕ) (bot : BotState) (h : TokenHolding)
    (hfind : findBot st botId = some bot)
    (hfindH : bot.holdings.find?
      (fun h' => h'.stage == stage && h'.period == period) = some h) :
    TournamentStore.removeHolding st botId stage period =
      ({ st with bots := updateBot st.bots botId (fun b =>
          { b with
            holdings := b.holdings.eraseP
              (fun h' => h'.stage == stage && h'.period == period)
            tokens_per_stage := bumpAt b.tokens_per_stage h.stage (-h.quantity)
            weighted_points :=
              b.weighted_points - h.quantity * h.points_per_token }) },
       some h) := by
  unfold TournamentStore.removeHolding
  rw [hfind]
  simp only [hfindH]

/-- `findBot` on a state whose bots were updated at the same id. -/
theorem findBot_update (st : TournamentState) (bots' : List BotState)
    (botId : String) (f : BotState → BotState)
    (hpres : ∀ b, (f b).bot_id = b.bot_id) :
    findBot { st with bots := updateBot bots' botId f } botId =
      (bots'.find? (fun b => b.bot_id == botId)).map f :=
  find?_updateBot bots' botId f hpres

/-! #### C6: rescind round-trip -/

/-- **C6.** A single-winner settlement (budget deduction plus holding
insertion) followed by the engine's rescind (holding removal plus full refund)
restores every bot's remaining budget, holdings list, weighted points,
per-stage token counts — and SP — to their values immediately before
settlement, for every bot in the store (the rescinding agent's private-info
list and the rescind ledger queues are the only agent-visible changes). -/
theorem C6_rescind_roundtrip (st : TournamentState) (ctx : PeriodContext)
    (alloc : PeriodAllocation) (bot : BotState)
    (hfind : findBot st alloc.bot_id = some bot)
    (hafford : alloc.total_paid ≤ bot.remaining_budget)
    (hnoh : ∀ b ∈ st.bots, b.bot_id = alloc.bot_id →
      ∀ h ∈ b.holdings, ¬(h.stage = ctx.stage ∧ h.period = ctx.period)) :
    ∃ st1 st2,
      TournamentEngine.settleAllocations st ctx [alloc] = .ok st1 ∧
      TournamentEngine.processRescind st1 alloc.bot_id ctx alloc
        ctx.absolute_period = .ok st2 ∧
      st2.bots.map (fun b => (b.remaining_budget, b.holdings, b.weighted_points,
          b.tokens_per_stage, b.sp)) =
        st.bots.map (fun b => (b.remaining_budget, b.holdings, b.weighted_points,
          b.tokens_per_stage, b.sp)) := by
  have hnlt : ¬ bot.remaining_budget < alloc.total_paid := not_lt.2 hafford
  have hbotmem : bot ∈ st.bots := List.mem_of_find?_eq_some hfind
  have hbotid : bot.bot_id = alloc.bot_id := by
    have := List.find?_some hfind
    simpa using this
  -- the holding the engine adds and removes
  set h0 : TokenHolding :=
    { stage := ctx.stage
      period := ctx.period
      quantity := alloc.tokens_allocated
      price_paid_per_token := alloc.price_paid_per_token
      points_per_token := ctx.points_per_token } with hh0
  -- the five per-bot updates
  set f1 : BotState → BotState := fun b =>
    { b with remaining_budget := b.remaining_budget - alloc.total_paid } with hf1
  set f2 : BotState → BotState := fun b =>
    { b with
      holdings := b.holdings ++ [h0]
      tokens_per_stage := bumpAt b.tokens_per_stage h0.stage h0.quantity
      weighted_points :=
        b.weighted_points + h0.quantity * h0.points_per_token } with hf2
  set f3 : BotState → BotState := fun b =>
    { b with
      holdings := b.holdings.eraseP
        (fun h' => h'.stage == ctx.stage && h'.period == ctx.period)
      tokens_per_stage := bumpAt b.tokens_per_stage h0.stage (-h0.quantity)
      weighted_points :=
        b.weighted_points - h0.quantity * h0.points_per_token } with hf3
  set f4 : BotState → BotState := fun b =>
    { b with remaining_budget := b.remaining_budget + alloc.total_paid } with hf4
  -- settlement
  have hded := deductBudget_ok st alloc.bot_id alloc.total_paid bot hfind hnlt
  have hfind1 : findBot
      { st with bots := updateBot st.bots alloc.bot_id f1 } alloc.bot_id =
      some (f1 bot) := by
    rw [findBot_update st st.bots alloc.bot_id f1 (fun b => rfl)]
    rw [show st.bots.find? (fun b => b.bot_id == alloc.bot_id) = some bot from hfind]
    rfl
  have hadd := addHolding_ok
    { st with bots := updateBot st.bots alloc.bot_id f1 } alloc.bot_id h0 (f1 bot) hfind1
  have hsettle : TournamentEngine.settleAllocations st ctx [alloc] =
      .ok { st with bots := (updateBot (updateBot st.bots alloc.bot_id f1)
              alloc.bot_id f2) } := by
    unfold TournamentEngine.settleAllocations
    rw [hded, exceptBind_ok, ← hh0, hadd, exceptBind_ok]
    rfl
  -- the settled state
  set stB : TournamentState :=
    { st with bots := (updateBot (updateBot st.bots alloc.bot_id f1)
        alloc.bot_id f2) } with hstB
  have hfindB : stB.bots.find? (fun b => b.bot_id == alloc.bot_id) =
      some (f2 (f1 bot)) := by
    show (updateBot (updateBot st.bots alloc.bot_id f1) alloc.bot_id f2).find?
      (fun b => b.bot_id == alloc.bot_id) = _
    rw [find?_updateBot _ _ f2 (fun b => rfl), find?_updateBot _ _ f1 (fun b => rfl),
      show st.bots.find? (fun b => b.bot_id == alloc.bot_id) = some bot from hfind]
    rfl
  have hfindH : (f2 (f1 bot)).holdings.find?
      (fun h' => h'.stage == ctx.stage && h'.period == ctx.period) = some h0 := by
    show (bot.holdings ++ [h0]).find? _ = some h0
    have hnone : bot.holdings.find?
        (fun h' => h'.stage == ctx.stage && h'.period == ctx.period) = none := by
      rw [List.find?_eq_none]
      intro x hx
      have hnx := hnoh bot hbotmem hbotid x hx
      simpa using hnx
    rw [List.find?_append, hnone, Option.none_or]
    exact List.find?_cons_of_pos _ (by simp)
  have hrem := removeHolding_found stB alloc.bot_id ctx.stage ctx.period
    (f2 (f1 bot)) h0 hfindB hfindH
  -- state after holding removal
  set stC : TournamentState :=
    { stB with bots := (updateBot stB.bots alloc.bot_id f3) } with hstC
  have hfindC : stC.bots.find? (fun b => b.bot_id == alloc.bot_id) =
      some (f3 (f2 (f1 bot))) := by
    show (updateBot stB.bots alloc.bot_id f3).find?
      (fun b => b.bot_id == alloc.bot_id) = _
    rw [find?_updateBot _ _ f3 (fun b => rfl), hfindB]
    rfl
  have href := refundBudget_ok stC alloc.bot_id alloc.total_paid
    (f3 (f2 (f1 bot))) hfindC
  -- state after refund
  set stD : TournamentState :=
    { stC with bots := (updateBot stC.bots alloc.bot_id f4) } with hstD
  have hfindD : stD.bots.find? (fun b => b.bot_id == alloc.bot_id) =
      some (f4 (f3 (f2 (f1 bot)))) := by
    show (updateBot stC.bots alloc.bot_id f4).find?
      (fun b => b.bot_id == alloc.bot_id) = _
    rw [find?_updateBot _ _ f4 (fun b => rfl), hfindC]
    rfl
  -- the state after the private-info append (the engine's final state)
  set f5 : BotState → BotState := fun b =>
    { b with private_info := b.private_info ++
        [{ target_stage := (TournamentEngine.absoluteToStagePeriod
              st.config.stages (ctx.absolute_period + RESCIND_REVEAL_DELAY)).1
           target_period := (TournamentEngine.absoluteToStagePeriod
              st.config.stages (ctx.absolute_period + RESCIND_REVEAL_DELAY)).2
           tokens := alloc.tokens_allocated
           reveal_at_absolute_period :=
             ctx.absolute_period + RESCIND_REVEAL_DELAY }] } with hf5
  set stG : TournamentState :=
    { stD with
      pending_rescinds := stD.pending_rescinds ++
        [{ bot_id := alloc.bot_id
           source_stage := ctx.stage
           source_period := ctx.period
           tokens := alloc.tokens_allocated
           price_refunded_per_token := alloc.price_paid_per_token
           total_refunded := alloc.total_paid
           rescinded_at_absolute := ctx.absolute_period
           reveal_at_absolute := ctx.absolute_period + RESCIND_REVEAL_DELAY }]
      rescind_supply_queue := stD.rescind_supply_queue ++
        [{ target_absolute_period := ctx.absolute_period + RESCIND_REVEAL_DELAY
           tokens := alloc.tokens_allocated
           source_description :=
             "Rescind from stage " ++ toString ctx.stage ++ " period " ++
               toString ctx.period ++ " by " ++ alloc.bot_id }]
      bots := (updateBot stD.bots alloc.bot_id f5) } with hstG
  have hproc : TournamentEngine.processRescind stB alloc.bot_id ctx alloc
      ctx.absolute_period = .ok stG := by
    unfold TournamentEngine.processRescind
    rw [hrem]
    show (TournamentStore.refundBudget stC alloc.bot_id alloc.total_paid >>= _) = _
    rw [href, exceptBind_ok]
    dsimp only []
    rw [show findBot
        (TournamentStore.addRescindSupply
          (TournamentStore.addPendingRescind stD
            { bot_id := alloc.bot_id, source_stage := ctx.stage,
              source_period := ctx.period, tokens := alloc.tokens_allocated,
              price_refunded_per_token := alloc.price_paid_per_token,
              total_refunded := alloc.total_paid,
              rescinded_at_absolute := ctx.absolute_period,
              reveal_at_absolute := ctx.absolute_period + RESCIND_REVEAL_DELAY })
          { target_absolute_period := ctx.absolute_period + RESCIND_REVEAL_DELAY,
            tokens := alloc.tokens_allocated,
            source_description :=
              "Rescind from stage " ++ toString ctx.stage ++ " period " ++
                toString ctx.period ++ " by " ++ alloc.bot_id })
        alloc.bot_id = some (f4 (f3 (f2 (f1 bot)))) from hfindD]
    rfl
  refine ⟨stB, stG, hsettle, hproc, ?_⟩
  have hbots : stG.bots =
      updateBot st.bots alloc.bot_id (fun b => f5 (f4 (f3 (f2 (f1 b))))) := by
    show updateBot (updateBot (updateBot (updateBot (updateBot st.bots
      alloc.bot_id f1) alloc.bot_id f2) alloc.bot_id f3) alloc.bot_id f4)
      alloc.bot_id f5 = _
    rw [updateBot_comp _ _ f1 f2 (fun b => rfl),
      updateBot_comp _ _ (fun b => f2 (f1 b)) f3 (fun b => rfl),
      updateBot_comp _ _ (fun b => f3 (f2 (f1 b))) f4 (fun b => rfl),
      updateBot_comp _ _ (fun b => f4 (f3 (f2 (f1 b)))) f5 (fun b => rfl)]
  rw [hbots]
  apply map_updateBot_eq
  intro b hbmem hbid
  show (b.remaining_budget - alloc.total_paid + alloc.total_paid,
      (b.holdings ++ [h0]).eraseP
        (fun h' => h'.stage == ctx.stage && h'.period == ctx.period),
      b.weighted_points + h0.quantity * h0.points_per_token -
        h0.quantity * h0.points_per_token,
      bumpAt (bumpAt b.tokens_per_stage h0.stage h0.quantity) h0.stage
        (-h0.quantity),
      b.sp) =
    (b.remaining_budget, b.holdings, b.weighted_points, b.tokens_per_stage, b.sp)
  have her : (b.holdings ++ [h0]).eraseP
      (fun h' => h'.stage == ctx.stage && h'.period == ctx.period) =
      b.holdings := by
    rw [List.eraseP_append_right [h0]
      (fun x hx => by simpa using (hnoh b hbmem hbid x hx))]
    rw [List.eraseP_cons_of_pos (by simp), List.append_nil]
  have e1 : b.remaining_budget - alloc.total_paid + alloc.total_paid =
      b.remaining_budget := by ring
  have e2 : b.weighted_points + h0.quantity * h0.points_per_token -
      h0.quantity * h0.points_per_token = b.weighted_points := by ring
  rw [her, bumpAt_bumpAt_neg, e1, e2]

/-! #### Maximum lemmas for the second-price characterisation -/

theorem foldl_max_mem (x : ℚ) (xs : List ℚ) : xs.foldl max x ∈ x :: xs := by
  induction xs generalizing x with
  | nil => simp
  | cons y ys ih =>
    have hmem := ih (max x y)
    rcases List.mem_cons.1 hmem with h | h
    · rcases max_choice x y with hxy | hxy
      · exact List.mem_cons.2 (Or.inl (h.trans hxy))
      · exact List.mem_cons.2 (Or.inr (List.mem_cons.2 (Or.inl (h.trans hxy))))
    · exact List.mem_cons.2 (Or.inr (List.mem_cons.2 (Or.inr h)))

theorem le_foldl_max (x : ℚ) (xs : List ℚ) :
    x ≤ xs.foldl max x ∧ ∀ y ∈ xs, y ≤ xs.foldl max x := by
  induction xs generalizing x with
  | nil => exact ⟨le_refl x, by simp⟩
  | cons y ys ih =>
    obtain ⟨h1, h2⟩ := ih (max x y)
    refine ⟨le_trans (le_max_left x y) h1, ?_⟩
    intro z hz
    rcases List.mem_cons.1 hz with rfl | hz
    · exact le_trans (le_max_right x z) h1
    · exact h2 z hz

theorem maxQ_mem {l : List ℚ} (h : l ≠ []) : maxQ l ∈ l := by
  cases l with
  | nil => exact absurd rfl h
  | cons x xs => exact foldl_max_mem x xs

theorem maxQ_ge {l : List ℚ} : ∀ x ∈ l, x ≤ maxQ l := by
  cases l with
  | nil => simp
  | cons x xs =>
    intro y hy
    rcases List.mem_cons.1 hy with rfl | hy
    · exact (le_foldl_max y xs).1
    · exact (le_foldl_max x xs).2 y hy

theorem maxQ_eq_of {l : List ℚ} {m : ℚ} (hm : m ∈ l) (hle : ∀ x ∈ l, x ≤ m) :
    maxQ l = m :=
  le_antisymm (hle _ (maxQ_mem (by rintro rfl; simp at hm))) (maxQ_ge m hm)

theorem maxQ_perm {l l' : List ℚ} (h : l.Perm l') : maxQ l = maxQ l' := by
  rcases eq_or_ne l [] with rfl | hne
  · rw [List.Perm.eq_nil h.symm]
  · refine (maxQ_eq_of (h.mem_iff.1 (maxQ_mem hne)) ?_).symm
    intro x hx
    exact maxQ_ge x (h.mem_iff.2 hx)

/-- Membership in the Vickrey valid-bid set gives the floor bound. -/
theorem mem_vickreyValid {bids : List Bid} {fl : ℚ} {b : Bid}
    (h : b ∈ vickreyValidBids bids fl) : fl ≤ b.price_per_token := by
  have := (List.mem_filter.1 h).2
  simpa using this

/-- **C4.** The second-price single-winner mechanism: with no admitted bid, no
allocation and a reported clearing price equal to the floor; with exactly one
admitted bid, the entire supply goes to that bidder at the floor; with two or
more admitted bids, the entire supply goes to a highest-price admitted bidder —
with ties resolved in favour of the earliest submission timestamp — at the
second-highest admitted price per token. -/
theorem C4_vickrey_clearing (bids : List Bid) (supply floorPrice : ℚ) :
    (vickreyValidBids bids floorPrice = [] →
      (vickreyClear bids supply floorPrice).allocations = [] ∧
      (vickreyClear bids supply floorPrice).clearing_price = floorPrice) ∧
    (∀ b, vickreyValidBids bids floorPrice = [b] →
      (vickreyClear bids supply floorPrice).allocations =
        [{ bot_id := b.bot_id, tokens_allocated := supply,
           price_paid_per_token := floorPrice,
           total_paid := floorPrice * supply }] ∧
      (vickreyClear bids supply floorPrice).clearing_price = floorPrice) ∧
    (2 ≤ (vickreyValidBids bids floorPrice).length →
      ∃ w, w ∈ vickreyValidBids bids floorPrice ∧
        w.price_per_token = maxQ ((vickreyValidBids bids floorPrice).map
          (fun b => b.price_per_token)) ∧
        (∀ b ∈ vickreyValidBids bids floorPrice,
          b.price_per_token = w.price_per_token →
            w.submitted_at ≤ b.submitted_at) ∧
        (vickreyClear bids supply floorPrice).allocations =
          [{ bot_id := w.bot_id, tokens_allocated := supply,
             price_paid_per_token := secondHighestPrice
               ((vickreyValidBids bids floorPrice).map (fun b => b.price_per_token)),
             total_paid := secondHighestPrice
               ((vickreyValidBids bids floorPrice).map (fun b => b.price_per_token))
               * supply }] ∧
        (vickreyClear bids supply floorPrice).clearing_price =
          secondHighestPrice ((vickreyValidBids bids floorPrice).map
            (fun b => b.price_per_token))) := by
  refine ⟨?_, ?_, ?_⟩
  · intro h
    unfold vickreyClear
    rw [h]
    exact ⟨rfl, rfl⟩
  · intro b hb
    have hs1 : vickreySorted bids floorPrice = [b] := by
      unfold vickreySorted; rw [hb]
      simp [List.insertionSort, List.orderedInsert]
    have hfl : floorPrice ≤ b.price_per_token :=
      mem_vickreyValid (by rw [hb]; simp)
    have hpp : vickreyPaymentPrice bids floorPrice b = floorPrice := by
      unfold vickreyPaymentPrice
      rw [hs1]
      norm_num
    unfold vickreyClear
    rw [hb]
    dsimp only []
    rw [hs1, hpp]
    exact ⟨rfl, rfl⟩
  · intro hlen
    have hperm : (vickreySorted bids floorPrice).Perm
        (vickreyValidBids bids floorPrice) := List.perm_insertionSort _ _
    have hsorted0 : (vickreySorted bids floorPrice).Sorted bidOrder :=
      List.sorted_insertionSort _ _
    have hlen2 : 2 ≤ (vickreySorted bids floorPrice).length := by
      rw [hperm.length_eq]; exact hlen
    rcases hs : vickreySorted bids floorPrice with _ | ⟨w, rest⟩
    · rw [hs] at hlen2; simp at hlen2
    rcases rest with _ | ⟨b2, t⟩
    · rw [hs] at hlen2; simp at hlen2
    rw [hs] at hperm
    have hsorted : (w :: b2 :: t).Sorted bidOrder := hs ▸ hsorted0
    have hwmem : w ∈ vickreyValidBids bids floorPrice := hperm.mem_iff.1 (by simp)
    have hwmax : ∀ b ∈ vickreyValidBids bids floorPrice,
        b.price_per_token ≤ w.price_per_token := by
      intro b hbmem
      rcases List.mem_cons.1 (hperm.mem_iff.2 hbmem) with rfl | hbs
      · exact le_refl _
      · rcases List.rel_of_sorted_cons hsorted b hbs with h | ⟨h, _⟩
        · exact le_of_lt h
        · exact le_of_eq h.symm
    have hmaxeq : maxQ ((vickreyValidBids bids floorPrice).map
        (fun b => b.price_per_token)) = w.price_per_token :=
      maxQ_eq_of (List.mem_map.2 ⟨w, hwmem, rfl⟩) (by
        intro x hx
        obtain ⟨b, hbm, rfl⟩ := List.mem_map.1 hx
        exact hwmax b hbm)
    have hsh : secondHighestPrice ((vickreyValidBids bids floorPrice).map
        (fun b => b.price_per_token)) = b2.price_per_token := by
      unfold secondHighestPrice
      rw [hmaxeq]
      have hmapperm : ((vickreyValidBids bids floorPrice).map
          (fun b => b.price_per_token)).Perm
          (w.price_per_token :: b2.price_per_token ::
            t.map (fun b => b.price_per_token)) := by
        have := (hperm.symm.map (fun b => b.price_per_token))
        simpa using this
      have herase : (((vickreyValidBids bids floorPrice).map
          (fun b => b.price_per_token)).erase w.price_per_token).Perm
          (b2.price_per_token :: t.map (fun b => b.price_per_token)) := by
        have := hmapperm.erase w.price_per_token
        rwa [List.erase_cons_head] at this
      rw [maxQ_perm herase]
      refine maxQ_eq_of (by simp) ?_
      intro x hx
      rcases List.mem_cons.1 hx with rfl | hx
      · exact le_refl _
      · obtain ⟨b, hbm, rfl⟩ := List.mem_map.1 hx
        rcases List.rel_of_sorted_cons hsorted.of_cons b hbm with h | ⟨h, _⟩
        · exact le_of_lt h
        · exact le_of_eq h.symm
    have hts : ∀ b ∈ vickreyValidBids bids floorPrice,
        b.price_per_token = w.price_per_token →
          w.submitted_at ≤ b.submitted_at := by
      intro b hbmem heq
      rcases List.mem_cons.1 (hperm.mem_iff.2 hbmem) with rfl | hbs
      · exact le_refl _
      · rcases List.rel_of_sorted_cons hsorted b hbs with h | ⟨_, h⟩
        · exact absurd heq (ne_of_lt h)
        · exact h
    rcases hadm : vickreyValidBids bids floorPrice with _ | ⟨w0, rest0⟩
    · rw [hadm] at hlen; simp at hlen
    have hhead : (vickreySorted bids floorPrice).headD w0 = w := by rw [hs]; rfl
    have hfl2 : floorPrice ≤ b2.price_per_token :=
      mem_vickreyValid (hperm.mem_iff.1 (by simp))
    have hpp : vickreyPaymentPrice bids floorPrice w0 = b2.price_per_token := by
      unfold vickreyPaymentPrice
      dsimp only []
      rw [hs, if_pos (show (2:ℕ) ≤ (w :: b2 :: t).length by simp),
        show (w :: b2 :: t).getD 1 w0 = b2 from rfl, if_neg (not_lt.2 hfl2)]
    have hal : (vickreyClear bids supply floorPrice).allocations =
        [{ bot_id := w.bot_id
           tokens_allocated := supply
           price_paid_per_token := b2.price_per_token
           total_paid := b2.price_per_token * supply }] := by
      unfold vickreyClear
      rw [hadm]
      dsimp only []
      rw [hhead, hpp]
    have hcp : (vickreyClear bids supply floorPrice).clearing_price =
        b2.price_per_token := by
      unfold vickreyClear
      rw [hadm]
      dsimp only []
      rw [hpp]
    rw [← hadm]
    refine ⟨w, hwmem, hmaxeq.symm, hts, ?_, ?_⟩
    · rw [hal, hsh]
    · rw [hcp, hsh]

/-- **C4 witness.** The second-price characterisation applies to a concrete
two-bid input (supply 5, floor 10). -/
theorem C4_vickrey_clearing_witness :
    2 ≤ (vickreyValidBids c4_bids 10).length ∧
    (∃ w, w ∈ vickreyValidBids c4_bids 10 ∧
      w.price_per_token = maxQ ((vickreyValidBids c4_bids 10).map
        (fun b => b.price_per_token)) ∧
      (∀ b ∈ vickreyValidBids c4_bids 10,
        b.price_per_token = w.price_per_token →
          w.submitted_at ≤ b.submitted_at) ∧
      (vickreyClear c4_bids 5 10).allocations =
        [{ bot_id := w.bot_id, tokens_allocated := 5,
           price_paid_per_token := secondHighestPrice
             ((vickreyValidBids c4_bids 10).map (fun b => b.price_per_token)),
           total_paid := secondHighestPrice
             ((vickreyValidBids c4_bids 10).map (fun b => b.price_per_token))
             * 5 }] ∧
      (vickreyClear c4_bids 5 10).clearing_price =
        secondHighestPrice ((vickreyValidBids c4_bids 10).map
          (fun b => b.price_per_token))) :=
  ⟨by decide, (C4_vickrey_clearing c4_bids 5 10).2.2 (by decide)⟩

/-- **C6 witness.** The round-trip theorem applies to a concrete one-bot state
with a concrete single-winner allocation. -/
theorem C6_rescind_roundtrip_witness :
    ∃ st1 st2,
      TournamentEngine.settleAllocations c6_state c6_ctx [c6_alloc] = .ok st1 ∧
      TournamentEngine.processRescind st1 c6_alloc.bot_id c6_ctx c6_alloc
        c6_ctx.absolute_period = .ok st2 ∧
      st2.bots.map (fun b => (b.remaining_budget, b.holdings, b.weighted_points,
          b.tokens_per_stage, b.sp)) =
        c6_state.bots.map (fun b => (b.remaining_budget, b.holdings,
          b.weighted_points, b.tokens_per_stage, b.sp)) :=
  C6_rescind_roundtrip c6_state c6_ctx c6_alloc c6_bot (by decide) (by decide)
    (by decide)

/-- **C10.** `deductBudget` is atomic on error: whenever the bot id is unknown
or the amount strictly exceeds the bot's remaining budget, the call throws
(returns `.error`), committing no state change — in particular it never returns
any updated store.  The two error conditions are exactly the guards preceding
the single mutation in `TournamentStore.deductBudget`. -/
theorem C10_deductBudget_atomic_on_error (st : TournamentState) (botId : String)
    (amount : ℚ)
    (h : findBot st botId = none ∨
      ∃ b, findBot st botId = some b ∧ b.remaining_budget < amount) :
    ∃ e, TournamentStore.deductBudget st botId amount = .error e ∧
      ∀ st', TournamentStore.deductBudget st botId amount ≠ .ok st' := by
  unfold TournamentStore.deductBudget
  rcases h with h | ⟨b, hb, hlt⟩
  · rw [h]
    exact ⟨_, rfl, fun _ => by simp⟩
  · rw [hb]
    exact ⟨"Bot " ++ botId ++ " cannot afford the amount", by simp [hlt],
      fun _ => by simp [hlt]⟩

/-- **C10 witness.** The unknown-bot and the insufficient-funds conditions both
hold on concrete inputs and the theorem applies. -/
theorem C10_deductBudget_atomic_on_error_witness :
    ∃ e, TournamentStore.deductBudget c10_state "A" 6 = .error e ∧
      ∀ st', TournamentStore.deductBudget c10_state "A" 6 ≠ .ok st' :=
  C10_deductBudget_atomic_on_error c10_state "A" 6
    (Or.inr ⟨c10_bot, by decide, by decide⟩)

/-- **C9 counterexample.** Constructing a tournament from a malformed
configuration (a stage with zero periods and a negative floor price) does *not*
fail: the constructor performs no configuration validation and successfully
builds the initial store. -/
theorem C9_counterexample_malformed_config_accepted :
    TournamentEngine.create badConfig [oracleX] =
      .ok (TournamentStore.new badConfig ["X"]) := by
  decide

/-- **C9 (amended).** Construction fails exactly on a duplicate agent
identifier; a malformed configuration is never rejected at construction time. -/
theorem C9_create_fails_iff_duplicate_id (config : TournamentConfig)
    (agents : List AgentOracle) :
    (∃ e, TournamentEngine.create config agents = .error e) ↔
      ¬ (agents.map (fun a => a.bot_id)).Nodup := by
  have key : ∀ (l : List AgentOracle) (seen : List String),
      TournamentEngine.findDuplicateId l seen = none ↔
        ((l.map (fun a => a.bot_id)).Nodup ∧ ∀ a ∈ l, a.bot_id ∉ seen) := by
    intro l
    induction l with
    | nil => intro seen; simp [TournamentEngine.findDuplicateId]
    | cons a rest ih =>
      intro seen
      by_cases hmem : a.bot_id ∈ seen
      · simp only [TournamentEngine.findDuplicateId, if_pos hmem]
        simp only [List.map_cons, List.nodup_cons, List.mem_cons]
        constructor
        · intro h; exact absurd h (by simp)
        · rintro ⟨-, hall⟩
          exact absurd hmem (hall a (by simp))
      · simp only [TournamentEngine.findDuplicateId, if_neg hmem]
        rw [ih (a.bot_id :: seen)]
        constructor
        · rintro ⟨hnd, hall⟩
          refine ⟨?_, ?_⟩
          · rw [List.map_cons, List.nodup_cons]
            refine ⟨?_, hnd⟩
            intro hmem'
            obtain ⟨b, hb, hfb⟩ := List.mem_map.1 hmem'
            exact hall b hb (by rw [hfb]; exact List.mem_cons_self _ _)
          · intro b hb
            rcases List.mem_cons.1 hb with rfl | hb'
            · exact hmem
            · exact fun hseen => hall b hb' (List.mem_cons_of_mem _ hseen)
        · rintro ⟨hndc, hallc⟩
          rw [List.map_cons, List.nodup_cons] at hndc
          obtain ⟨hnotin, hnd⟩ := hndc
          refine ⟨hnd, ?_⟩
          intro b hb hbmem
          rcases List.mem_cons.1 hbmem with heq | hseen
          · exact hnotin (List.mem_map.2 ⟨b, hb, heq⟩)
          · exact hallc b (List.mem_cons_of_mem _ hb) hseen
  constructor
  · rintro ⟨e, he⟩ hnodup
    unfold TournamentEngine.create at he
    rcases hfd : TournamentEngine.findDuplicateId agents [] with _ | id
    · rw [hfd] at he; exact absurd he (by simp)
    · have := (key agents []).2 ⟨hnodup, by simp⟩
      rw [hfd] at this; exact absurd this (by simp)
  · intro hnotnodup
    unfold TournamentEngine.create
    rcases hfd : TournamentEngine.findDuplicateId agents [] with _ | id
    · have := (key agents []).1 hfd
      exact absurd this.1 hnotnodup
    · exact ⟨_, rfl⟩

/-- **C2 counterexample.** Running the engine twice with the *same*
configuration, the same (single-element) agent list and the same agent
decisions does **not** produce byte-identical period logs: the recorded bid ids
(and submission timestamps) embed the ambient wall clock (`Date.now()` in
`generateId` / `new Date()`), so two runs under different clocks differ; the
logs also differ when only the module-level id counter differs (it is global
state that persists across engine instances in one process). -/
theorem C2_counterexample_logs_not_byte_identical :
    (TournamentEngine.runTournament (fun _ => 0) 0 c2_config [c2_agent]).map
        (fun r => r.all_period_results) ≠
      (TournamentEngine.runTournament (fun _ => 1) 0 c2_config [c2_agent]).map
        (fun r => r.all_period_results) ∧
    (TournamentEngine.runTournament (fun _ => 0) 0 c2_config [c2_agent]).map
        (fun r => r.all_period_results) ≠
      (TournamentEngine.runTournament (fun _ => 0) 1 c2_config [c2_agent]).map
        (fun r => r.all_period_results) := by
  constructor <;> decide

/-- **C5 counterexample.** An over-subscribed uniform-price input on which the
at-clearing allocations do *not* sum to the residual supply: with supply
2·10⁻⁸ and four tied bids of quantity ratio 3:3:3:1, each non-last pro-rata
share `round8(2·10⁻⁸ · 3/10) = round8(6·10⁻⁹)` rounds up to 10⁻⁸; the last
bid's leftover is negative and is skipped, so the allocations sum to 3·10⁻⁸
and the total tokens allocated exceed the supply. -/
theorem C5_counterexample_proRata_overallocates :
    ((c5_bids.map (fun b => b.total_cost / b.price_per_token)).sum > 2/100000000) ∧
    (uniformClear c5_bids (2/100000000) 1).total_tokens_allocated = 3/100000000 ∧
    (uniformClear c5_bids (2/100000000) 1).total_tokens_allocated ≠ 2/100000000 := by
  refine ⟨by decide, by decide, by decide⟩

/-- **C3 counterexample.** A reachable tournament run in which settlement hits
the insufficient-funds branch of `deductBudget`: every admitted bid satisfies
the admission predicate (price ≥ floor, price > 0, price × supply ≤ budget),
yet the uniform-price pro-rata rounding over-allocates the supply, and the
agent's sequential deductions exceed its remaining budget, aborting the run
with the "cannot afford" error. -/
theorem C3_counterexample_insufficient_funds_reachable :
    TournamentEngine.runEngine (fun t => t) 0 c3_config [c3_agent] =
      .error ("Bot " ++ "A" ++ " cannot afford the amount") := by
  decide

/-- **C1.** In a two-stage run (one period each) where the winner of the first
period rescinds, the emitted period record carries `rescinded = false` — the
source's internal sentinel — which is exposed as-is in the period log and in
the history of every observation, contradicting the specified external state
space (`unset` until revelation, then `true`): the value `false` is observable
before the reveal period (and here, the reveal lying beyond the horizon, it is
observable forever). -/
theorem C1_rescinded_false_sentinel_is_observable :
    (TournamentEngine.runEngine (fun t => t) 0 c1_config [c1_agent]).map
        (fun st => st.period_results.map (fun r => r.rescinded)) =
      .ok [some false, none] ∧
    (TournamentEngine.runEngine (fun t => t) 0 c1_config [c1_agent]).map
        (fun st => (TournamentEngine.buildObservation st "A" c1_ctx).map
          (fun o => o.history.map (fun r => r.rescinded))) =
      .ok (some [some false, none]) := by
  constructor <;> decide

/-! #### SP award fold lemmas (C8) -/

theorem present_updateBot (bots : List BotState) (botId q : String)
    (f : BotState → BotState) (hpres : ∀ b, (f b).bot_id = b.bot_id)
    (h : ∃ b ∈ bots, b.bot_id = q) :
    ∃ b ∈ updateBot bots botId f, b.bot_id = q := by
  obtain ⟨b, hb, hq⟩ := h
  by_cases hid : b.bot_id = botId
  · exact ⟨f b, List.mem_map.2 ⟨b, hb, by rw [if_pos hid]⟩, (hpres b).trans hq⟩
  · exact ⟨b, List.mem_map.2 ⟨b, hb, by rw [if_neg hid]⟩, hq⟩

theorem findBot_of_present (bots : List BotState) (q : String)
    (h : ∃ b ∈ bots, b.bot_id = q) :
    ∃ b, bots.find? (fun b => b.bot_id == q) = some b ∧ b.bot_id = q := by
  obtain ⟨b, hb, hq⟩ := h
  have hsome : (bots.find? (fun b => b.bot_id == q)).isSome := by
    rw [List.find?_isSome]
    exact ⟨b, hb, by simp [hq]⟩
  obtain ⟨b', hb'⟩ := Option.isSome_iff_exists.1 hsome
  refine ⟨b', hb', ?_⟩
  have := List.find?_some hb'
  simpa using this

theorem awardFold_ok (pairs : List ((String × ℚ) × ℚ)) (st : TournamentState)
    (hex : ∀ p ∈ pairs, ∃ b ∈ st.bots, b.bot_id = p.1.1) :
    ∃ st', pairs.foldlM
        (fun acc p => TournamentStore.awardSP acc p.1.1 p.2) st = .ok st' ∧
      st'.bots = awardAll st.bots pairs ∧ st'.config = st.config := by
  induction pairs generalizing st with
  | nil => exact ⟨st, rfl, rfl, rfl⟩
  | cons p rest ih =>
    obtain ⟨b0, hb0, hid0⟩ := findBot_of_present st.bots p.1.1
      (hex p (List.mem_cons_self _ _))
    have haw := awardSP_ok st p.1.1 p.2 b0 hb0
    set st1 : TournamentState :=
      { st with bots := updateBot st.bots p.1.1 (fun b => { b with sp := b.sp + p.2 }) }
      with hst1
    obtain ⟨st', hfold, hbots, hcfg⟩ := ih st1 (by
      intro q hq
      exact present_updateBot st.bots p.1.1 q.1.1 _ (fun b => rfl)
        (hex q (List.mem_cons_of_mem _ hq)))
    refine ⟨st', ?_, ?_, hcfg⟩
    · rw [List.foldlM_cons, haw, exceptBind_ok]
      exact hfold
    · rw [hbots]
      rfl

theorem spOf_awardAll_not_mem (bots : List BotState)
    (pairs : List ((String × ℚ) × ℚ)) (q : String)
    (h : q ∉ pairs.map (fun p => p.1.1)) :
    spOf (awardAll bots pairs) q = spOf bots q := by
  induction pairs generalizing bots with
  | nil => rfl
  | cons p rest ih =>
    have hq : q ∉ rest.map (fun p => p.1.1) := fun hc => h (by simp [hc])
    have hne : p.1.1 ≠ q := fun hc => h (by simp [hc])
    show spOf (awardAll (updateBot bots p.1.1 _) rest) q = _
    rw [ih _ hq]
    unfold spOf
    rw [find?_updateBot_ne bots p.1.1 q
      (fun b => { b with sp := b.sp + p.2 }) (fun b => rfl) hne]

theorem spOf_awardAll_at (pairs : List ((String × ℚ) × ℚ)) (bots : List BotState)
    (hnd : (pairs.map (fun p => p.1.1)).Nodup)
    (hex : ∀ p ∈ pairs, ∃ b ∈ bots, b.bot_id = p.1.1) :
    ∀ i (hi : i < pairs.length),
      spOf (awardAll bots pairs) (pairs.get ⟨i, hi⟩).1.1 =
        spOf bots (pairs.get ⟨i, hi⟩).1.1 + (pairs.get ⟨i, hi⟩).2 := by
  induction pairs generalizing bots with
  | nil => intro i hi; exact absurd hi (by simp)
  | cons p rest ih =>
    intro i hi
    cases i with
    | zero =>
      show spOf (awardAll bots (p :: rest)) p.1.1 = spOf bots p.1.1 + p.2
      show spOf (awardAll (updateBot bots p.1.1 _) rest) p.1.1 = _
      have hnotin : p.1.1 ∉ rest.map (fun p => p.1.1) := by
        rw [List.map_cons, List.nodup_cons] at hnd
        exact hnd.1
      rw [spOf_awardAll_not_mem _ _ _ hnotin]
      obtain ⟨b0, hb0, hid0⟩ := findBot_of_present bots p.1.1
        (hex p (List.mem_cons_self _ _))
      unfold spOf
      rw [find?_updateBot bots p.1.1
        (fun b => { b with sp := b.sp + p.2 }) (fun b => rfl), hb0]
      rfl
    | succ n =>
      have hn : n < rest.length := by simpa using hi
      have hndr : (rest.map (fun p => p.1.1)).Nodup := by
        rw [List.map_cons, List.nodup_cons] at hnd
        exact hnd.2
      have hexr : ∀ q ∈ rest, ∃ b ∈ updateBot bots p.1.1
          (fun b => { b with sp := b.sp + p.2 }), b.bot_id = q.1.1 := by
        intro q hq
        exact present_updateBot bots p.1.1 q.1.1 _ (fun b => rfl)
          (hex q (List.mem_cons_of_mem _ hq))
      have hih := ih (updateBot bots p.1.1 (fun b => { b with sp := b.sp + p.2 }))
        hndr hexr n hn
      rw [show ((p :: rest).get ⟨n + 1, hi⟩) = rest.get ⟨n, hn⟩ from rfl]
      show spOf (awardAll (updateBot bots p.1.1 _) rest) (rest.get ⟨n, hn⟩).1.1 = _
      rw [hih]
      have hne : p.1.1 ≠ (rest.get ⟨n, hn⟩).1.1 := by
        rw [List.map_cons, List.nodup_cons] at hnd
        intro hc
        exact hnd.1 (hc ▸ List.mem_map.2 ⟨rest.get ⟨n, hn⟩, List.get_mem _ _ _, rfl⟩)
      unfold spOf
      rw [find?_updateBot_ne bots p.1.1 _
        (fun b => { b with sp := b.sp + p.2 }) (fun b => rfl) hne]

/-- A zipped list's first components form a sublist of the first list. -/
theorem zip_fst_sublist {α β : Type _} :
    ∀ (l₁ : List α) (l₂ : List β), ((l₁.zip l₂).map Prod.fst).Sublist l₁
  | [], _ => by simp
  | _ :: _, [] => by simp
  | a :: t₁, b :: t₂ => by
    simpa using List.Sublist.cons₂ a (zip_fst_sublist t₁ t₂)

/-- **C8.** Stage SP awarding: the stage ranking consists of exactly the agents
with strictly positive tokens in the stage, ordered by token count descending
with id-ascending tiebreak; `awardStageSP` truncates it to the SP vector's
length and gives the i-th ranked agent the i-th SP value, leaving every other
agent's SP unchanged; and after the terminal stage the overall bonus goes to
the overall ranking's top agent exactly when that agent's weighted points are
strictly positive. -/
theorem C8_stage_and_bonus_sp (st : TournamentState) (stageIdx : ℕ) :
    (TournamentStore.getStageRanking st stageIdx).Perm
      ((st.bots.map (fun b => (b.bot_id, b.tokens_per_stage.getD stageIdx 0))).filter
          (fun e => 0 < e.2)) ∧
    (TournamentStore.getStageRanking st stageIdx).Sorted rankOrder ∧
    ((st.bots.map (fun b => b.bot_id)).Nodup →
      ∃ st', TournamentEngine.awardStageSP st stageIdx = .ok st' ∧
        (∀ i (hi : i < ((TournamentStore.getStageRanking st stageIdx).zip
            st.config.sp_awards).length),
          botSP st' (((TournamentStore.getStageRanking st stageIdx).zip
              st.config.sp_awards).get ⟨i, hi⟩).1.1 =
            botSP st (((TournamentStore.getStageRanking st stageIdx).zip
              st.config.sp_awards).get ⟨i, hi⟩).1.1 +
            (((TournamentStore.getStageRanking st stageIdx).zip
              st.config.sp_awards).get ⟨i, hi⟩).2) ∧
        (∀ q, q ∉ ((TournamentStore.getStageRanking st stageIdx).zip
            st.config.sp_awards).map (fun p => p.1.1) →
          botSP st' q = botSP st q)) ∧
    (match TournamentStore.getOverallRanking st with
     | [] => TournamentEngine.awardOverallBonusSP st = .ok st
     | top :: _ =>
       (0 < top.2 → ∃ st2, TournamentEngine.awardOverallBonusSP st = .ok st2 ∧
         botSP st2 top.1 = botSP st top.1 + st.config.overall_bonus_sp ∧
         (∀ q, q ≠ top.1 → botSP st2 q = botSP st q)) ∧
       (¬ 0 < top.2 → TournamentEngine.awardOverallBonusSP st = .ok st)) := by
  have hrperm : (TournamentStore.getStageRanking st stageIdx).Perm
      ((st.bots.map (fun b => (b.bot_id, b.tokens_per_stage.getD stageIdx 0))).filter
        (fun e => 0 < e.2)) := List.perm_insertionSort _ _
  refine ⟨hrperm, List.sorted_insertionSort _ _, ?_, ?_⟩
  · intro hnd
    have hex : ∀ p ∈ (TournamentStore.getStageRanking st stageIdx).zip
        st.config.sp_awards, ∃ b ∈ st.bots, b.bot_id = p.1.1 := by
      intro p hp
      have hpr : p.1 ∈ TournamentStore.getStageRanking st stageIdx :=
        (List.of_mem_zip hp).1
      have hpf := hrperm.mem_iff.1 hpr
      have hpm := (List.mem_filter.1 hpf).1
      obtain ⟨b, hb, hbe⟩ := List.mem_map.1 hpm
      exact ⟨b, hb, by rw [← hbe]⟩
    have hrnd : ((TournamentStore.getStageRanking st stageIdx).map Prod.fst).Nodup := by
      have hfnd : (((st.bots.map (fun b => (b.bot_id,
          b.tokens_per_stage.getD stageIdx 0))).filter
            (fun e => 0 < e.2)).map Prod.fst).Nodup := by
        refine List.Nodup.sublist (List.Sublist.map Prod.fst (List.filter_sublist _)) ?_
        rw [List.map_map]
        exact hnd
      exact ((hrperm.map Prod.fst).nodup_iff).2 hfnd
    have hzipnd : (((TournamentStore.getStageRanking st stageIdx).zip
        st.config.sp_awards).map (fun p => p.1.1)).Nodup := by
      have h1 : ((TournamentStore.getStageRanking st stageIdx).zip
          st.config.sp_awards).map (fun p => p.1.1) =
          ((((TournamentStore.getStageRanking st stageIdx).zip
            st.config.sp_awards).map Prod.fst).map Prod.fst) := by
        rw [List.map_map]
        exact List.map_congr_left (fun a _ => rfl)
      rw [h1]
      refine List.Nodup.sublist (List.Sublist.map Prod.fst
        (zip_fst_sublist _ _)) hrnd
    obtain ⟨st', hfold, hbots, _⟩ := awardFold_ok
      ((TournamentStore.getStageRanking st stageIdx).zip st.config.sp_awards) st hex
    refine ⟨st', hfold, ?_, ?_⟩
    · intro i hi
      have hat := spOf_awardAll_at _ st.bots hzipnd hex i hi
      show spOf st'.bots _ = spOf st.bots _ + _
      rw [hbots]
      exact hat
    · intro q hq
      show spOf st'.bots q = spOf st.bots q
      rw [hbots]
      exact spOf_awardAll_not_mem _ _ _ hq
  · rcases hor : TournamentStore.getOverallRanking st with _ | ⟨top, rest⟩
    · unfold TournamentEngine.awardOverallBonusSP
      rw [hor]
    · constructor
      · intro hpos
        have htopmem : top ∈ TournamentStore.getOverallRanking st := by
          rw [hor]; exact List.mem_cons_self _ _
        have htop' : top ∈ (st.bots.map
            (fun b => (b.bot_id, b.weighted_points))).insertionSort rankOrder :=
          htopmem
        have htopm := (List.perm_insertionSort rankOrder _).mem_iff.1 htop'
        obtain ⟨b, hb, hbe⟩ := List.mem_map.1 htopm
        obtain ⟨b0, hb0, hid0⟩ := findBot_of_present st.bots top.1
          ⟨b, hb, by rw [← hbe]⟩
        have haw := awardSP_ok st top.1 st.config.overall_bonus_sp b0 hb0
        refine ⟨{ st with bots := (updateBot st.bots top.1
          (fun b => { b with sp := b.sp + st.config.overall_bonus_sp })) },
          ?_, ?_, ?_⟩
        · unfold TournamentEngine.awardOverallBonusSP
          rw [hor]
          show (if 0 < top.2 then TournamentStore.awardSP st top.1
            st.config.overall_bonus_sp else Except.ok st) = _
          rw [if_pos hpos]
          exact haw
        · show spOf (updateBot st.bots top.1
            (fun b => { b with sp := b.sp + st.config.overall_bonus_sp })) top.1 =
            spOf st.bots top.1 + st.config.overall_bonus_sp
          unfold spOf
          rw [find?_updateBot st.bots top.1
            (fun b => { b with sp := b.sp + st.config.overall_bonus_sp })
            (fun b => rfl), hb0]
          rfl
        · intro q hq
          show spOf (updateBot st.bots top.1
            (fun b => { b with sp := b.sp + st.config.overall_bonus_sp })) q =
            spOf st.bots q
          unfold spOf
          rw [find?_updateBot_ne st.bots top.1 q
            (fun b => { b with sp := b.sp + st.config.overall_bonus_sp })
            (fun b => rfl) (Ne.symm hq)]
      · intro hneg
        unfold TournamentEngine.awardOverallBonusSP
        rw [hor]
        show (if 0 < top.2 then TournamentStore.awardSP st top.1
          st.config.overall_bonus_sp else Except.ok st) = _
        rw [if_neg hneg]

/-- **C8 witness.** The stage-award branch of the theorem applies to a concrete
three-bot end-of-stage state with distinct ids. -/
theorem C8_stage_and_bonus_sp_witness :
    ∃ st', TournamentEngine.awardStageSP c8_state 0 = .ok st' ∧
      (∀ i (hi : i < ((TournamentStore.getStageRanking c8_state 0).zip
          c8_state.config.sp_awards).length),
        botSP st' (((TournamentStore.getStageRanking c8_state 0).zip
            c8_state.config.sp_awards).get ⟨i, hi⟩).1.1 =
          botSP c8_state (((TournamentStore.getStageRanking c8_state 0).zip
            c8_state.config.sp_awards).get ⟨i, hi⟩).1.1 +
          (((TournamentStore.getStageRanking c8_state 0).zip
            c8_state.config.sp_awards).get ⟨i, hi⟩).2) ∧
      (∀ q, q ∉ ((TournamentStore.getStageRanking c8_state 0).zip
          c8_state.config.sp_awards).map (fun p => p.1.1) →
        botSP st' q = botSP c8_state q) :=
  (C8_stage_and_bonus_sp c8_state 0).2.2.1 (by decide)

/-! #### Uniform-price pro-rata lemmas (C5, C3) -/

theorem proRataLoop_sum (remaining cp T : ℚ) :
    ∀ (entries : List UEntry) (acc : ℚ), entries ≠ [] →
      0 < proRataLastShare remaining T entries acc →
      ((proRataLoop remaining cp T entries acc).map
        (fun a => a.tokens_allocated)).sum = remaining - acc
  | [], _, hne, _ => absurd rfl hne
  | [e], acc, _, hpos => by
    unfold proRataLoop
    unfold proRataLastShare at hpos
    dsimp only []
    rw [if_pos hpos]
    simp
  | e :: e' :: rest, acc, _, hpos => by
    unfold proRataLoop
    unfold proRataLastShare at hpos
    dsimp only [] at hpos ⊢
    by_cases ht : 0 < round8 (remaining * (e.quantity / T))
    · rw [if_pos ht]
      rw [if_pos ht] at hpos
      have hrec := proRataLoop_sum remaining cp T (e' :: rest)
        (acc + round8 (remaining * (e.quantity / T))) (by simp) hpos
      rw [List.map_cons, List.sum_cons, hrec]
      ring
    · rw [if_neg ht]
      rw [if_neg ht] at hpos
      exact proRataLoop_sum remaining cp T (e' :: rest) acc (by simp) hpos

theorem proRataLoop_tokens_pos (remaining cp T : ℚ) :
    ∀ (entries : List UEntry) (acc : ℚ) (a : PeriodAllocation),
      a ∈ proRataLoop remaining cp T entries acc → 0 < a.tokens_allocated
  | [], _, _, ha => absurd ha (by simp [proRataLoop])
  | [e], acc, a, ha => by
    unfold proRataLoop at ha
    dsimp only [] at ha
    by_cases hp : 0 < remaining - acc
    · rw [if_pos hp] at ha
      rcases List.mem_singleton.1 ha with rfl
      exact hp
    · rw [if_neg hp] at ha
      exact absurd ha (by simp)
  | e :: e' :: rest, acc, a, ha => by
    unfold proRataLoop at ha
    dsimp only [] at ha
    by_cases ht : 0 < round8 (remaining * (e.quantity / T))
    · rw [if_pos ht] at ha
      rcases List.mem_cons.1 ha with rfl | ha
      · exact ht
      · exact proRataLoop_tokens_pos remaining cp T (e' :: rest) _ a ha
    · rw [if_neg ht] at ha
      exact proRataLoop_tokens_pos remaining cp T (e' :: rest) acc a ha

theorem findClearing_mem (supply : ℚ) :
    ∀ (entries : List UEntry) (cum floor : ℚ), entries ≠ [] →
      supply ≤ cum + ((entries.map (fun e => e.quantity)).sum) →
      ∃ e ∈ entries, findClearingPrice supply entries cum floor = e.price
  | [], _, _, hne, _ => absurd rfl hne
  | e :: rest, cum, floor, _, hle => by
    unfold findClearingPrice
    by_cases hg : supply ≤ cum + e.quantity
    · rw [if_pos hg]
      exact ⟨e, List.mem_cons_self _ _, rfl⟩
    · rw [if_neg hg]
      rcases rest with _ | ⟨e2, rest2⟩
      · exfalso
        apply hg
        simpa using hle
      · obtain ⟨e0, he0, heq⟩ := findClearing_mem supply (e2 :: rest2)
          (cum + e.quantity) floor (by simp) (by
            rw [List.map_cons, List.sum_cons] at hle
            linarith)
        exact ⟨e0, List.mem_cons_of_mem _ he0, heq⟩

theorem findClearing_above_lt (supply : ℚ) :
    ∀ (entries : List UEntry) (cum floor : ℚ),
      entries.Sorted entryOrder →
      (∀ e ∈ entries, 0 < e.quantity) →
      supply ≤ cum + ((entries.map (fun e => e.quantity)).sum) →
      cum < supply →
      cum + ((entries.filter (fun e =>
        findClearingPrice supply entries cum floor < e.price)).map
          (fun e => e.quantity)).sum < supply
  | [], cum, floor, _, _, _, hcum => by simpa using hcum
  | e :: rest, cum, floor, hsorted, hpos, hle, hcum => by
    unfold findClearingPrice
    by_cases hg : supply ≤ cum + e.quantity
    · rw [if_pos hg]
      have hfe : (e :: rest).filter (fun x => decide (e.price < x.price)) = [] := by
        rw [List.filter_eq_nil]
        intro x hx
        rcases List.mem_cons.1 hx with rfl | hx
        · simp
        · rcases List.rel_of_sorted_cons hsorted x hx with h | ⟨h, _⟩
          · simp [not_lt.2 (le_of_lt h)]
          · simp [not_lt.2 (le_of_eq h.symm)]
      rw [hfe]
      simpa using hcum
    · rw [if_neg hg]
      have hcum2 : cum + e.quantity < supply := lt_of_not_le hg
      have hle2 : supply ≤ (cum + e.quantity) +
          ((rest.map (fun e => e.quantity)).sum) := by
        rw [List.map_cons, List.sum_cons] at hle
        linarith
      have hih := findClearing_above_lt supply rest (cum + e.quantity) floor
        hsorted.of_cons (fun x hx => hpos x (List.mem_cons_of_mem _ hx))
        hle2 hcum2
      by_cases hge : findClearingPrice supply rest (cum + e.quantity) floor <
          e.price
      · rw [List.filter_cons_of_pos (by simpa using hge)]
        rw [List.map_cons, List.sum_cons]
        linarith
      · rw [List.filter_cons_of_neg (by simpa using hge)]
        have hq := hpos e (List.mem_cons_self _ _)
        linarith

/-- **C5 (amended).** Under uniform-price over-subscription, whenever the
leftover share of the last at-clearing entry is strictly positive (so the
pro-rata loop does not skip it), the at-clearing allocations sum exactly to
the residual supply and the total tokens allocated equal the supply exactly;
without that hypothesis the identity fails (the last share can be
non-positive after banker's rounding of the earlier shares, and the loop
then skips it, as the recorded counterexample shows). -/
theorem C5_amended_prorata_exact_when_last_share_positive
    (bids : List Bid) (supply floorPrice : ℚ)
    (hsupply : 0 < supply) (hfloor : 0 < floorPrice)
    (hne : uniformValidBids bids floorPrice ≠ [])
    (hover : supply < uniformTotalDemand bids floorPrice)
    (hlast : 0 < proRataLastShare (uniformRemaining bids supply floorPrice)
      (((uniformAtClearing bids supply floorPrice).map (fun e => e.quantity)).sum)
      (uniformAtClearing bids supply floorPrice) 0) :
    ((proRataLoop (uniformRemaining bids supply floorPrice)
        (uniformCP bids supply floorPrice)
        (((uniformAtClearing bids supply floorPrice).map (fun e => e.quantity)).sum)
        (uniformAtClearing bids supply floorPrice) 0).map
      (fun a => a.tokens_allocated)).sum =
        uniformRemaining bids supply floorPrice ∧
    (uniformClear bids supply floorPrice).total_tokens_allocated = supply := by
  have hsorted : List.Sorted entryOrder (uniformEntries bids floorPrice) :=
    List.sorted_insertionSort entryOrder _
  have hperm : List.Perm (uniformEntries bids floorPrice)
      ((uniformValidBids bids floorPrice).map mkEntry) :=
    List.perm_insertionSort entryOrder _
  have hpos : ∀ e ∈ uniformEntries bids floorPrice, 0 < e.quantity := by
    intro e he
    obtain ⟨b, hb, rfl⟩ := List.mem_map.1 (hperm.mem_iff.1 he)
    have hb2 : floorPrice ≤ b.price_per_token ∧ 0 < b.total_cost := by
      unfold uniformValidBids at hb
      exact of_decide_eq_true (List.mem_filter.1 hb).2
    show 0 < b.total_cost / b.price_per_token
    exact div_pos hb2.2 (lt_of_lt_of_le hfloor hb2.1)
  have hentne : uniformEntries bids floorPrice ≠ [] := by
    intro h
    apply hne
    have hp2 : List.Perm (uniformEntries bids floorPrice)
        ((uniformValidBids bids floorPrice).map mkEntry) := hperm
    rw [h] at hp2
    have h3 : (uniformValidBids bids floorPrice).map mkEntry = [] :=
      hp2.symm.eq_nil
    exact List.map_eq_nil.1 h3
  have hle : supply ≤ 0 +
      ((uniformEntries bids floorPrice).map (fun e => e.quantity)).sum := by
    rw [zero_add]
    exact le_of_lt hover
  have habove := findClearing_above_lt supply (uniformEntries bids floorPrice)
    0 floorPrice hsorted hpos hle hsupply
  rw [zero_add] at habove
  have hrem : 0 < uniformRemaining bids supply floorPrice := by
    unfold uniformRemaining uniformAbove uniformCP
    linarith
  obtain ⟨e0, he0, heq⟩ := findClearing_mem supply
    (uniformEntries bids floorPrice) 0 floorPrice hentne hle
  have hatmem : e0 ∈ uniformAtClearing bids supply floorPrice := by
    unfold uniformAtClearing
    exact List.mem_filter.2 ⟨he0, decide_eq_true heq.symm⟩
  have hatne := List.ne_nil_of_mem hatmem
  have hsum := proRataLoop_sum (uniformRemaining bids supply floorPrice)
    (uniformCP bids supply floorPrice)
    (((uniformAtClearing bids supply floorPrice).map (fun e => e.quantity)).sum)
    (uniformAtClearing bids supply floorPrice) 0 hatne hlast
  rw [sub_zero] at hsum
  refine ⟨hsum, ?_⟩
  unfold uniformClear
  rw [if_neg hne]
  dsimp only []
  rw [if_neg (not_le.2 hover)]
  dsimp only []
  rw [if_pos ⟨hrem, hatne⟩]
  rw [hsum]
  unfold uniformRemaining
  ring

/-- Witness for the amended C5 theorem on the two tied half-demand bids:
supply 1, clearing price 2, residual 1, shares ½ and ½. -/
theorem C5_amended_prorata_exact_witness :
    (uniformClear c5w_bids 1 1).total_tokens_allocated = 1 :=
  (C5_amended_prorata_exact_when_last_share_positive c5w_bids 1 1
    (by decide) (by decide) (by decide) (by decide) (by decide)).2

/-- The Vickrey payment price never exceeds the price of the head of the
sorted admitted list (the winner): the second-highest sorted price is at most
the highest, and the floor clamp stays below the winner's price because every
admitted bid is at or above the floor. -/
theorem vickreyPaymentPrice_le_head (bids : List Bid) (floorPrice : ℚ)
    (w s0 : Bid) (tail : List Bid)
    (hs : vickreySorted bids floorPrice = s0 :: tail)
    (hfl : floorPrice ≤ s0.price_per_token) :
    vickreyPaymentPrice bids floorPrice w ≤ s0.price_per_token := by
  have hsorted : List.Sorted bidOrder (vickreySorted bids floorPrice) :=
    List.sorted_insertionSort bidOrder _
  rw [hs] at hsorted
  unfold vickreyPaymentPrice
  rw [hs]
  dsimp only []
  rcases tail with _ | ⟨s1, t2⟩
  · rw [if_neg (by simp : ¬ (2 ≤ ([s0] : List Bid).length))]
    rw [if_neg (lt_irrefl floorPrice)]
    exact hfl
  · have h01 : bidOrder s0 s1 := List.rel_of_sorted_cons hsorted s1 (by simp)
    have hle : s1.price_per_token ≤ s0.price_per_token := by
      unfold bidOrder bidBefore at h01
      rcases h01 with h | ⟨h, _⟩
      · exact le_of_lt h
      · exact le_of_eq h.symm
    rw [if_pos (by simp : 2 ≤ (s0 :: s1 :: t2).length)]
    rw [List.getD_cons_succ, List.getD_cons_zero]
    by_cases hc : s1.price_per_token < floorPrice
    · rw [if_pos hc]
      exact hfl
    · rw [if_neg hc]
      exact hle

/-- **C3 (amended).** For the single-winner second-price mechanism the
insufficient-funds branch of `deductBudget` is indeed unreachable at
settlement: when every bid satisfies the admission predicate against the
store (`total_cost = price × supply` and `total_cost` at most the bidding
bot's remaining budget, the bot being present), settling the mechanism's
allocations always succeeds, because the payment price never exceeds the
winner's admitted price. The original claim's quantification over every
mechanism is false: under the uniform-price mechanism the pro-rata rounding
can over-allocate and the insufficient-funds branch is reachable, as the
recorded counterexample run shows. -/
theorem C3_amended_vickrey_settlement_no_underflow
    (st : TournamentState) (ctx : PeriodContext) (bids : List Bid)
    (supply floorPrice : ℚ) (hsupply : 0 ≤ supply)
    (hadm : ∀ b ∈ bids,
      b.total_cost = b.price_per_token * supply ∧
      ∃ bot, findBot st b.bot_id = some bot ∧
        b.total_cost ≤ bot.remaining_budget) :
    ∃ st', TournamentEngine.settleAllocations st ctx
      (vickreyClear bids supply floorPrice).allocations = .ok st' := by
  rcases hv : vickreyValidBids bids floorPrice with _ | ⟨w, rest⟩
  · refine ⟨st, ?_⟩
    unfold vickreyClear
    rw [hv]
    rfl
  · have hperm : List.Perm (vickreySorted bids floorPrice)
        (vickreyValidBids bids floorPrice) := List.perm_insertionSort bidOrder _
    rcases hsrt : vickreySorted bids floorPrice with _ | ⟨s0, tail⟩
    · exfalso
      have hlen := hperm.length_eq
      rw [hsrt, hv] at hlen
      simp at hlen
    · have hmem0 : s0 ∈ vickreyValidBids bids floorPrice := by
        have hmi := hperm.mem_iff (a := s0)
        rw [hsrt] at hmi
        exact hmi.1 (List.mem_cons_self _ _)
      have hmemb : s0 ∈ bids ∧ floorPrice ≤ s0.price_per_token := by
        unfold vickreyValidBids at hmem0
        have h2 := List.mem_filter.1 hmem0
        exact ⟨h2.1, of_decide_eq_true h2.2⟩
      obtain ⟨hcost, bot, hfind, hbud⟩ := hadm s0 hmemb.1
      have hpp : vickreyPaymentPrice bids floorPrice w ≤ s0.price_per_token :=
        vickreyPaymentPrice_le_head bids floorPrice w s0 tail hsrt hmemb.2
      have hpay : vickreyPaymentPrice bids floorPrice w * supply ≤
          bot.remaining_budget := by
        calc vickreyPaymentPrice bids floorPrice w * supply
            ≤ s0.price_per_token * supply :=
              mul_le_mul_of_nonneg_right hpp hsupply
          _ = s0.total_cost := hcost.symm
          _ ≤ bot.remaining_budget := hbud
      have hded := deductBudget_ok st s0.bot_id
        (vickreyPaymentPrice bids floorPrice w * supply) bot hfind
        (not_lt.2 hpay)
      have hfind1 : findBot
          { st with bots := updateBot st.bots s0.bot_id (fun b =>
              { b with remaining_budget := b.remaining_budget -
                  vickreyPaymentPrice bids floorPrice w * supply }) } s0.bot_id =
          some ({ bot with remaining_budget := bot.remaining_budget -
              vickreyPaymentPrice bids floorPrice w * supply }) := by
        rw [findBot_update st st.bots s0.bot_id (fun b =>
          { b with remaining_budget := b.remaining_budget -
              vickreyPaymentPrice bids floorPrice w * supply }) (fun b => rfl)]
        rw [show st.bots.find? (fun b => b.bot_id == s0.bot_id) = some bot
          from hfind]
        rfl
      have hadd := addHolding_ok
        { st with bots := updateBot st.bots s0.bot_id (fun b =>
            { b with remaining_budget := b.remaining_budget -
                vickreyPaymentPrice bids floorPrice w * supply }) } s0.bot_id
        { stage := ctx.stage
          period := ctx.period
          quantity := supply
          price_paid_per_token := vickreyPaymentPrice bids floorPrice w
          points_per_token := ctx.points_per_token }
        ({ bot with remaining_budget := bot.remaining_budget -
            vickreyPaymentPrice bids floorPrice w * supply }) hfind1
      apply Exists.intro
      unfold vickreyClear
      rw [hv]
      dsimp only []
      rw [hsrt, List.headD_cons]
      unfold TournamentEngine.settleAllocations
      dsimp only []
      rw [hded, exceptBind_ok, hadd, exceptBind_ok]
      rfl

/-- Witness for the amended C3 theorem: one admitted bid at price 2 and
budget 10 settles successfully. -/
theorem C3_amended_vickrey_settlement_witness :
    ∃ st', TournamentEngine.settleAllocations c3w_state c3w_ctx
      (vickreyClear c3w_bids 1 1).allocations = .ok st' :=
  C3_amended_vickrey_settlement_no_underflow c3w_state c3w_ctx c3w_bids 1 1
    (by decide)
    (fun b hb => by
      have hb2 := List.mem_singleton.1 hb
      subst hb2
      exact ⟨by decide, c3w_bot, by decide, by decide⟩)

/-! #### Ledger-preservation lemmas (C7) -/

theorem exceptBind_ok_iff {α β : Type _} (e : Except String α)
    (f : α → Except String β) (b : β) :
    (e >>= f) = .ok b ↔ ∃ a, e = .ok a ∧ f a = .ok b := by
  cases e with
  | error s => simp [Bind.bind, Except.bind]
  | ok a => simp [Bind.bind, Except.bind]

theorem deductBudget_preserves (st : TournamentState) (botId : String)
    (amount : ℚ) (st' : TournamentState)
    (h : TournamentStore.deductBudget st botId amount = .ok st') :
    st'.config = st.config ∧ st'.period_results = st.period_results ∧
    st'.pending_rescinds = st.pending_rescinds ∧
    st'.rescind_supply_queue = st.rescind_supply_queue := by
  unfold TournamentStore.deductBudget at h
  cases hfb : findBot st botId with
  | none =>
    rw [hfb] at h
    simp at h
  | some bot =>
    rw [hfb] at h
    dsimp only [] at h
    by_cases hc : bot.remaining_budget < amount
    · rw [if_pos hc] at h
      simp at h
    · rw [if_neg hc] at h
      injection h with h2
      subst h2
      exact ⟨rfl, rfl, rfl, rfl⟩

theorem addHolding_preserves (st : TournamentState) (botId : String)
    (hold : TokenHolding) (st' : TournamentState)
    (h : TournamentStore.addHolding st botId hold = .ok st') :
    st'.config = st.config ∧ st'.period_results = st.period_results ∧
    st'.pending_rescinds = st.pending_rescinds ∧
    st'.rescind_supply_queue = st.rescind_supply_queue := by
  unfold TournamentStore.addHolding at h
  cases hfb : findBot st botId with
  | none =>
    rw [hfb] at h
    simp at h
  | some bot =>
    rw [hfb] at h
    injection h with h2
    subst h2
    exact ⟨rfl, rfl, rfl, rfl⟩

theorem refundBudget_preserves (st : TournamentState) (botId : String)
    (amount : ℚ) (st' : TournamentState)
    (h : TournamentStore.refundBudget st botId amount = .ok st') :
    st'.config = st.config ∧ st'.period_results = st.period_results ∧
    st'.pending_rescinds = st.pending_rescinds ∧
    st'.rescind_supply_queue = st.rescind_supply_queue := by
  unfold TournamentStore.refundBudget at h
  cases hfb : findBot st botId with
  | none =>
    rw [hfb] at h
    simp at h
  | some bot =>
    rw [hfb] at h
    injection h with h2
    subst h2
    exact ⟨rfl, rfl, rfl, rfl⟩

theorem awardSP_preserves (st : TournamentState) (botId : String)
    (points : ℚ) (st' : TournamentState)
    (h : TournamentStore.awardSP st botId points = .ok st') :
    st'.config = st.config ∧ st'.period_results = st.period_results ∧
    st'.pending_rescinds = st.pending_rescinds ∧
    st'.rescind_supply_queue = st.rescind_supply_queue := by
  unfold TournamentStore.awardSP at h
  cases hfb : findBot st botId with
  | none =>
    rw [hfb] at h
    simp at h
  | some bot =>
    rw [hfb] at h
    injection h with h2
    subst h2
    exact ⟨rfl, rfl, rfl, rfl⟩

theorem removeHolding_preserves (st : TournamentState) (botId : String)
    (stage period : ℕ) :
    ((TournamentStore.removeHolding st botId stage period).1).config = st.config ∧
    ((TournamentStore.removeHolding st botId stage period).1).period_results =
      st.period_results ∧
    ((TournamentStore.removeHolding st botId stage period).1).pending_rescinds =
      st.pending_rescinds ∧
    ((TournamentStore.removeHolding st botId stage period).1).rescind_supply_queue =
      st.rescind_supply_queue := by
  unfold TournamentStore.removeHolding
  cases hfb : findBot st botId with
  | none => exact ⟨rfl, rfl, rfl, rfl⟩
  | some bot =>
    dsimp only []
    cases hff : bot.holdings.find?
        (fun h => h.stage == stage && h.period == period) with
    | none => exact ⟨rfl, rfl, rfl, rfl⟩
    | some hold => exact ⟨rfl, rfl, rfl, rfl⟩

theorem settleAllocations_preserves (ctx : PeriodContext) :
    ∀ (allocs : List PeriodAllocation) (st st' : TournamentState),
      TournamentEngine.settleAllocations st ctx allocs = .ok st' →
      st'.config = st.config ∧ st'.period_results = st.period_results ∧
      st'.pending_rescinds = st.pending_rescinds ∧
      st'.rescind_supply_queue = st.rescind_supply_queue
  | [], st, st', h => by
    unfold TournamentEngine.settleAllocations at h
    injection h with h2
    subst h2
    exact ⟨rfl, rfl, rfl, rfl⟩
  | alloc :: rest, st, st', h => by
    unfold TournamentEngine.settleAllocations at h
    rw [exceptBind_ok_iff] at h
    obtain ⟨st1, hded, h⟩ := h
    rw [exceptBind_ok_iff] at h
    obtain ⟨st2, hadd, h⟩ := h
    have h1 := deductBudget_preserves st alloc.bot_id alloc.total_paid st1 hded
    have h2 := addHolding_preserves st1 alloc.bot_id _ st2 hadd
    have h3 := settleAllocations_preserves ctx rest st2 st' h
    exact ⟨h3.1.trans (h2.1.trans h1.1), h3.2.1.trans (h2.2.1.trans h1.2.1),
      h3.2.2.1.trans (h2.2.2.1.trans h1.2.2.1),
      h3.2.2.2.trans (h2.2.2.2.trans h1.2.2.2)⟩

theorem awardFold_preserves :
    ∀ (l : List ((String × ℚ) × ℚ)) (st st' : TournamentState),
      l.foldlM (fun acc p => TournamentStore.awardSP acc p.1.1 p.2) st = .ok st' →
      st'.config = st.config ∧ st'.period_results = st.period_results ∧
      st'.pending_rescinds = st.pending_rescinds ∧
      st'.rescind_supply_queue = st.rescind_supply_queue
  | [], st, st', h => by
    injection h with h2
    subst h2
    exact ⟨rfl, rfl, rfl, rfl⟩
  | p :: rest, st, st', h => by
    rw [List.foldlM_cons, exceptBind_ok_iff] at h
    obtain ⟨st1, haw, h⟩ := h
    have h1 := awardSP_preserves st p.1.1 p.2 st1 haw
    have h2 := awardFold_preserves rest st1 st' h
    exact ⟨h2.1.trans h1.1, h2.2.1.trans h1.2.1, h2.2.2.1.trans h1.2.2.1,
      h2.2.2.2.trans h1.2.2.2⟩

theorem awardStageSP_preserves (st : TournamentState) (stageIdx : ℕ)
    (st' : TournamentState)
    (h : TournamentEngine.awardStageSP st stageIdx = .ok st') :
    st'.config = st.config ∧ st'.period_results = st.period_results ∧
    st'.pending_rescinds = st.pending_rescinds ∧
    st'.rescind_supply_queue = st.rescind_supply_queue := by
  unfold TournamentEngine.awardStageSP at h
  exact awardFold_preserves _ st st' h

theorem awardOverallBonusSP_preserves (st : TournamentState)
    (st' : TournamentState)
    (h : TournamentEngine.awardOverallBonusSP st = .ok st') :
    st'.config = st.config ∧ st'.period_results = st.period_results ∧
    st'.pending_rescinds = st.pending_rescinds ∧
    st'.rescind_supply_queue = st.rescind_supply_queue := by
  unfold TournamentEngine.awardOverallBonusSP at h
  cases hrk : TournamentStore.getOverallRanking st with
  | nil =>
    rw [hrk] at h
    injection h with h2
    subst h2
    exact ⟨rfl, rfl, rfl, rfl⟩
  | cons top rest =>
    rw [hrk] at h
    dsimp only [] at h
    by_cases hp : 0 < top.2
    · rw [if_pos hp] at h
      exact awardSP_preserves st top.1 st.config.overall_bonus_sp st' h
    · rw [if_neg hp] at h
      injection h with h2
      subst h2
      exact ⟨rfl, rfl, rfl, rfl⟩

theorem markRescinded_inv (config : TournamentConfig) (s p : ℕ)
    (hsp : TournamentEngine.rescindAllowedFor config
      (config.stages.getD s TournamentEngine.junkStage) s p = true) :
    ∀ (rs : List PeriodResult),
      (∀ r ∈ rs, TournamentEngine.rescindAllowedFor config
        (config.stages.getD r.stage TournamentEngine.junkStage) r.stage r.period
          = false → r.rescinded = none) →
      ∀ r' ∈ TournamentEngine.markRescinded rs s p,
        TournamentEngine.rescindAllowedFor config
          (config.stages.getD r'.stage TournamentEngine.junkStage) r'.stage
            r'.period = false → r'.rescinded = none
  | [], _, r', hr' => absurd hr' (by simp [TournamentEngine.markRescinded])
  | r :: rest, hinv, r', hr' => by
    unfold TournamentEngine.markRescinded at hr'
    by_cases hm : r.stage = s ∧ r.period = p
    · rw [if_pos hm] at hr'
      rcases List.mem_cons.1 hr' with rfl | hmem
      · intro hflag
        exfalso
        dsimp only [] at hflag
        rw [hm.1, hm.2, hsp] at hflag
        exact Bool.noConfusion hflag
      · exact hinv r' (List.mem_cons_of_mem _ hmem)
    · rw [if_neg hm] at hr'
      rcases List.mem_cons.1 hr' with rfl | hmem
      · exact hinv r' (List.mem_cons_self _ _)
      · exact markRescinded_inv config s p hsp rest
          (fun q hq => hinv q (List.mem_cons_of_mem _ hq)) r' hmem

theorem revealOne_effect (acc : TournamentState) (r : PendingRescind) :
    (TournamentEngine.revealOne acc r).config = acc.config ∧
    (TournamentEngine.revealOne acc r).pending_rescinds = acc.pending_rescinds ∧
    (TournamentEngine.revealOne acc r).rescind_supply_queue =
      acc.rescind_supply_queue ∧
    (TournamentEngine.revealOne acc r).period_results =
      TournamentEngine.markRescinded acc.period_results r.source_stage
        r.source_period := by
  unfold TournamentEngine.revealOne
  dsimp only []
  cases hfb : findBot { acc with period_results :=
      (TournamentEngine.markRescinded acc.period_results r.source_stage
        r.source_period) } r.bot_id with
  | none => exact ⟨rfl, rfl, rfl, rfl⟩
  | some bot => exact ⟨rfl, rfl, rfl, rfl⟩

theorem processRescindRevelations_inv (config : TournamentConfig) :
    ∀ (revealed : List PendingRescind) (st : TournamentState),
      (∀ pr ∈ revealed, TournamentEngine.rescindAllowedFor config
        (config.stages.getD pr.source_stage TournamentEngine.junkStage)
        pr.source_stage pr.source_period = true) →
      (∀ r ∈ st.period_results, TournamentEngine.rescindAllowedFor config
        (config.stages.getD r.stage TournamentEngine.junkStage) r.stage r.period
          = false → r.rescinded = none) →
      (TournamentEngine.processRescindRevelations st revealed).config = st.config ∧
      (TournamentEngine.processRescindRevelations st revealed).pending_rescinds =
        st.pending_rescinds ∧
      (TournamentEngine.processRescindRevelations st revealed).rescind_supply_queue =
        st.rescind_supply_queue ∧
      (∀ r ∈ (TournamentEngine.processRescindRevelations st revealed).period_results,
        TournamentEngine.rescindAllowedFor config
          (config.stages.getD r.stage TournamentEngine.junkStage) r.stage r.period
            = false → r.rescinded = none)
  | [], st, _, hres => ⟨rfl, rfl, rfl, hres⟩
  | pr :: rest, st, hrev, hres => by
    have hone := revealOne_effect st pr
    have hmark := markRescinded_inv config pr.source_stage pr.source_period
      (hrev pr (List.mem_cons_self _ _)) st.period_results hres
    have hrec := processRescindRevelations_inv config rest
      (TournamentEngine.revealOne st pr)
      (fun q hq => hrev q (List.mem_cons_of_mem _ hq))
      (by
        rw [hone.2.2.2]
        exact hmark)
    have hstep : TournamentEngine.processRescindRevelations st (pr :: rest) =
        TournamentEngine.processRescindRevelations
          (TournamentEngine.revealOne st pr) rest := rfl
    rw [hstep]
    exact ⟨hrec.1.trans hone.1, hrec.2.1.trans hone.2.1,
      hrec.2.2.1.trans hone.2.2.1, hrec.2.2.2⟩

theorem processRescind_effect (st : TournamentState) (botId : String)
    (ctx : PeriodContext) (alloc : PeriodAllocation) (a : ℕ)
    (st2 : TournamentState)
    (h : TournamentEngine.processRescind st botId ctx alloc a = .ok st2) :
    st2.config = st.config ∧ st2.period_results = st.period_results ∧
    (∃ pr se, st2.pending_rescinds = st.pending_rescinds ++ [pr] ∧
      st2.rescind_supply_queue = st.rescind_supply_queue ++ [se] ∧
      pr.source_stage = ctx.stage ∧ pr.source_period = ctx.period ∧
      se.target_absolute_period = a + RESCIND_REVEAL_DELAY) := by
  unfold TournamentEngine.processRescind at h
  have hrh := removeHolding_preserves st botId ctx.stage ctx.period
  generalize hgen : TournamentStore.removeHolding st botId ctx.stage ctx.period
    = rh at h hrh
  obtain ⟨st1, removed⟩ := rh
  dsimp only [] at h hrh
  rw [exceptBind_ok_iff] at h
  obtain ⟨st1b, href, h⟩ := h
  have hrf := refundBudget_preserves st1 botId alloc.total_paid st1b href
  refine ⟨?_, ?_, ?_⟩
  · -- config
    revert h
    cases hfb : findBot (TournamentStore.addRescindSupply
        (TournamentStore.addPendingRescind st1b
          { bot_id := botId
            source_stage := ctx.stage
            source_period := ctx.period
            tokens := alloc.tokens_allocated
            price_refunded_per_token := alloc.price_paid_per_token
            total_refunded := alloc.total_paid
            rescinded_at_absolute := a
            reveal_at_absolute := a + RESCIND_REVEAL_DELAY })
        { target_absolute_period := a + RESCIND_REVEAL_DELAY
          tokens := alloc.tokens_allocated
          source_description :=
            "Rescind from stage " ++ toString ctx.stage ++ " period " ++
              toString ctx.period ++ " by " ++ botId }) botId with
    | none =>
      intro h
      dsimp only [] at h
      injection h with h2
      subst h2
      exact hrf.1.trans hrh.1
    | some bot =>
      intro h
      dsimp only [] at h
      injection h with h2
      subst h2
      exact hrf.1.trans hrh.1
  · -- period result log unchanged
    revert h
    cases hfb : findBot (TournamentStore.addRescindSupply
        (TournamentStore.addPendingRescind st1b
          { bot_id := botId
            source_stage := ctx.stage
            source_period := ctx.period
            tokens := alloc.tokens_allocated
            price_refunded_per_token := alloc.price_paid_per_token
            total_refunded := alloc.total_paid
            rescinded_at_absolute := a
            reveal_at_absolute := a + RESCIND_REVEAL_DELAY })
        { target_absolute_period := a + RESCIND_REVEAL_DELAY
          tokens := alloc.tokens_allocated
          source_description :=
            "Rescind from stage " ++ toString ctx.stage ++ " period " ++
              toString ctx.period ++ " by " ++ botId }) botId with
    | none =>
      intro h
      dsimp only [] at h
      injection h with h2
      subst h2
      exact hrf.2.1.trans hrh.2.1
    | some bot =>
      intro h
      dsimp only [] at h
      injection h with h2
      subst h2
      exact hrf.2.1.trans hrh.2.1
  · -- queue appends
    revert h
    cases hfb2 : findBot (TournamentStore.addRescindSupply
        (TournamentStore.addPendingRescind st1b
          { bot_id := botId
            source_stage := ctx.stage
            source_period := ctx.period
            tokens := alloc.tokens_allocated
            price_refunded_per_token := alloc.price_paid_per_token
            total_refunded := alloc.total_paid
            rescinded_at_absolute := a
            reveal_at_absolute := a + RESCIND_REVEAL_DELAY })
        { target_absolute_period := a + RESCIND_REVEAL_DELAY
          tokens := alloc.tokens_allocated
          source_description :=
            "Rescind from stage " ++ toString ctx.stage ++ " period " ++
              toString ctx.period ++ " by " ++ botId }) botId with
    | none =>
      intro h
      dsimp only [] at h
      injection h with h2
      subst h2
      apply Exists.intro
      apply Exists.intro
      refine ⟨?_, ?_, ?_, ?_, ?_⟩
      · simp only [TournamentStore.addRescindSupply, TournamentStore.addPendingRescind]
        rw [hrf.2.2.1, hrh.2.2.1]
      · simp only [TournamentStore.addRescindSupply, TournamentStore.addPendingRescind]
        rw [hrf.2.2.2, hrh.2.2.2]
      · rfl
      · rfl
      · rfl
    | some bot =>
      intro h
      dsimp only [] at h
      injection h with h2
      subst h2
      apply Exists.intro
      apply Exists.intro
      refine ⟨?_, ?_, ?_, ?_, ?_⟩
      · simp only [TournamentStore.addRescindSupply, TournamentStore.addPendingRescind]
        rw [hrf.2.2.1, hrh.2.2.1]
      · simp only [TournamentStore.addRescindSupply, TournamentStore.addPendingRescind]
        rw [hrf.2.2.2, hrh.2.2.2]
      · rfl
      · rfl
      · rfl

theorem runPeriod_effect (clock : ℕ → ℕ) (agents : List AgentOracle)
    (es : EngineState) (ctx : PeriodContext)
    (strategyType : ClearingStrategyType) (maxBids : ℕ) (rescindAllowed : Bool)
    (es' : EngineState) (record : PeriodResult)
    (h : TournamentEngine.runPeriod clock agents es ctx strategyType maxBids
      rescindAllowed = .ok (es', record)) :
    record.stage = ctx.stage ∧ record.period = ctx.period ∧
    es'.store.config = es.store.config ∧
    es'.store.period_results = es.store.period_results ∧
    (rescindAllowed = false → record.rescinded = none ∧
      es'.store.pending_rescinds = es.store.pending_rescinds ∧
      es'.store.rescind_supply_queue = es.store.rescind_supply_queue) ∧
    (∃ addP addS,
      es'.store.pending_rescinds = es.store.pending_rescinds ++ addP ∧
      es'.store.rescind_supply_queue = es.store.rescind_supply_queue ++ addS ∧
      (∀ pr ∈ addP, pr.source_stage = ctx.stage ∧ pr.source_period = ctx.period ∧
        rescindAllowed = true) ∧
      (∀ se ∈ addS,
        se.target_absolute_period = ctx.absolute_period + RESCIND_REVEAL_DELAY ∧
        rescindAllowed = true)) := by
  unfold TournamentEngine.runPeriod at h
  generalize hcb : TournamentEngine.collectBids clock agents es.store ctx maxBids
    (es.store.bots.map (fun b => b.bot_id)) es.tick es.idCounter = cb at h
  obtain ⟨allBids, tick', counter'⟩ := cb
  dsimp only [] at h
  rw [exceptBind_ok_iff] at h
  obtain ⟨clearingResult, hcf, h⟩ := h
  rw [exceptBind_ok_iff] at h
  obtain ⟨st1, hsettle, h⟩ := h
  have hpres := settleAllocations_preserves ctx clearingResult.allocations
    es.store st1 hsettle
  split at h
  case _ alloc heq =>
    split at h
    case _ hdec =>
      rw [exceptBind_ok_iff] at h
      obtain ⟨st2, hpr, h⟩ := h
      injection h with hpair
      injection hpair with hes hrec
      subst hes
      subst hrec
      have hpre := processRescind_effect st1 alloc.bot_id ctx alloc
        ctx.absolute_period st2 hpr
      obtain ⟨prw, sew, hpe, hqe, hs1, hs2, htg⟩ := hpre.2.2
      refine ⟨rfl, rfl, hpre.1.trans hpres.1, hpre.2.1.trans hpres.2.1, ?_, ?_⟩
      · intro hff
        exact Bool.noConfusion hff
      · refine ⟨[prw], [sew], ?_, ?_, ?_, ?_⟩
        · rw [hpe, hpres.2.2.1]
        · rw [hqe, hpres.2.2.2]
        · intro pr hpr2
          rcases List.mem_singleton.1 hpr2 with rfl
          exact ⟨hs1, hs2, rfl⟩
        · intro se hse2
          rcases List.mem_singleton.1 hse2 with rfl
          exact ⟨htg, rfl⟩
    case _ hdec =>
      injection h with hpair
      injection hpair with hes hrec
      subst hes
      subst hrec
      refine ⟨rfl, rfl, hpres.1, hpres.2.1, ?_, ?_⟩
      · intro hff
        exact ⟨rfl, hpres.2.2.1, hpres.2.2.2⟩
      · refine ⟨[], [], by simp [hpres.2.2.1], by simp [hpres.2.2.2], ?_, ?_⟩
        · intro pr hpr2
          exact absurd hpr2 (by simp)
        · intro se hse2
          exact absurd hse2 (by simp)
  case _ hne =>
    injection h with hpair
    injection hpair with hes hrec
    subst hes
    subst hrec
    refine ⟨rfl, rfl, hpres.1, hpres.2.1, ?_, ?_⟩
    · intro hff
      exact ⟨rfl, hpres.2.2.1, hpres.2.2.2⟩
    · refine ⟨[], [], by simp [hpres.2.2.1], by simp [hpres.2.2.2], ?_, ?_⟩
      · intro pr hpr2
        exact absurd hpr2 (by simp)
      · intro se hse2
        exact absurd hse2 (by simp)

/-! #### Horizon arithmetic (C7) -/

theorem sumTake_get_le :
    ∀ (l : List StageConfig) (k : ℕ) (cfg : StageConfig),
      l.get? k = some cfg →
      ((l.take k).map (fun s => s.num_periods)).sum + cfg.num_periods ≤
        (l.map (fun s => s.num_periods)).sum
  | [], k, cfg, h => absurd h (by simp)
  | c :: t, 0, cfg, h => by
    injection h with h2
    subst h2
    simp
  | c :: t, k + 1, cfg, h => by
    simp only [List.get?_cons_succ] at h
    have hih := sumTake_get_le t k cfg h
    simp only [List.take_succ_cons, List.map_cons, List.sum_cons]
    omega

theorem sumTake_get_last :
    ∀ (l : List StageConfig) (k : ℕ) (cfg : StageConfig),
      l.get? k = some cfg → k = l.length - 1 →
      ((l.take k).map (fun s => s.num_periods)).sum + cfg.num_periods =
        (l.map (fun s => s.num_periods)).sum
  | [], k, cfg, h, _ => absurd h (by simp)
  | [c], 0, cfg, h, _ => by
    injection h with h2
    subst h2
    simp
  | [c], k + 1, cfg, h, hk => by
    simp at h
  | c :: c2 :: t, 0, cfg, h, hk => by
    simp at hk
  | c :: c2 :: t, k + 1, cfg, h, hk => by
    simp only [List.get?_cons_succ] at h
    have hk2 : k = (c2 :: t).length - 1 := by
      simp at hk ⊢
      omega
    have hih := sumTake_get_last (c2 :: t) k cfg h hk2
    simp only [List.map_cons, List.sum_cons] at hih
    simp only [List.take_succ_cons, List.map_cons, List.sum_cons]
    omega

theorem sumTake_get_le_pre (l : List StageConfig) (k : ℕ) (cfg : StageConfig)
    (h : l.get? k = some cfg) (hk : k < l.length - 1) :
    ((l.take k).map (fun s => s.num_periods)).sum + cfg.num_periods ≤
      ((l.take (l.length - 1)).map (fun s => s.num_periods)).sum := by
  have h2 : (l.take (l.length - 1)).get? k = some cfg := by
    rw [List.get?_take hk]
    exact h
  have h3 := sumTake_get_le (l.take (l.length - 1)) k cfg h2
  rw [List.take_take, min_eq_left (le_of_lt hk)] at h3
  exact h3

theorem rescindTarget_lt_total (config : TournamentConfig)
    (stageIdx periodIdx : ℕ) (stageCfg : StageConfig)
    (hget : config.stages.get? stageIdx = some stageCfg)
    (hp : periodIdx < stageCfg.num_periods)
    (hterm : 2 ≤ (config.stages.getD (config.stages.length - 1)
      TournamentEngine.junkStage).num_periods)
    (hflag : TournamentEngine.rescindAllowedFor config stageCfg stageIdx
      periodIdx = true) :
    ((config.stages.take stageIdx).map (fun s => s.num_periods)).sum +
      periodIdx + RESCIND_REVEAL_DELAY < totalPeriods config := by
  have hlen : stageIdx < config.stages.length := by
    rcases List.get?_eq_some.1 hget with ⟨h1, _⟩
    exact h1
  obtain ⟨lastCfg, hlast⟩ : ∃ c, config.stages.get? (config.stages.length - 1)
      = some c := by
    cases hl : config.stages.get? (config.stages.length - 1) with
    | none =>
      rw [List.get?_eq_none] at hl
      omega
    | some c => exact ⟨c, rfl⟩
  have hterm2 : 2 ≤ lastCfg.num_periods := by
    have hgd : config.stages.getD (config.stages.length - 1)
        TournamentEngine.junkStage = lastCfg := by
      unfold List.getD
      rw [hlast]
      rfl
    rw [hgd] at hterm
    exact hterm
  have hflag2 : ¬(stageIdx = config.stages.length - 1 ∧
      stageCfg.num_periods - 1 - periodIdx < RESCIND_REVEAL_DELAY) := by
    intro hand
    unfold TournamentEngine.rescindAllowedFor at hflag
    rw [decide_eq_true hand.1, decide_eq_true hand.2] at hflag
    simp at hflag
  by_cases hcase : stageIdx = config.stages.length - 1
  · have hge : 2 ≤ stageCfg.num_periods - 1 - periodIdx := by
      rcases Nat.lt_or_ge (stageCfg.num_periods - 1 - periodIdx) 2 with hl | hg
      · exact absurd ⟨hcase, hl⟩ hflag2
      · exact hg
    have heq := sumTake_get_last config.stages stageIdx stageCfg hget hcase
    unfold totalPeriods RESCIND_REVEAL_DELAY
    omega
  · have hlt2 : stageIdx < config.stages.length - 1 := by omega
    have h5 := sumTake_get_le_pre config.stages stageIdx stageCfg hget hlt2
    have h6 := sumTake_get_last config.stages (config.stages.length - 1) lastCfg
      hlast rfl
    unfold totalPeriods RESCIND_REVEAL_DELAY
    omega

theorem runStagePeriods_inv (clock : ℕ → ℕ) (agents : List AgentOracle)
    (config : TournamentConfig) (stageIdx : ℕ) (stageCfg : StageConfig)
    (baseSupply : ℚ)
    (hget : config.stages.get? stageIdx = some stageCfg)
    (hterm : 2 ≤ (config.stages.getD (config.stages.length - 1)
      TournamentEngine.junkStage).num_periods) :
    ∀ (periodsLeft periodIdx absolutePeriod : ℕ) (es es' : EngineState)
      (absOut : ℕ),
      periodIdx + periodsLeft = stageCfg.num_periods →
      absolutePeriod = ((config.stages.take stageIdx).map
        (fun s => s.num_periods)).sum + periodIdx →
      rescindHorizonInv config es.store →
      TournamentEngine.runStagePeriods clock agents config stageIdx stageCfg
        baseSupply periodsLeft periodIdx absolutePeriod es = .ok (es', absOut) →
      rescindHorizonInv config es'.store ∧
        absOut = ((config.stages.take stageIdx).map
          (fun s => s.num_periods)).sum + stageCfg.num_periods
  | 0, periodIdx, absolutePeriod, es, es', absOut, hcount, habs, hinv, h => by
    unfold TournamentEngine.runStagePeriods at h
    injection h with hpair
    injection hpair with hes habsOut
    subst hes
    subst habsOut
    exact ⟨hinv, by omega⟩
  | periodsLeft + 1, periodIdx, absolutePeriod, es, es', absOut, hcount, habs,
      hinv, h => by
    unfold TournamentEngine.runStagePeriods at h
    dsimp only [TournamentStore.setCurrentPeriod,
      TournamentStore.revealRescinds] at h
    rw [exceptBind_ok_iff] at h
    obtain ⟨⟨es1, record⟩, hrp, h⟩ := h
    dsimp only [] at h
    have hrpe := runPeriod_effect _ _ _ _ _ _ _ _ _ hrp
    obtain ⟨hrs, hrper, _hrcfg, hrres, hfalse, addP, addS, hpend, hqueue,
      haddP, haddS⟩ := hrpe
    have hpIdx : periodIdx < stageCfg.num_periods := by omega
    have hgd : config.stages.getD stageIdx TournamentEngine.junkStage
        = stageCfg := by
      unfold List.getD
      rw [hget]
      rfl
    have hrev : ∀ pr ∈ (TournamentStore.revealRescinds
        (TournamentStore.setCurrentPeriod es.store (periodIdx : ℤ))
        absolutePeriod).2,
        TournamentEngine.rescindAllowedFor config
          (config.stages.getD pr.source_stage TournamentEngine.junkStage)
          pr.source_stage pr.source_period = true := by
      intro pr hpr2
      exact hinv.2.1 pr (List.mem_filter.1 hpr2).1
    have hres0 : ∀ r ∈ (TournamentStore.revealRescinds
        (TournamentStore.setCurrentPeriod es.store (periodIdx : ℤ))
        absolutePeriod).1.period_results,
        TournamentEngine.rescindAllowedFor config
          (config.stages.getD r.stage TournamentEngine.junkStage) r.stage
            r.period = false → r.rescinded = none := by
      intro r hr2b
      exact hinv.2.2 r hr2b
    have hprr := processRescindRevelations_inv config
      (TournamentStore.revealRescinds
        (TournamentStore.setCurrentPeriod es.store (periodIdx : ℤ))
        absolutePeriod).2
      (TournamentStore.revealRescinds
        (TournamentStore.setCurrentPeriod es.store (periodIdx : ℤ))
        absolutePeriod).1
      hrev hres0
    have hq2 : es1.store.rescind_supply_queue =
        es.store.rescind_supply_queue ++ addS :=
      hqueue.trans (congrArg (fun l => l ++ addS) hprr.2.2.1)
    have hp2 : es1.store.pending_rescinds =
        (es.store.pending_rescinds.filter
          (fun r => absolutePeriod < r.reveal_at_absolute)) ++ addP :=
      hpend.trans (congrArg (fun l => l ++ addP) hprr.2.1)
    have hr2 : ∀ r ∈ es1.store.period_results,
        TournamentEngine.rescindAllowedFor config
          (config.stages.getD r.stage TournamentEngine.junkStage) r.stage
            r.period = false → r.rescinded = none := by
      intro r hrmem
      exact hprr.2.2.2 r (hrres ▸ hrmem)
    have hinv2 : rescindHorizonInv config
        (TournamentStore.addPeriodResult es1.store record) := by
      refine ⟨?_, ?_, ?_⟩
      · intro e he
        have he2 : e ∈ es.store.rescind_supply_queue ++ addS := by
          rw [← hq2]
          exact he
        rcases List.mem_append.1 he2 with hl | hr
        · exact hinv.1 e hl
        · obtain ⟨htg, hflagT⟩ := haddS e hr
          have htg2 : e.target_absolute_period =
              absolutePeriod + RESCIND_REVEAL_DELAY := htg
          have hflagT2 : TournamentEngine.rescindAllowedFor config stageCfg
              stageIdx periodIdx = true := hflagT
          rw [htg2, habs]
          exact rescindTarget_lt_total config stageIdx periodIdx stageCfg hget
            hpIdx hterm hflagT2
      · intro pr hpr3
        have hpr4 : pr ∈ (es.store.pending_rescinds.filter
            (fun r => absolutePeriod < r.reveal_at_absolute)) ++ addP := by
          rw [← hp2]
          exact hpr3
        rcases List.mem_append.1 hpr4 with hl | hr
        · exact hinv.2.1 pr (List.mem_filter.1 hl).1
        · obtain ⟨hs1, hs2, hflagT⟩ := haddP pr hr
          have hs1b : pr.source_stage = stageIdx := hs1
          have hs2b : pr.source_period = periodIdx := hs2
          have hflagT2 : TournamentEngine.rescindAllowedFor config stageCfg
              stageIdx periodIdx = true := hflagT
          rw [hs1b, hs2b, hgd]
          exact hflagT2
      · intro r hrmem hflagF
        have hrmem2 : r ∈ es1.store.period_results ++ [record] := hrmem
        rcases List.mem_append.1 hrmem2 with hl | hr
        · exact hr2 r hl hflagF
        · rcases List.mem_singleton.1 hr with rfl
          have hrsb : r.stage = stageIdx := hrs
          have hrperb : r.period = periodIdx := hrper
          rw [hrsb, hrperb, hgd] at hflagF
          exact (hfalse hflagF).1
    have hih := runStagePeriods_inv clock agents config stageIdx stageCfg
      baseSupply hget hterm periodsLeft (periodIdx + 1) (absolutePeriod + 1)
      { es1 with store := TournamentStore.addPeriodResult es1.store record }
      es' absOut (by omega) (by omega) hinv2 h
    exact hih

theorem sumTake_succ :
    ∀ (l : List StageConfig) (k : ℕ) (cfg : StageConfig),
      l.get? k = some cfg →
      ((l.take (k + 1)).map (fun s => s.num_periods)).sum =
        ((l.take k).map (fun s => s.num_periods)).sum + cfg.num_periods
  | [], k, cfg, h => absurd h (by simp)
  | c :: t, 0, cfg, h => by
    injection h with h2
    subst h2
    simp
  | c :: t, k + 1, cfg, h => by
    simp only [List.get?_cons_succ] at h
    have hih := sumTake_succ t k cfg h
    simp only [List.take_succ_cons, List.map_cons, List.sum_cons, hih]
    omega

theorem runStages_inv (clock : ℕ → ℕ) (agents : List AgentOracle)
    (config : TournamentConfig)
    (hterm : 2 ≤ (config.stages.getD (config.stages.length - 1)
      TournamentEngine.junkStage).num_periods) :
    ∀ (stageList : List StageConfig) (stageIdx absolutePeriod : ℕ)
      (es es' : EngineState),
      config.stages.drop stageIdx = stageList →
      absolutePeriod = ((config.stages.take stageIdx).map
        (fun s => s.num_periods)).sum →
      rescindHorizonInv config es.store →
      TournamentEngine.runStages clock agents config stageList stageIdx
        absolutePeriod es = .ok es' →
      rescindHorizonInv config es'.store
  | [], stageIdx, absolutePeriod, es, es', _, _, hinv, h => by
    unfold TournamentEngine.runStages at h
    injection h with hes
    subst hes
    exact hinv
  | stageCfg :: rest, stageIdx, absolutePeriod, es, es', hdrop, habs, hinv,
      h => by
    unfold TournamentEngine.runStages at h
    rw [exceptBind_ok_iff] at h
    obtain ⟨⟨es1, abs1⟩, hrsp, h⟩ := h
    dsimp only [] at h
    rw [exceptBind_ok_iff] at h
    obtain ⟨stAwarded, haw, h⟩ := h
    have hget2 : config.stages.get? stageIdx = some stageCfg := by
      have h3 := List.get?_drop config.stages stageIdx 0
      rw [hdrop] at h3
      simpa using h3.symm
    have hrspinv := runStagePeriods_inv clock agents config stageIdx stageCfg
      (stageCfg.base_token_supply / (stageCfg.num_periods : ℚ)) hget2 hterm
      stageCfg.num_periods 0 absolutePeriod
      { es with store := TournamentStore.setCurrentStage es.store (stageIdx : ℤ) }
      es1 abs1 (by omega) (by omega) hinv hrsp
    have hawp := awardStageSP_preserves es1.store stageIdx stAwarded haw
    have hinvAwarded : rescindHorizonInv config stAwarded := by
      refine ⟨?_, ?_, ?_⟩
      · intro e he
        exact hrspinv.1.1 e (hawp.2.2.2 ▸ he)
      · intro pr hpr2
        exact hrspinv.1.2.1 pr (hawp.2.2.1 ▸ hpr2)
      · intro r hrm hf
        exact hrspinv.1.2.2 r (hawp.2.1 ▸ hrm) hf
    have hdrop2 : config.stages.drop (stageIdx + 1) = rest := by
      rw [← List.drop_drop, hdrop]
      rfl
    have habs2 : abs1 = ((config.stages.take (stageIdx + 1)).map
        (fun s => s.num_periods)).sum := by
      rw [hrspinv.2, sumTake_succ config.stages stageIdx stageCfg hget2]
    have hinvPhased : rescindHorizonInv config
        (if stageIdx < config.stages.length - 1 then
          TournamentStore.setPhase (TournamentStore.setPhase stAwarded
            .stage_transition) .stage_active
        else stAwarded) := by
      by_cases hc : stageIdx < config.stages.length - 1
      · rw [if_pos hc]
        exact hinvAwarded
      · rw [if_neg hc]
        exact hinvAwarded
    exact runStages_inv clock agents config hterm rest (stageIdx + 1) abs1 _
      es' hdrop2 habs2 hinvPhased h

/-- **C7 (amended).** The rescind choice is never offered in the last two
periods of the terminal stage (first conjunct: the engine's flag is `false`
there); the records of every period whose flag is `false` keep their
`rescinded` flag unset in the final log (second conjunct); and — provided the
terminal stage has at least two periods — every supply injection ever created
targets an absolute period strictly inside the tournament horizon (third
conjunct; the queue is append-only, so the final queue lists every injection
made). Without the proviso the horizon bound fails: with a one-period terminal
stage a rescind in the preceding stage targets a period at the horizon, as the
recorded counterexample run shows. -/
theorem C7_amended_rescind_horizon (clock : ℕ → ℕ) (idCounter0 : ℕ)
    (config : TournamentConfig) (agents : List AgentOracle)
    (finalSt : TournamentState)
    (hterm : 2 ≤ (config.stages.getD (config.stages.length - 1)
      TournamentEngine.junkStage).num_periods)
    (hrun : TournamentEngine.runEngine clock idCounter0 config agents
      = .ok finalSt) :
    (∀ stageIdx periodIdx stageCfg,
      config.stages.get? stageIdx = some stageCfg →
      stageIdx = config.stages.length - 1 →
      stageCfg.num_periods ≤ periodIdx + RESCIND_REVEAL_DELAY →
      TournamentEngine.rescindAllowedFor config stageCfg stageIdx periodIdx
        = false) ∧
    (∀ r ∈ finalSt.period_results,
      TournamentEngine.rescindAllowedFor config
        (config.stages.getD r.stage TournamentEngine.junkStage) r.stage
          r.period = false → r.rescinded = none) ∧
    (∀ e ∈ finalSt.rescind_supply_queue,
      e.target_absolute_period < totalPeriods config) := by
  have hchar : ∀ stageIdx periodIdx stageCfg,
      config.stages.get? stageIdx = some stageCfg →
      stageIdx = config.stages.length - 1 →
      stageCfg.num_periods ≤ periodIdx + RESCIND_REVEAL_DELAY →
      TournamentEngine.rescindAllowedFor config stageCfg stageIdx periodIdx
        = false := by
    intro si pi cfg hg hlast hle
    unfold TournamentEngine.rescindAllowedFor
    rw [decide_eq_true hlast, decide_eq_true (show cfg.num_periods - 1 - pi <
      RESCIND_REVEAL_DELAY by
        unfold RESCIND_REVEAL_DELAY at hle ⊢
        omega)]
    rfl
  unfold TournamentEngine.runEngine at hrun
  rw [exceptBind_ok_iff] at hrun
  obtain ⟨st0, hc, hrun⟩ := hrun
  dsimp only [] at hrun
  rw [exceptBind_ok_iff] at hrun
  obtain ⟨esF, hrs, hrun⟩ := hrun
  rw [exceptBind_ok_iff] at hrun
  obtain ⟨st2, hob, hrun⟩ := hrun
  injection hrun with hfin
  have hinv0 : rescindHorizonInv config st0 := by
    unfold TournamentEngine.create at hc
    cases hdup : TournamentEngine.findDuplicateId agents [] with
    | some dupId =>
      rw [hdup] at hc
      simp at hc
    | none =>
      rw [hdup] at hc
      injection hc with hc2
      subst hc2
      refine ⟨?_, ?_, ?_⟩ <;> intro x hx <;>
        exact absurd hx (by simp [TournamentStore.new])
  have hinvF := runStages_inv clock agents config hterm config.stages 0 0
    _ esF rfl rfl hinv0 hrs
  have hobp := awardOverallBonusSP_preserves esF.store st2 hob
  subst hfin
  refine ⟨hchar, ?_, ?_⟩
  · intro r hr hf
    have hr2 : r ∈ st2.period_results := hr
    exact hinvF.2.2 r (hobp.2.1 ▸ hr2) hf
  · intro e he
    have he2 : e ∈ st2.rescind_supply_queue := he
    exact hinvF.1 e (hobp.2.2.2 ▸ he2)

/-- **C7 counterexample.** With two one-period stages the rescind of the
stage-0 winner is allowed (it is not in the terminal stage), yet its supply
injection targets absolute period 2 — at the tournament horizon (the run has
2 periods in total), never inside it: the claim that no injection ever
targets a period at or beyond the horizon is false. -/
theorem C7_counterexample_injection_at_horizon :
    ∃ st, TournamentEngine.runEngine (fun t => t) 0 c7_config [c7_agent]
        = .ok st ∧
      ∃ e ∈ st.rescind_supply_queue,
        totalPeriods c7_config ≤ e.target_absolute_period := by
  refine ⟨(TournamentEngine.runEngine (fun t => t) 0 c7_config
      [c7_agent]).toOption.getD (TournamentStore.new c7_config []), ?_, ?_⟩
  · decide
  · decide

/-- Witness for the amended C7 theorem: the three-period single-stage rescind
run satisfies the horizon bound, the flag characterization and the unset-flag
property of the final log. -/
theorem C7_amended_rescind_horizon_witness :
    (∀ stageIdx periodIdx stageCfg,
      c7w_config.stages.get? stageIdx = some stageCfg →
      stageIdx = c7w_config.stages.length - 1 →
      stageCfg.num_periods ≤ periodIdx + RESCIND_REVEAL_DELAY →
      TournamentEngine.rescindAllowedFor c7w_config stageCfg stageIdx
        periodIdx = false) ∧
    (∀ r ∈ c7w_final.period_results,
      TournamentEngine.rescindAllowedFor c7w_config
        (c7w_config.stages.getD r.stage TournamentEngine.junkStage) r.stage
          r.period = false → r.rescinded = none) ∧
    (∀ e ∈ c7w_final.rescind_supply_queue,
      e.target_absolute_period < totalPeriods c7w_config) :=
  C7_amended_rescind_horizon (fun t => t) 0 c7w_config [c7w_agent] c7w_final
    (by decide) (by decide)

/-! #### Congruence up to generated ids and timestamps (C2) -/

theorem forall₂_of_map_eq {α β : Type _} (f : α → β) :
    ∀ (l₁ l₂ : List α), l₁.map f = l₂.map f →
      List.Forall₂ (fun a b => f a = f b) l₁ l₂
  | [], [], _ => List.Forall₂.nil
  | [], b :: m, h => by simp at h
  | a :: l, [], h => by simp at h
  | a :: l, b :: m, h => by
    simp only [List.map_cons, List.cons.injEq] at h
    exact List.Forall₂.cons h.1 (forall₂_of_map_eq f l m h.2)

theorem map_eq_of_forall₂ {α β : Type _} (S : α → α → Prop) (f : α → β)
    (hf : ∀ a b, S a b → f a = f b) :
    ∀ {l₁ l₂ : List α}, List.Forall₂ S l₁ l₂ → l₁.map f = l₂.map f
  | _, _, List.Forall₂.nil => rfl
  | _, _, List.Forall₂.cons hab hrest => by
    simp only [List.map_cons]
    rw [hf _ _ hab, map_eq_of_forall₂ S f hf hrest]

theorem forall₂_filter {α : Type _} (S : α → α → Prop) (p : α → Bool)
    (hp : ∀ a b, S a b → p a = p b) :
    ∀ {l₁ l₂ : List α}, List.Forall₂ S l₁ l₂ →
      List.Forall₂ S (l₁.filter p) (l₂.filter p)
  | _, _, List.Forall₂.nil => List.Forall₂.nil
  | _, _, @List.Forall₂.cons _ _ _ a b l m hab hrest => by
    by_cases hpa : p a
    · rw [List.filter_cons_of_pos hpa, List.filter_cons_of_pos
        (by rw [← hp a b hab]; exact hpa)]
      exact List.Forall₂.cons hab (forall₂_filter S p hp hrest)
    · rw [List.filter_cons_of_neg hpa, List.filter_cons_of_neg
        (by rw [← hp a b hab]; exact hpa)]
      exact forall₂_filter S p hp hrest

theorem forall₂_filter2 {α : Type _} (S : α → α → Prop) (p q : α → Bool)
    (hpq : ∀ a b, S a b → p a = q b) :
    ∀ {l₁ l₂ : List α}, List.Forall₂ S l₁ l₂ →
      List.Forall₂ S (l₁.filter p) (l₂.filter q)
  | _, _, List.Forall₂.nil => List.Forall₂.nil
  | _, _, @List.Forall₂.cons _ _ _ a b l m hab hrest => by
    by_cases hpa : p a
    · rw [List.filter_cons_of_pos hpa, List.filter_cons_of_pos
        (by rw [← hpq a b hab]; exact hpa)]
      exact List.Forall₂.cons hab (forall₂_filter2 S p q hpq hrest)
    · rw [List.filter_cons_of_neg hpa, List.filter_cons_of_neg
        (by rw [← hpq a b hab]; exact hpa)]
      exact forall₂_filter2 S p q hpq hrest

theorem orderedInsert_congr {α : Type _} (ord : α → α → Prop)
    [DecidableRel ord] (ts : α → ℕ) (S : α → α → Prop)
    (hcompat : ∀ a₁ a₂ b₁ b₂, S a₁ a₂ → S b₁ b₂ → ts a₁ ≤ ts b₁ →
      ts a₂ ≤ ts b₂ → (ord a₁ b₁ ↔ ord a₂ b₂))
    (x₁ x₂ : α) (hx : S x₁ x₂) :
    ∀ {t₁ t₂ : List α}, List.Forall₂ S t₁ t₂ →
      (∀ y ∈ t₁, ts x₁ ≤ ts y) → (∀ y ∈ t₂, ts x₂ ≤ ts y) →
      List.Forall₂ S (t₁.orderedInsert ord x₁) (t₂.orderedInsert ord x₂)
  | _, _, List.Forall₂.nil, _, _ => List.Forall₂.cons hx List.Forall₂.nil
  | _, _, @List.Forall₂.cons _ _ _ y₁ y₂ t₁ t₂ hy hrest, hb₁, hb₂ => by
    unfold List.orderedInsert
    by_cases ho : ord x₁ y₁
    · rw [if_pos ho, if_pos ((hcompat x₁ x₂ y₁ y₂ hx hy
        (hb₁ y₁ (List.mem_cons_self _ _)) (hb₂ y₂ (List.mem_cons_self _ _))).1
          ho)]
      exact List.Forall₂.cons hx (List.Forall₂.cons hy hrest)
    · rw [if_neg ho, if_neg (fun ho₂ => ho ((hcompat x₁ x₂ y₁ y₂ hx hy
        (hb₁ y₁ (List.mem_cons_self _ _)) (hb₂ y₂ (List.mem_cons_self _ _))).2
          ho₂))]
      exact List.Forall₂.cons hy (orderedInsert_congr ord ts S hcompat x₁ x₂ hx
        hrest (fun y hy2 => hb₁ y (List.mem_cons_of_mem _ hy2))
        (fun y hy2 => hb₂ y (List.mem_cons_of_mem _ hy2)))

theorem insertionSort_congr {α : Type _} (ord : α → α → Prop)
    [DecidableRel ord] (ts : α → ℕ) (S : α → α → Prop)
    (hcompat : ∀ a₁ a₂ b₁ b₂, S a₁ a₂ → S b₁ b₂ → ts a₁ ≤ ts b₁ →
      ts a₂ ≤ ts b₂ → (ord a₁ b₁ ↔ ord a₂ b₂)) :
    ∀ {l₁ l₂ : List α}, List.Forall₂ S l₁ l₂ →
      l₁.Pairwise (fun a b => ts a ≤ ts b) →
      l₂.Pairwise (fun a b => ts a ≤ ts b) →
      List.Forall₂ S (l₁.insertionSort ord) (l₂.insertionSort ord)
  | _, _, List.Forall₂.nil, _, _ => List.Forall₂.nil
  | _, _, @List.Forall₂.cons _ _ _ x₁ x₂ l₁ l₂ hx hrest, hp₁, hp₂ => by
    unfold List.insertionSort
    have hs := insertionSort_congr ord ts S hcompat hrest
      (List.Pairwise.of_cons hp₁) (List.Pairwise.of_cons hp₂)
    refine orderedInsert_congr ord ts S hcompat x₁ x₂ hx hs ?_ ?_
    · intro y hy2
      exact (List.pairwise_cons.1 hp₁).1 y
        ((List.perm_insertionSort ord l₁).mem_iff.1 hy2)
    · intro y hy2
      exact (List.pairwise_cons.1 hp₂).1 y
        ((List.perm_insertionSort ord l₂).mem_iff.1 hy2)

theorem scrubBid_price {a b : Bid} (h : scrubBid a = scrubBid b) :
    a.price_per_token = b.price_per_token := by
  have h2 := congrArg Bid.price_per_token h
  exact h2

theorem scrubBid_botId {a b : Bid} (h : scrubBid a = scrubBid b) :
    a.bot_id = b.bot_id := by
  have h2 := congrArg Bid.bot_id h
  exact h2

theorem scrubBid_totalCost {a b : Bid} (h : scrubBid a = scrubBid b) :
    a.total_cost = b.total_cost := by
  have h2 := congrArg Bid.total_cost h
  exact h2

theorem bidOrder_compat :
    ∀ a₁ a₂ b₁ b₂ : Bid, scrubBid a₁ = scrubBid a₂ →
      scrubBid b₁ = scrubBid b₂ →
      a₁.submitted_at ≤ b₁.submitted_at → a₂.submitted_at ≤ b₂.submitted_at →
      (bidOrder a₁ b₁ ↔ bidOrder a₂ b₂) := by
  intro a₁ a₂ b₁ b₂ ha hb h₁ h₂
  unfold bidOrder bidBefore
  simp only []
  rw [scrubBid_price ha, scrubBid_price hb]
  constructor
  · rintro (h | ⟨h, _⟩)
    · exact Or.inl h
    · exact Or.inr ⟨h, h₂⟩
  · rintro (h | ⟨h, _⟩)
    · exact Or.inl h
    · exact Or.inr ⟨h, h₁⟩

theorem forall₂_getD {α : Type _} (S : α → α → Prop) :
    ∀ {l₁ l₂ : List α} (i : ℕ) (d₁ d₂ : α), List.Forall₂ S l₁ l₂ →
      i < l₁.length → S (l₁.getD i d₁) (l₂.getD i d₂)
  | _, _, _, d₁, d₂, List.Forall₂.nil, hi => absurd hi (by simp)
  | _, _, 0, d₁, d₂, List.Forall₂.cons hab _, _ => hab
  | _, _, i + 1, d₁, d₂, List.Forall₂.cons _ hrest, hi =>
    forall₂_getD S i d₁ d₂ hrest (by
      simp only [List.length_cons] at hi
      omega)

theorem vickreyClear_congr (bids₁ bids₂ : List Bid) (supply floorPrice : ℚ)
    (hscrub : bids₁.map scrubBid = bids₂.map scrubBid)
    (hp₁ : bids₁.Pairwise (fun a b => a.submitted_at ≤ b.submitted_at))
    (hp₂ : bids₂.Pairwise (fun a b => a.submitted_at ≤ b.submitted_at)) :
    vickreyClear bids₁ supply floorPrice =
      vickreyClear bids₂ supply floorPrice := by
  have hf := forall₂_of_map_eq scrubBid bids₁ bids₂ hscrub
  have hvf : List.Forall₂ (fun a b => scrubBid a = scrubBid b)
      (vickreyValidBids bids₁ floorPrice) (vickreyValidBids bids₂ floorPrice) :=
    forall₂_filter _ _ (fun a b hab => by
      rw [scrubBid_price hab]) hf
  have hpv₁ : (vickreyValidBids bids₁ floorPrice).Pairwise
      (fun a b => a.submitted_at ≤ b.submitted_at) := hp₁.filter _
  have hpv₂ : (vickreyValidBids bids₂ floorPrice).Pairwise
      (fun a b => a.submitted_at ≤ b.submitted_at) := hp₂.filter _
  have hsf : List.Forall₂ (fun a b => scrubBid a = scrubBid b)
      (vickreySorted bids₁ floorPrice) (vickreySorted bids₂ floorPrice) :=
    insertionSort_congr bidOrder (fun b => b.submitted_at) _ bidOrder_compat
      hvf hpv₁ hpv₂
  cases h₁ : vickreyValidBids bids₁ floorPrice with
  | nil =>
    cases h₂ : vickreyValidBids bids₂ floorPrice with
    | nil =>
      unfold vickreyClear
      rw [h₁, h₂]
    | cons w₂ t₂ =>
      rw [h₁, h₂] at hvf
      cases hvf
  | cons w₁ t₁ =>
    cases h₂ : vickreyValidBids bids₂ floorPrice with
    | nil =>
      rw [h₁, h₂] at hvf
      cases hvf
    | cons w₂ t₂ =>
      rw [h₁, h₂] at hvf
      rcases List.forall₂_cons.1 hvf with ⟨hw, -⟩
      have hpp : vickreyPaymentPrice bids₁ floorPrice w₁ =
          vickreyPaymentPrice bids₂ floorPrice w₂ := by
        unfold vickreyPaymentPrice
        dsimp only []
        have hlen := hsf.length_eq
        by_cases hl2 : 2 ≤ (vickreySorted bids₁ floorPrice).length
        · rw [if_pos hl2, if_pos (show 2 ≤ (vickreySorted bids₂
            floorPrice).length from hlen ▸ hl2)]
          have hget : scrubBid ((vickreySorted bids₁ floorPrice).getD 1 w₁) =
              scrubBid ((vickreySorted bids₂ floorPrice).getD 1 w₂) :=
            forall₂_getD _ 1 w₁ w₂ hsf (by omega)
          rw [scrubBid_price hget]
        · rw [if_neg hl2, if_neg (show ¬ 2 ≤ (vickreySorted bids₂
            floorPrice).length from fun hcon => hl2 (hlen.symm ▸ hcon))]
      have hwin : ((vickreySorted bids₁ floorPrice).headD w₁).bot_id =
          ((vickreySorted bids₂ floorPrice).headD w₂).bot_id := by
        cases hs₁ : vickreySorted bids₁ floorPrice with
        | nil =>
          cases hs₂ : vickreySorted bids₂ floorPrice with
          | nil =>
            simp only [List.headD_nil]
            exact scrubBid_botId hw
          | cons x₂ s₂ =>
            rw [hs₁, hs₂] at hsf
            cases hsf
        | cons x₁ s₁ =>
          cases hs₂ : vickreySorted bids₂ floorPrice with
          | nil =>
            rw [hs₁, hs₂] at hsf
            cases hsf
          | cons x₂ s₂ =>
            rw [hs₁, hs₂] at hsf
            rcases List.forall₂_cons.1 hsf with ⟨hxy, -⟩
            simp only [List.headD_cons]
            exact scrubBid_botId hxy
      unfold vickreyClear
      rw [h₁, h₂]
      dsimp only []
      rw [hpp, hwin]

theorem map_eq_of_forall₂2 {α β : Type _} (S : α → α → Prop) (f g : α → β)
    (hf : ∀ a b, S a b → f a = g b) :
    ∀ {l₁ l₂ : List α}, List.Forall₂ S l₁ l₂ → l₁.map f = l₂.map g
  | _, _, List.Forall₂.nil => rfl
  | _, _, List.Forall₂.cons hab hrest => by
    simp only [List.map_cons]
    rw [hf _ _ hab, map_eq_of_forall₂2 S f g hf hrest]

theorem entryOrder_compat :
    ∀ e₁ e₂ f₁ f₂ : UEntry, entryScrubEq e₁ e₂ → entryScrubEq f₁ f₂ →
      e₁.bid.submitted_at ≤ f₁.bid.submitted_at →
      e₂.bid.submitted_at ≤ f₂.bid.submitted_at →
      (entryOrder e₁ f₁ ↔ entryOrder e₂ f₂) := by
  intro e₁ e₂ f₁ f₂ he hf h₁ h₂
  unfold entryOrder
  rw [he.1, hf.1]
  constructor
  · rintro (h | ⟨h, _⟩)
    · exact Or.inl h
    · exact Or.inr ⟨h, h₂⟩
  · rintro (h | ⟨h, _⟩)
    · exact Or.inl h
    · exact Or.inr ⟨h, h₁⟩

theorem forall₂_mkEntry :
    ∀ {l₁ l₂ : List Bid},
      List.Forall₂ (fun a b => scrubBid a = scrubBid b) l₁ l₂ →
      List.Forall₂ entryScrubEq (l₁.map mkEntry) (l₂.map mkEntry)
  | _, _, List.Forall₂.nil => List.Forall₂.nil
  | _, _, List.Forall₂.cons hab hrest =>
    List.Forall₂.cons
      ⟨scrubBid_price hab,
       by
        show _ / _ = _ / _
        rw [scrubBid_price hab, scrubBid_totalCost hab],
       hab⟩
      (forall₂_mkEntry hrest)

theorem uniformEntries_forall₂ (bids₁ bids₂ : List Bid) (floorPrice : ℚ)
    (hscrub : bids₁.map scrubBid = bids₂.map scrubBid)
    (hp₁ : bids₁.Pairwise (fun a b => a.submitted_at ≤ b.submitted_at))
    (hp₂ : bids₂.Pairwise (fun a b => a.submitted_at ≤ b.submitted_at)) :
    List.Forall₂ entryScrubEq (uniformEntries bids₁ floorPrice)
      (uniformEntries bids₂ floorPrice) := by
  have hf := forall₂_of_map_eq scrubBid bids₁ bids₂ hscrub
  have hvf : List.Forall₂ (fun a b => scrubBid a = scrubBid b)
      (uniformValidBids bids₁ floorPrice) (uniformValidBids bids₂ floorPrice) :=
    forall₂_filter _ _ (fun a b hab => by
      rw [scrubBid_price hab, scrubBid_totalCost hab]) hf
  have hm := forall₂_mkEntry hvf
  have hq₁ : ((uniformValidBids bids₁ floorPrice).map mkEntry).Pairwise
      (fun a b => a.bid.submitted_at ≤ b.bid.submitted_at) :=
    List.pairwise_map.2 (hp₁.filter _)
  have hq₂ : ((uniformValidBids bids₂ floorPrice).map mkEntry).Pairwise
      (fun a b => a.bid.submitted_at ≤ b.bid.submitted_at) :=
    List.pairwise_map.2 (hp₂.filter _)
  exact insertionSort_congr entryOrder (fun e => e.bid.submitted_at)
    entryScrubEq entryOrder_compat hm hq₁ hq₂

theorem findClearingPrice_congr (supply : ℚ) :
    ∀ {l₁ l₂ : List UEntry} (cum floor : ℚ),
      List.Forall₂ entryScrubEq l₁ l₂ →
      findClearingPrice supply l₁ cum floor =
        findClearingPrice supply l₂ cum floor
  | _, _, _, _, List.Forall₂.nil => rfl
  | _, _, cum, floor, @List.Forall₂.cons _ _ _ e₁ e₂ l₁ l₂ he hrest => by
    unfold findClearingPrice
    rw [he.2.1]
    by_cases hc : supply ≤ cum + e₂.quantity
    · rw [if_pos hc, if_pos hc, he.1]
    · rw [if_neg hc, if_neg hc]
      exact findClearingPrice_congr supply _ floor hrest

theorem proRataLoop_congr (remaining cp T : ℚ) :
    ∀ (l₁ l₂ : List UEntry) (acc : ℚ), List.Forall₂ entryScrubEq l₁ l₂ →
      proRataLoop remaining cp T l₁ acc = proRataLoop remaining cp T l₂ acc
  | [], [], _, _ => rfl
  | [], _ :: _, _, h => by cases h
  | _ :: _, [], _, h => by cases h
  | [e₁], [e₂], acc, h => by
    rcases List.forall₂_cons.1 h with ⟨he, -⟩
    unfold proRataLoop
    dsimp only []
    rw [scrubBid_botId he.2.2]
  | [e₁], _ :: _ :: _, _, h => by
    rcases List.forall₂_cons.1 h with ⟨-, h2⟩
    cases h2
  | _ :: _ :: _, [e₂], _, h => by
    rcases List.forall₂_cons.1 h with ⟨-, h2⟩
    cases h2
  | e₁ :: e₁' :: r₁, e₂ :: e₂' :: r₂, acc, h => by
    rcases List.forall₂_cons.1 h with ⟨he, h2⟩
    unfold proRataLoop
    dsimp only []
    rw [he.2.1, scrubBid_botId he.2.2,
      proRataLoop_congr remaining cp T (e₁' :: r₁) (e₂' :: r₂) _ h2,
      proRataLoop_congr remaining cp T (e₁' :: r₁) (e₂' :: r₂) _ h2]

theorem uniformClear_congr (bids₁ bids₂ : List Bid) (supply floorPrice : ℚ)
    (hscrub : bids₁.map scrubBid = bids₂.map scrubBid)
    (hp₁ : bids₁.Pairwise (fun a b => a.submitted_at ≤ b.submitted_at))
    (hp₂ : bids₂.Pairwise (fun a b => a.submitted_at ≤ b.submitted_at)) :
    uniformClear bids₁ supply floorPrice =
      uniformClear bids₂ supply floorPrice := by
  have hf := forall₂_of_map_eq scrubBid bids₁ bids₂ hscrub
  have hvf : List.Forall₂ (fun a b => scrubBid a = scrubBid b)
      (uniformValidBids bids₁ floorPrice) (uniformValidBids bids₂ floorPrice) :=
    forall₂_filter _ _ (fun a b hab => by
      rw [scrubBid_price hab, scrubBid_totalCost hab]) hf
  have hent := uniformEntries_forall₂ bids₁ bids₂ floorPrice hscrub hp₁ hp₂
  have htd : uniformTotalDemand bids₁ floorPrice =
      uniformTotalDemand bids₂ floorPrice := by
    unfold uniformTotalDemand
    rw [map_eq_of_forall₂ entryScrubEq (fun e => e.quantity)
      (fun a b hab => hab.2.1) hent]
  have hcp : uniformCP bids₁ supply floorPrice =
      uniformCP bids₂ supply floorPrice := by
    unfold uniformCP
    exact findClearingPrice_congr supply 0 floorPrice hent
  have habv : List.Forall₂ entryScrubEq (uniformAbove bids₁ supply floorPrice)
      (uniformAbove bids₂ supply floorPrice) := by
    unfold uniformAbove
    refine forall₂_filter2 _ _ _ (fun a b hab => ?_) hent
    rw [hab.1, hcp]
  have hat : List.Forall₂ entryScrubEq
      (uniformAtClearing bids₁ supply floorPrice)
      (uniformAtClearing bids₂ supply floorPrice) := by
    unfold uniformAtClearing
    refine forall₂_filter2 _ _ _ (fun a b hab => ?_) hent
    rw [hab.1, hcp]
  have habvq : (uniformAbove bids₁ supply floorPrice).map
      (fun e => e.quantity) =
      (uniformAbove bids₂ supply floorPrice).map (fun e => e.quantity) :=
    map_eq_of_forall₂ _ _ (fun a b hab => hab.2.1) habv
  have hatq : (uniformAtClearing bids₁ supply floorPrice).map
      (fun e => e.quantity) =
      (uniformAtClearing bids₂ supply floorPrice).map (fun e => e.quantity) :=
    map_eq_of_forall₂ _ _ (fun a b hab => hab.2.1) hat
  have hrem : uniformRemaining bids₁ supply floorPrice =
      uniformRemaining bids₂ supply floorPrice := by
    unfold uniformRemaining
    rw [habvq]
  have hatnil : (uniformAtClearing bids₁ supply floorPrice = []) ↔
      (uniformAtClearing bids₂ supply floorPrice = []) := by
    constructor <;> intro hh
    · have hl := hat.length_eq
      rw [hh] at hl
      exact List.length_eq_zero.1 (by simpa using hl.symm)
    · have hl := hat.length_eq
      rw [hh] at hl
      exact List.length_eq_zero.1 (by simpa using hl)
  by_cases h0 : uniformValidBids bids₁ floorPrice = []
  · have h0b : uniformValidBids bids₂ floorPrice = [] := by
      have hl := hvf.length_eq
      rw [h0] at hl
      exact List.length_eq_zero.1 (by simpa using hl.symm)
    unfold uniformClear
    rw [if_pos h0, if_pos h0b]
  · have h0b : uniformValidBids bids₂ floorPrice ≠ [] := by
      intro hh
      apply h0
      have hl := hvf.length_eq
      rw [hh] at hl
      exact List.length_eq_zero.1 (by simpa using hl)
    unfold uniformClear
    rw [if_neg h0, if_neg h0b]
    dsimp only []
    by_cases h1 : uniformTotalDemand bids₁ floorPrice ≤ supply
    · rw [if_pos h1, if_pos (show uniformTotalDemand bids₂ floorPrice ≤ supply
        from htd ▸ h1)]
      rw [htd]
      rw [map_eq_of_forall₂ entryScrubEq
        (fun e => ({ bot_id := e.bid.bot_id,
                     tokens_allocated := e.quantity,
                     price_paid_per_token := floorPrice,
                     total_paid := e.quantity * floorPrice }
          : PeriodAllocation))
        (fun a b hab => by
          simp only []
          rw [scrubBid_botId hab.2.2, hab.2.1]) hent]
    · rw [if_neg h1, if_neg (show ¬ uniformTotalDemand bids₂ floorPrice ≤
        supply from fun hcon => h1 (htd.symm ▸ hcon))]
      rw [show (uniformAbove bids₁ supply floorPrice).map
          (fun e => ({ bot_id := e.bid.bot_id,
                       tokens_allocated := e.quantity,
                       price_paid_per_token := uniformCP bids₁ supply floorPrice,
                       total_paid := e.quantity * uniformCP bids₁ supply
                         floorPrice }
            : PeriodAllocation)) =
        (uniformAbove bids₂ supply floorPrice).map
          (fun e => ({ bot_id := e.bid.bot_id,
                       tokens_allocated := e.quantity,
                       price_paid_per_token := uniformCP bids₂ supply floorPrice,
                       total_paid := e.quantity * uniformCP bids₂ supply
                         floorPrice }
            : PeriodAllocation)) from
        map_eq_of_forall₂2 entryScrubEq _ _ (fun a b hab => by
          rw [scrubBid_botId hab.2.2, hab.2.1, hcp]) habv]
      rw [habvq, hcp, hrem, hatq]
      by_cases h2 : 0 < uniformRemaining bids₂ supply floorPrice ∧
          uniformAtClearing bids₁ supply floorPrice ≠ []
      · rw [if_pos h2, if_pos ⟨h2.1, fun hh => h2.2 (hatnil.2 hh)⟩]
        rw [proRataLoop_congr _ _ _
          (uniformAtClearing bids₁ supply floorPrice)
          (uniformAtClearing bids₂ supply floorPrice) 0 hat]
      · rw [if_neg h2, if_neg (show ¬ (0 < uniformRemaining bids₂ supply
          floorPrice ∧ uniformAtClearing bids₂ supply floorPrice ≠ []) from
          fun hcon => h2 ⟨hcon.1, fun hh => hcon.2 (hatnil.1 hh)⟩)]

theorem clearFor_congr (strategyType : ClearingStrategyType)
    (bids₁ bids₂ : List Bid) (supply floorPrice : ℚ)
    (hscrub : bids₁.map scrubBid = bids₂.map scrubBid)
    (hp₁ : bids₁.Pairwise (fun a b => a.submitted_at ≤ b.submitted_at))
    (hp₂ : bids₂.Pairwise (fun a b => a.submitted_at ≤ b.submitted_at)) :
    TournamentEngine.clearFor strategyType bids₁ supply floorPrice =
      TournamentEngine.clearFor strategyType bids₂ supply floorPrice := by
  unfold TournamentEngine.clearFor
  cases strategyType with
  | vickrey =>
    rw [vickreyClear_congr bids₁ bids₂ supply floorPrice hscrub hp₁ hp₂]
  | uniform_price =>
    rw [uniformClear_congr bids₁ bids₂ supply floorPrice hscrub hp₁ hp₂]
  | discriminatory => rfl
  | dutch => rfl
  | sealed_first => rfl

theorem scrubStore_config {st₁ st₂ : TournamentState}
    (h : scrubStore st₁ = scrubStore st₂) : st₁.config = st₂.config := by
  have h2 := congrArg TournamentState.config h
  exact h2

theorem scrubStore_phase {st₁ st₂ : TournamentState}
    (h : scrubStore st₁ = scrubStore st₂) : st₁.phase = st₂.phase := by
  have h2 := congrArg TournamentState.phase h
  exact h2

theorem scrubStore_cstage {st₁ st₂ : TournamentState}
    (h : scrubStore st₁ = scrubStore st₂) :
    st₁.current_stage = st₂.current_stage := by
  have h2 := congrArg TournamentState.current_stage h
  exact h2

theorem scrubStore_cperiod {st₁ st₂ : TournamentState}
    (h : scrubStore st₁ = scrubStore st₂) :
    st₁.current_period = st₂.current_period := by
  have h2 := congrArg TournamentState.current_period h
  exact h2

theorem scrubStore_bots {st₁ st₂ : TournamentState}
    (h : scrubStore st₁ = scrubStore st₂) : st₁.bots = st₂.bots := by
  have h2 := congrArg TournamentState.bots h
  exact h2

theorem scrubStore_results {st₁ st₂ : TournamentState}
    (h : scrubStore st₁ = scrubStore st₂) :
    st₁.period_results.map scrubRecord = st₂.period_results.map scrubRecord := by
  have h2 := congrArg TournamentState.period_results h
  exact h2

theorem scrubStore_pending {st₁ st₂ : TournamentState}
    (h : scrubStore st₁ = scrubStore st₂) :
    st₁.pending_rescinds = st₂.pending_rescinds := by
  have h2 := congrArg TournamentState.pending_rescinds h
  exact h2

theorem scrubStore_queue {st₁ st₂ : TournamentState}
    (h : scrubStore st₁ = scrubStore st₂) :
    st₁.rescind_supply_queue = st₂.rescind_supply_queue := by
  have h2 := congrArg TournamentState.rescind_supply_queue h
  exact h2

theorem scrubStore_ext {st₁ st₂ : TournamentState}
    (hc : st₁.config = st₂.config) (hp : st₁.phase = st₂.phase)
    (hcs : st₁.current_stage = st₂.current_stage)
    (hcp : st₁.current_period = st₂.current_period)
    (hb : st₁.bots = st₂.bots)
    (hr : st₁.period_results.map scrubRecord =
      st₂.period_results.map scrubRecord)
    (hpend : st₁.pending_rescinds = st₂.pending_rescinds)
    (hq : st₁.rescind_supply_queue = st₂.rescind_supply_queue) :
    scrubStore st₁ = scrubStore st₂ := by
  cases st₁
  cases st₂
  unfold scrubStore
  dsimp only [] at hc hp hcs hcp hb hr hpend hq ⊢
  simp only [TournamentState.mk.injEq]
  exact ⟨hc, hp, hcs, hcp, hb, hr, hpend, hq⟩

theorem scrubStore_congr_setBots {st₁ st₂ : TournamentState}
    (X : List BotState) (h : scrubStore st₁ = scrubStore st₂) :
    scrubStore { st₁ with bots := X } = scrubStore { st₂ with bots := X } :=
  scrubStore_ext (@scrubStore_config st₁ st₂ h) (@scrubStore_phase st₁ st₂ h)
    (@scrubStore_cstage st₁ st₂ h) (@scrubStore_cperiod st₁ st₂ h) rfl
    (@scrubStore_results st₁ st₂ h) (@scrubStore_pending st₁ st₂ h)
    (@scrubStore_queue st₁ st₂ h)

theorem bind_congr_scrub {A C D : Type _} {B : Type _} (proj : A → B)
    (projC : C → D) (x₁ x₂ : Except String A) (f₁ f₂ : A → Except String C)
    (hx : x₁.map proj = x₂.map proj)
    (hf : ∀ a₁ a₂, proj a₁ = proj a₂ →
      (f₁ a₁).map projC = (f₂ a₂).map projC) :
    (x₁ >>= f₁).map projC = (x₂ >>= f₂).map projC := by
  cases x₁ with
  | error e =>
    cases x₂ with
    | error e2 =>
      simp only [Except.map] at hx
      injection hx with hx2
      subst hx2
      rfl
    | ok a2 =>
      simp only [Except.map] at hx
      exact absurd hx (by simp)
  | ok a1 =>
    cases x₂ with
    | error e2 =>
      simp only [Except.map] at hx
      exact absurd hx (by simp)
    | ok a2 =>
      simp only [Except.map] at hx
      injection hx with hx2
      exact hf a1 a2 hx2

theorem scrubStore_congr_setPending {st₁ st₂ : TournamentState}
    (X₁ X₂ : List PendingRescind) (h : scrubStore st₁ = scrubStore st₂)
    (hX : X₁ = X₂) :
    scrubStore { st₁ with pending_rescinds := X₁ } =
      scrubStore { st₂ with pending_rescinds := X₂ } :=
  scrubStore_ext (@scrubStore_config st₁ st₂ h) (@scrubStore_phase st₁ st₂ h)
    (@scrubStore_cstage st₁ st₂ h) (@scrubStore_cperiod st₁ st₂ h)
    (@scrubStore_bots st₁ st₂ h) (@scrubStore_results st₁ st₂ h) hX
    (@scrubStore_queue st₁ st₂ h)

theorem scrubStore_congr_addPending {st₁ st₂ : TournamentState}
    (pr : PendingRescind) (h : scrubStore st₁ = scrubStore st₂) :
    scrubStore (TournamentStore.addPendingRescind st₁ pr) =
      scrubStore (TournamentStore.addPendingRescind st₂ pr) :=
  scrubStore_ext (@scrubStore_config st₁ st₂ h) (@scrubStore_phase st₁ st₂ h)
    (@scrubStore_cstage st₁ st₂ h) (@scrubStore_cperiod st₁ st₂ h)
    (@scrubStore_bots st₁ st₂ h) (@scrubStore_results st₁ st₂ h)
    (by
      show st₁.pending_rescinds ++ [pr] = st₂.pending_rescinds ++ [pr]
      rw [@scrubStore_pending st₁ st₂ h])
    (@scrubStore_queue st₁ st₂ h)

theorem scrubStore_congr_addSupply {st₁ st₂ : TournamentState}
    (se : RescindSupplyEntry) (h : scrubStore st₁ = scrubStore st₂) :
    scrubStore (TournamentStore.addRescindSupply st₁ se) =
      scrubStore (TournamentStore.addRescindSupply st₂ se) :=
  scrubStore_ext (@scrubStore_config st₁ st₂ h) (@scrubStore_phase st₁ st₂ h)
    (@scrubStore_cstage st₁ st₂ h) (@scrubStore_cperiod st₁ st₂ h)
    (@scrubStore_bots st₁ st₂ h) (@scrubStore_results st₁ st₂ h)
    (@scrubStore_pending st₁ st₂ h)
    (by
      show st₁.rescind_supply_queue ++ [se] = st₂.rescind_supply_queue ++ [se]
      rw [@scrubStore_queue st₁ st₂ h])

theorem scrubStore_congr_addResult {st₁ st₂ : TournamentState}
    (r₁ r₂ : PeriodResult) (h : scrubStore st₁ = scrubStore st₂)
    (hr : scrubRecord r₁ = scrubRecord r₂) :
    scrubStore (TournamentStore.addPeriodResult st₁ r₁) =
      scrubStore (TournamentStore.addPeriodResult st₂ r₂) :=
  scrubStore_ext (@scrubStore_config st₁ st₂ h) (@scrubStore_phase st₁ st₂ h)
    (@scrubStore_cstage st₁ st₂ h) (@scrubStore_cperiod st₁ st₂ h)
    (@scrubStore_bots st₁ st₂ h)
    (by
      show (st₁.period_results ++ [r₁]).map scrubRecord =
        (st₂.period_results ++ [r₂]).map scrubRecord
      rw [List.map_append, List.map_append, @scrubStore_results st₁ st₂ h,
        List.map_singleton, List.map_singleton, hr])
    (@scrubStore_pending st₁ st₂ h) (@scrubStore_queue st₁ st₂ h)

theorem scrubStore_congr_setPhase {st₁ st₂ : TournamentState}
    (phase : TournamentPhase) (h : scrubStore st₁ = scrubStore st₂) :
    scrubStore (TournamentStore.setPhase st₁ phase) =
      scrubStore (TournamentStore.setPhase st₂ phase) :=
  scrubStore_ext (@scrubStore_config st₁ st₂ h) rfl
    (@scrubStore_cstage st₁ st₂ h) (@scrubStore_cperiod st₁ st₂ h)
    (@scrubStore_bots st₁ st₂ h) (@scrubStore_results st₁ st₂ h)
    (@scrubStore_pending st₁ st₂ h) (@scrubStore_queue st₁ st₂ h)

theorem scrubStore_congr_setCurrentStage {st₁ st₂ : TournamentState}
    (i : ℤ) (h : scrubStore st₁ = scrubStore st₂) :
    scrubStore (TournamentStore.setCurrentStage st₁ i) =
      scrubStore (TournamentStore.setCurrentStage st₂ i) :=
  scrubStore_ext (@scrubStore_config st₁ st₂ h) (@scrubStore_phase st₁ st₂ h)
    rfl (@scrubStore_cperiod st₁ st₂ h) (@scrubStore_bots st₁ st₂ h)
    (@scrubStore_results st₁ st₂ h) (@scrubStore_pending st₁ st₂ h)
    (@scrubStore_queue st₁ st₂ h)

theorem scrubStore_congr_setCurrentPeriod {st₁ st₂ : TournamentState}
    (i : ℤ) (h : scrubStore st₁ = scrubStore st₂) :
    scrubStore (TournamentStore.setCurrentPeriod st₁ i) =
      scrubStore (TournamentStore.setCurrentPeriod st₂ i) :=
  scrubStore_ext (@scrubStore_config st₁ st₂ h) (@scrubStore_phase st₁ st₂ h)
    (@scrubStore_cstage st₁ st₂ h) rfl (@scrubStore_bots st₁ st₂ h)
    (@scrubStore_results st₁ st₂ h) (@scrubStore_pending st₁ st₂ h)
    (@scrubStore_queue st₁ st₂ h)

theorem deductBudget_scrub_congr (st₁ st₂ : TournamentState) (botId : String)
    (amount : ℚ) (h : scrubStore st₁ = scrubStore st₂) :
    (TournamentStore.deductBudget st₁ botId amount).map scrubStore =
      (TournamentStore.deductBudget st₂ botId amount).map scrubStore := by
  unfold TournamentStore.deductBudget findBot
  rw [@scrubStore_bots st₁ st₂ h]
  cases hfb : st₂.bots.find? (fun b => b.bot_id == botId) with
  | none => rfl
  | some bot =>
    dsimp only []
    by_cases hc : bot.remaining_budget < amount
    · rw [if_pos hc, if_pos hc]
    · rw [if_neg hc, if_neg hc]
      exact congrArg Except.ok (scrubStore_congr_setBots _ h)

theorem addHolding_scrub_congr (st₁ st₂ : TournamentState) (botId : String)
    (hold : TokenHolding) (h : scrubStore st₁ = scrubStore st₂) :
    (TournamentStore.addHolding st₁ botId hold).map scrubStore =
      (TournamentStore.addHolding st₂ botId hold).map scrubStore := by
  unfold TournamentStore.addHolding findBot
  rw [@scrubStore_bots st₁ st₂ h]
  cases hfb : st₂.bots.find? (fun b => b.bot_id == botId) with
  | none => rfl
  | some bot =>
    exact congrArg Except.ok (scrubStore_congr_setBots _ h)

theorem refundBudget_scrub_congr (st₁ st₂ : TournamentState) (botId : String)
    (amount : ℚ) (h : scrubStore st₁ = scrubStore st₂) :
    (TournamentStore.refundBudget st₁ botId amount).map scrubStore =
      (TournamentStore.refundBudget st₂ botId amount).map scrubStore := by
  unfold TournamentStore.refundBudget findBot
  rw [@scrubStore_bots st₁ st₂ h]
  cases hfb : st₂.bots.find? (fun b => b.bot_id == botId) with
  | none => rfl
  | some bot =>
    exact congrArg Except.ok (scrubStore_congr_setBots _ h)

theorem awardSP_scrub_congr (st₁ st₂ : TournamentState) (botId : String)
    (points : ℚ) (h : scrubStore st₁ = scrubStore st₂) :
    (TournamentStore.awardSP st₁ botId points).map scrubStore =
      (TournamentStore.awardSP st₂ botId points).map scrubStore := by
  unfold TournamentStore.awardSP findBot
  rw [@scrubStore_bots st₁ st₂ h]
  cases hfb : st₂.bots.find? (fun b => b.bot_id == botId) with
  | none => rfl
  | some bot =>
    exact congrArg Except.ok (scrubStore_congr_setBots _ h)

theorem removeHolding_scrub_congr (st₁ st₂ : TournamentState) (botId : String)
    (stage period : ℕ) (h : scrubStore st₁ = scrubStore st₂) :
    scrubStore (TournamentStore.removeHolding st₁ botId stage period).1 =
      scrubStore (TournamentStore.removeHolding st₂ botId stage period).1 ∧
    (TournamentStore.removeHolding st₁ botId stage period).2 =
      (TournamentStore.removeHolding st₂ botId stage period).2 := by
  unfold TournamentStore.removeHolding findBot
  rw [@scrubStore_bots st₁ st₂ h]
  cases hfb : st₂.bots.find? (fun b => b.bot_id == botId) with
  | none => exact ⟨h, rfl⟩
  | some bot =>
    dsimp only []
    cases hff : bot.holdings.find?
        (fun h2 => h2.stage == stage && h2.period == period) with
    | none => exact ⟨h, rfl⟩
    | some hold => exact ⟨scrubStore_congr_setBots _ h, rfl⟩

theorem settleAllocations_scrub_congr (ctx : PeriodContext) :
    ∀ (allocs : List PeriodAllocation) (st₁ st₂ : TournamentState),
      scrubStore st₁ = scrubStore st₂ →
      (TournamentEngine.settleAllocations st₁ ctx allocs).map scrubStore =
        (TournamentEngine.settleAllocations st₂ ctx allocs).map scrubStore
  | [], st₁, st₂, h => by
    unfold TournamentEngine.settleAllocations
    exact congrArg Except.ok h
  | alloc :: rest, st₁, st₂, h => by
    unfold TournamentEngine.settleAllocations
    refine bind_congr_scrub scrubStore scrubStore _ _ _ _
      (deductBudget_scrub_congr st₁ st₂ alloc.bot_id alloc.total_paid h) ?_
    intro a₁ a₂ ha
    refine bind_congr_scrub scrubStore scrubStore _ _ _ _
      (addHolding_scrub_congr a₁ a₂ alloc.bot_id _ ha) ?_
    intro b₁ b₂ hb
    exact settleAllocations_scrub_congr ctx rest b₁ b₂ hb

theorem markRescinded_map_scrub :
    ∀ (rs : List PeriodResult) (s p : ℕ),
      (TournamentEngine.markRescinded rs s p).map scrubRecord =
        TournamentEngine.markRescinded (rs.map scrubRecord) s p
  | [], _, _ => rfl
  | r :: rest, s, p => by
    simp only [List.map_cons]
    unfold TournamentEngine.markRescinded
    by_cases hm : r.stage = s ∧ r.period = p
    · rw [if_pos hm, if_pos (show (scrubRecord r).stage = s ∧
        (scrubRecord r).period = p from hm)]
      simp only [List.map_cons]
      rfl
    · rw [if_neg hm, if_neg (show ¬ ((scrubRecord r).stage = s ∧
        (scrubRecord r).period = p) from hm)]
      simp only [List.map_cons]
      rw [markRescinded_map_scrub rest s p]

theorem revealOne_scrub_congr (acc₁ acc₂ : TournamentState)
    (r : PendingRescind) (h : scrubStore acc₁ = scrubStore acc₂) :
    scrubStore (TournamentEngine.revealOne acc₁ r) =
      scrubStore (TournamentEngine.revealOne acc₂ r) := by
  unfold TournamentEngine.revealOne findBot
  dsimp only []
  rw [@scrubStore_bots acc₁ acc₂ h]
  have hmid : scrubStore { acc₁ with
      period_results :=
        (TournamentEngine.markRescinded acc₁.period_results r.source_stage
          r.source_period)
      bots := acc₂.bots } =
      scrubStore { acc₂ with period_results :=
        (TournamentEngine.markRescinded acc₂.period_results r.source_stage
          r.source_period) } :=
    scrubStore_ext (@scrubStore_config acc₁ acc₂ h)
      (@scrubStore_phase acc₁ acc₂ h) (@scrubStore_cstage acc₁ acc₂ h)
      (@scrubStore_cperiod acc₁ acc₂ h) rfl
      (by
        show (TournamentEngine.markRescinded acc₁.period_results r.source_stage
            r.source_period).map scrubRecord = _
        rw [markRescinded_map_scrub, markRescinded_map_scrub,
          @scrubStore_results acc₁ acc₂ h])
      (@scrubStore_pending acc₁ acc₂ h) (@scrubStore_queue acc₁ acc₂ h)
  cases hfb : acc₂.bots.find? (fun b => b.bot_id == r.bot_id) with
  | none =>
    dsimp only []
    exact hmid
  | some bot =>
    dsimp only []
    exact scrubStore_congr_setBots _ hmid

theorem processRescindRevelations_scrub_congr :
    ∀ (revealed : List PendingRescind) (st₁ st₂ : TournamentState),
      scrubStore st₁ = scrubStore st₂ →
      scrubStore (TournamentEngine.processRescindRevelations st₁ revealed) =
        scrubStore (TournamentEngine.processRescindRevelations st₂ revealed)
  | [], _, _, h => h
  | r :: rest, st₁, st₂, h =>
    processRescindRevelations_scrub_congr rest _ _
      (revealOne_scrub_congr st₁ st₂ r h)

theorem processRescind_scrub_congr (st₁ st₂ : TournamentState)
    (botId : String) (ctx : PeriodContext) (alloc : PeriodAllocation) (a : ℕ)
    (h : scrubStore st₁ = scrubStore st₂) :
    (TournamentEngine.processRescind st₁ botId ctx alloc a).map scrubStore =
      (TournamentEngine.processRescind st₂ botId ctx alloc a).map
        scrubStore := by
  unfold TournamentEngine.processRescind
  have hrm := removeHolding_scrub_congr st₁ st₂ botId ctx.stage ctx.period h
  generalize hg1 : TournamentStore.removeHolding st₁ botId ctx.stage
    ctx.period = rh₁ at hrm
  generalize hg2 : TournamentStore.removeHolding st₂ botId ctx.stage
    ctx.period = rh₂ at hrm
  obtain ⟨sta₁, o₁⟩ := rh₁
  obtain ⟨sta₂, o₂⟩ := rh₂
  dsimp only [] at hrm ⊢
  refine bind_congr_scrub scrubStore scrubStore _ _ _ _
    (refundBudget_scrub_congr sta₁ sta₂ botId alloc.total_paid hrm.1) ?_
  intro a₁ a₂ ha
  dsimp only []
  unfold findBot
  dsimp only [TournamentStore.addRescindSupply, TournamentStore.addPendingRescind]
  rw [show a₁.bots = a₂.bots from @scrubStore_bots a₁ a₂ ha]
  cases hfb : a₂.bots.find? (fun b => b.bot_id == botId) with
  | none =>
    dsimp only []
    exact congrArg Except.ok
      (scrubStore_ext (@scrubStore_config a₁ a₂ ha) (@scrubStore_phase a₁ a₂ ha)
        (@scrubStore_cstage a₁ a₂ ha) (@scrubStore_cperiod a₁ a₂ ha) rfl
        (@scrubStore_results a₁ a₂ ha)
        (by
          show a₁.pending_rescinds ++ _ = a₂.pending_rescinds ++ _
          rw [@scrubStore_pending a₁ a₂ ha])
        (by
          show a₁.rescind_supply_queue ++ _ = a₂.rescind_supply_queue ++ _
          rw [@scrubStore_queue a₁ a₂ ha]))
  | some bot =>
    dsimp only []
    exact congrArg Except.ok
      (scrubStore_ext (@scrubStore_config a₁ a₂ ha) (@scrubStore_phase a₁ a₂ ha)
        (@scrubStore_cstage a₁ a₂ ha) (@scrubStore_cperiod a₁ a₂ ha)
        (by
          show updateBot a₂.bots botId _ = updateBot a₂.bots botId _
          rw [@scrubStore_config a₁ a₂ ha])
        (@scrubStore_results a₁ a₂ ha)
        (by
          show a₁.pending_rescinds ++ _ = a₂.pending_rescinds ++ _
          rw [@scrubStore_pending a₁ a₂ ha])
        (by
          show a₁.rescind_supply_queue ++ _ = a₂.rescind_supply_queue ++ _
          rw [@scrubStore_queue a₁ a₂ ha]))

theorem awardFold_scrub_congr :
    ∀ (l : List ((String × ℚ) × ℚ)) (st₁ st₂ : TournamentState),
      scrubStore st₁ = scrubStore st₂ →
      (l.foldlM (fun acc p => TournamentStore.awardSP acc p.1.1 p.2)
        st₁).map scrubStore =
      (l.foldlM (fun acc p => TournamentStore.awardSP acc p.1.1 p.2)
        st₂).map scrubStore
  | [], _, _, h => congrArg Except.ok h
  | p :: rest, st₁, st₂, h => by
    rw [List.foldlM_cons, List.foldlM_cons]
    refine bind_congr_scrub scrubStore scrubStore _ _ _ _
      (awardSP_scrub_congr st₁ st₂ p.1.1 p.2 h) ?_
    intro a₁ a₂ ha
    exact awardFold_scrub_congr rest a₁ a₂ ha

theorem awardStageSP_scrub_congr (st₁ st₂ : TournamentState) (stageIdx : ℕ)
    (h : scrubStore st₁ = scrubStore st₂) :
    (TournamentEngine.awardStageSP st₁ stageIdx).map scrubStore =
      (TournamentEngine.awardStageSP st₂ stageIdx).map scrubStore := by
  unfold TournamentEngine.awardStageSP TournamentStore.getStageRanking
  dsimp only []
  rw [@scrubStore_bots st₁ st₂ h, @scrubStore_config st₁ st₂ h]
  exact awardFold_scrub_congr _ st₁ st₂ h

theorem awardOverallBonusSP_scrub_congr (st₁ st₂ : TournamentState)
    (h : scrubStore st₁ = scrubStore st₂) :
    (TournamentEngine.awardOverallBonusSP st₁).map scrubStore =
      (TournamentEngine.awardOverallBonusSP st₂).map scrubStore := by
  unfold TournamentEngine.awardOverallBonusSP TournamentStore.getOverallRanking
  rw [@scrubStore_bots st₁ st₂ h, @scrubStore_config st₁ st₂ h]
  cases hrk : (st₂.bots.map (fun b => (b.bot_id, b.weighted_points))
      ).insertionSort rankOrder with
  | nil =>
    dsimp only []
    exact congrArg Except.ok h
  | cons top rest =>
    dsimp only []
    by_cases hp : 0 < top.2
    · rw [if_pos hp, if_pos hp]
      exact awardSP_scrub_congr st₁ st₂ top.1 st₂.config.overall_bonus_sp h
    · rw [if_neg hp, if_neg hp]
      exact congrArg Except.ok h

theorem admitOffers_scrub_congr (c₁ c₂ : ℕ → ℕ) (st₁ st₂ : TournamentState)
    (hbots : st₁.bots = st₂.bots) (botId : String) (ctx : PeriodContext) :
    ∀ (prices : List ℚ) (t₁ k₁ t₂ k₂ : ℕ),
      (TournamentEngine.admitOffers c₁ st₁ botId ctx prices t₁ k₁).1.map
        scrubBid =
      (TournamentEngine.admitOffers c₂ st₂ botId ctx prices t₂ k₂).1.map
        scrubBid
  | [], _, _, _, _ => rfl
  | price :: rest, t₁, k₁, t₂, k₂ => by
    unfold TournamentEngine.admitOffers findBot
    rw [hbots]
    cases hfb : st₂.bots.find? (fun b => b.bot_id == botId) with
    | none => rfl
    | some bot =>
      dsimp only []
      by_cases hc1 : price < ctx.floor_price
      · rw [if_pos hc1, if_pos hc1]
        exact admitOffers_scrub_congr c₁ c₂ st₁ st₂ hbots botId ctx rest t₁ k₁
          t₂ k₂
      · rw [if_neg hc1, if_neg hc1]
        by_cases hc2 : bot.remaining_budget < price * ctx.tokens_available
        · rw [if_pos hc2, if_pos hc2]
          exact admitOffers_scrub_congr c₁ c₂ st₁ st₂ hbots botId ctx rest t₁
            k₁ t₂ k₂
        · rw [if_neg hc2, if_neg hc2]
          by_cases hc3 : price ≤ 0
          · rw [if_pos hc3, if_pos hc3]
            exact admitOffers_scrub_congr c₁ c₂ st₁ st₂ hbots botId ctx rest
              t₁ k₁ t₂ k₂
          · rw [if_neg hc3, if_neg hc3]
            dsimp only []
            have hrec := admitOffers_scrub_congr c₁ c₂ st₁ st₂ hbots botId ctx
              rest (t₁ + 2) (k₁ + 1) (t₂ + 2) (k₂ + 1)
            generalize hg1 : TournamentEngine.admitOffers c₁ st₁ botId ctx rest
              (t₁ + 2) (k₁ + 1) = r₁ at hrec ⊢
            generalize hg2 : TournamentEngine.admitOffers c₂ st₂ botId ctx rest
              (t₂ + 2) (k₂ + 1) = r₂ at hrec ⊢
            obtain ⟨bids₁, t₁', k₁'⟩ := r₁
            obtain ⟨bids₂, t₂', k₂'⟩ := r₂
            dsimp only [] at hrec ⊢
            simp only [List.map_cons]
            rw [hrec]
            rfl

theorem admitOffers_ts (c : ℕ → ℕ) (hc : Monotone c) (st : TournamentState)
    (botId : String) (ctx : PeriodContext) :
    ∀ (prices : List ℚ) (t k : ℕ) (bids : List Bid) (t' k' : ℕ),
      TournamentEngine.admitOffers c st botId ctx prices t k = (bids, t', k') →
      t ≤ t' ∧
      (∀ b ∈ bids, c t ≤ b.submitted_at ∧ b.submitted_at ≤ c t') ∧
      bids.Pairwise (fun a b => a.submitted_at ≤ b.submitted_at)
  | [], t, k, bids, t', k', h => by
    unfold TournamentEngine.admitOffers at h
    injection h with hb hrest
    injection hrest with ht hk
    subst hb
    subst ht
    exact ⟨le_refl t, by simp, by simp⟩
  | price :: rest, t, k, bids, t', k', h => by
    unfold TournamentEngine.admitOffers at h
    cases hfb : findBot st botId with
    | none =>
      rw [hfb] at h
      dsimp only [] at h
      injection h with hb hrest
      injection hrest with ht hk
      subst hb
      subst ht
      exact ⟨le_refl t, by simp, by simp⟩
    | some bot =>
      rw [hfb] at h
      dsimp only [] at h
      by_cases hc1 : price < ctx.floor_price
      · rw [if_pos hc1] at h
        exact admitOffers_ts c hc st botId ctx rest t k bids t' k' h
      · rw [if_neg hc1] at h
        by_cases hc2 : bot.remaining_budget < price * ctx.tokens_available
        · rw [if_pos hc2] at h
          exact admitOffers_ts c hc st botId ctx rest t k bids t' k' h
        · rw [if_neg hc2] at h
          by_cases hc3 : price ≤ 0
          · rw [if_pos hc3] at h
            exact admitOffers_ts c hc st botId ctx rest t k bids t' k' h
          · rw [if_neg hc3] at h
            generalize hg : TournamentEngine.admitOffers c st botId ctx rest
              (t + 2) (k + 1) = r at h
            obtain ⟨bids₀, t'', k''⟩ := r
            dsimp only [] at h
            injection h with hb hrest2
            injection hrest2 with ht hk
            subst hb
            subst ht
            subst hk
            have hih := admitOffers_ts c hc st botId ctx rest (t + 2) (k + 1)
              bids₀ t'' k'' hg
            refine ⟨by omega, ?_, ?_⟩
            · intro b hbmem
              rcases List.mem_cons.1 hbmem with rfl | hbm
              · refine ⟨hc (by omega), ?_⟩
                show c (t + 1) ≤ c t''
                exact hc (by omega)
              · have hb2 := hih.2.1 b hbm
                exact ⟨le_trans (hc (by omega)) hb2.1, hb2.2⟩
            · refine List.pairwise_cons.2 ⟨?_, hih.2.2⟩
              intro b hbm
              have hb2 := hih.2.1 b hbm
              show c (t + 1) ≤ b.submitted_at
              exact le_trans (hc (by omega)) hb2.1

theorem collectBids_scrub_congr (c₁ c₂ : ℕ → ℕ) (agents : List AgentOracle)
    (st₁ st₂ : TournamentState) (hbots : st₁.bots = st₂.bots)
    (ctx : PeriodContext) (maxBids : ℕ) :
    ∀ (ids : List String) (t₁ k₁ t₂ k₂ : ℕ),
      (TournamentEngine.collectBids c₁ agents st₁ ctx maxBids ids t₁ k₁).1.map
        scrubBid =
      (TournamentEngine.collectBids c₂ agents st₂ ctx maxBids ids t₂ k₂).1.map
        scrubBid
  | [], _, _, _, _ => rfl
  | botId :: rest, t₁, k₁, t₂, k₂ => by
    unfold TournamentEngine.collectBids
    cases hfa : agents.find? (fun a => a.bot_id == botId) with
    | none =>
      exact collectBids_scrub_congr c₁ c₂ agents st₁ st₂ hbots ctx maxBids
        rest t₁ k₁ t₂ k₂
    | some agent =>
      dsimp only []
      cases hdb : agent.decideBids ctx.absolute_period with
      | none =>
        exact collectBids_scrub_congr c₁ c₂ agents st₁ st₂ hbots ctx maxBids
          rest t₁ k₁ t₂ k₂
      | some prices =>
        dsimp only []
        have hao := admitOffers_scrub_congr c₁ c₂ st₁ st₂ hbots botId ctx
          (prices.take maxBids) t₁ k₁ t₂ k₂
        generalize hg1 : TournamentEngine.admitOffers c₁ st₁ botId ctx
          (prices.take maxBids) t₁ k₁ = r₁ at hao ⊢
        generalize hg2 : TournamentEngine.admitOffers c₂ st₂ botId ctx
          (prices.take maxBids) t₂ k₂ = r₂ at hao ⊢
        obtain ⟨bidsA₁, tA₁, kA₁⟩ := r₁
        obtain ⟨bidsA₂, tA₂, kA₂⟩ := r₂
        dsimp only [] at hao ⊢
        have hrec := collectBids_scrub_congr c₁ c₂ agents st₁ st₂ hbots ctx
          maxBids rest tA₁ kA₁ tA₂ kA₂
        generalize hg3 : TournamentEngine.collectBids c₁ agents st₁ ctx maxBids
          rest tA₁ kA₁ = s₁ at hrec ⊢
        generalize hg4 : TournamentEngine.collectBids c₂ agents st₂ ctx maxBids
          rest tA₂ kA₂ = s₂ at hrec ⊢
        obtain ⟨bidsB₁, tB₁, kB₁⟩ := s₁
        obtain ⟨bidsB₂, tB₂, kB₂⟩ := s₂
        dsimp only [] at hrec ⊢
        rw [List.map_append, List.map_append, hao, hrec]

theorem collectBids_ts (c : ℕ → ℕ) (hc : Monotone c)
    (agents : List AgentOracle) (st : TournamentState) (ctx : PeriodContext)
    (maxBids : ℕ) :
    ∀ (ids : List String) (t k : ℕ) (bids : List Bid) (t' k' : ℕ),
      TournamentEngine.collectBids c agents st ctx maxBids ids t k
        = (bids, t', k') →
      t ≤ t' ∧
      (∀ b ∈ bids, c t ≤ b.submitted_at ∧ b.submitted_at ≤ c t') ∧
      bids.Pairwise (fun a b => a.submitted_at ≤ b.submitted_at)
  | [], t, k, bids, t', k', h => by
    unfold TournamentEngine.collectBids at h
    injection h with hb hrest
    injection hrest with ht hk
    subst hb
    subst ht
    exact ⟨le_refl t, by simp, by simp⟩
  | botId :: rest, t, k, bids, t', k', h => by
    unfold TournamentEngine.collectBids at h
    cases hfa : agents.find? (fun a => a.bot_id == botId) with
    | none =>
      rw [hfa] at h
      exact collectBids_ts c hc agents st ctx maxBids rest t k bids t' k' h
    | some agent =>
      rw [hfa] at h
      dsimp only [] at h
      cases hdb : agent.decideBids ctx.absolute_period with
      | none =>
        rw [hdb] at h
        exact collectBids_ts c hc agents st ctx maxBids rest t k bids t' k' h
      | some prices =>
        rw [hdb] at h
        dsimp only [] at h
        generalize hg1 : TournamentEngine.admitOffers c st botId ctx
          (prices.take maxBids) t k = r₁ at h
        obtain ⟨bidsA, tA, kA⟩ := r₁
        dsimp only [] at h
        generalize hg2 : TournamentEngine.collectBids c agents st ctx maxBids
          rest tA kA = s₁ at h
        obtain ⟨bidsB, tB, kB⟩ := s₁
        dsimp only [] at h
        injection h with hb hrest2
        injection hrest2 with ht hk
        subst hb
        subst ht
        subst hk
        have hA := admitOffers_ts c hc st botId ctx (prices.take maxBids) t k
          bidsA tA kA hg1
        have hB := collectBids_ts c hc agents st ctx maxBids rest tA kA bidsB
          tB kB hg2
        refine ⟨by omega, ?_, ?_⟩
        · intro b hbmem
          rcases List.mem_append.1 hbmem with hm | hm
          · have h2 := hA.2.1 b hm
            exact ⟨h2.1, le_trans h2.2 (hc hB.1)⟩
          · have h2 := hB.2.1 b hm
            exact ⟨le_trans (hc hA.1) h2.1, h2.2⟩
        · rw [List.pairwise_append]
          refine ⟨hA.2.2, hB.2.2, ?_⟩
          intro a ham b hbm
          have h2 := hA.2.1 a ham
          have h3 := hB.2.1 b hbm
          exact le_trans h2.2 h3.1

theorem runPeriod_pair_congr (s₁ s₂ : TournamentState) (t₁ k₁ t₂ k₂ : ℕ)
    (r₁ r₂ : PeriodResult) (hs : scrubStore s₁ = scrubStore s₂)
    (hr : scrubRecord r₁ = scrubRecord r₂) :
    (Except.ok (⟨s₁, t₁, k₁⟩, r₁) :
      Except String (EngineState × PeriodResult)).map
        (fun p => (scrubStore p.1.store, scrubRecord p.2)) =
    (Except.ok (⟨s₂, t₂, k₂⟩, r₂) :
      Except String (EngineState × PeriodResult)).map
        (fun p => (scrubStore p.1.store, scrubRecord p.2)) := by
  simp only [Except.map]
  rw [hs, hr]

theorem runPeriod_scrub_congr (c₁ c₂ : ℕ → ℕ) (hm₁ : Monotone c₁)
    (hm₂ : Monotone c₂) (agents : List AgentOracle) (es₁ es₂ : EngineState)
    (ctx : PeriodContext) (strategyType : ClearingStrategyType) (maxBids : ℕ)
    (rescindAllowed : Bool)
    (h : scrubStore es₁.store = scrubStore es₂.store) :
    (TournamentEngine.runPeriod c₁ agents es₁ ctx strategyType maxBids
      rescindAllowed).map (fun p => (scrubStore p.1.store, scrubRecord p.2)) =
    (TournamentEngine.runPeriod c₂ agents es₂ ctx strategyType maxBids
      rescindAllowed).map
        (fun p => (scrubStore p.1.store, scrubRecord p.2)) := by
  unfold TournamentEngine.runPeriod
  dsimp only []
  rw [show es₁.store.bots = es₂.store.bots from @scrubStore_bots _ _ h]
  have hsc := collectBids_scrub_congr c₁ c₂ agents es₁.store es₂.store
    (@scrubStore_bots _ _ h) ctx maxBids
    (es₂.store.bots.map (fun b => b.bot_id)) es₁.tick es₁.idCounter es₂.tick
    es₂.idCounter
  generalize hg1 : TournamentEngine.collectBids c₁ agents es₁.store ctx maxBids
    (es₂.store.bots.map (fun b => b.bot_id)) es₁.tick es₁.idCounter = r₁
    at hsc ⊢
  generalize hg2 : TournamentEngine.collectBids c₂ agents es₂.store ctx maxBids
    (es₂.store.bots.map (fun b => b.bot_id)) es₂.tick es₂.idCounter = r₂
    at hsc ⊢
  obtain ⟨allBids₁, t₁', k₁'⟩ := r₁
  obtain ⟨allBids₂, t₂', k₂'⟩ := r₂
  dsimp only [] at hsc ⊢
  have hts₁ := (collectBids_ts c₁ hm₁ agents es₁.store ctx maxBids _ _ _ _ _
    _ hg1).2.2
  have hts₂ := (collectBids_ts c₂ hm₂ agents es₂.store ctx maxBids _ _ _ _ _
    _ hg2).2.2
  have hclear := clearFor_congr strategyType allBids₁ allBids₂
    ctx.tokens_available ctx.floor_price hsc hts₁ hts₂
  refine bind_congr_scrub (fun x => x) _ _ _ _ _ (by rw [hclear]) ?_
  intro cr₁ cr₂ hcr
  have hcr2 : cr₁ = cr₂ := hcr
  subst hcr2
  refine bind_congr_scrub scrubStore _ _ _ _ _
    (settleAllocations_scrub_congr ctx cr₁.allocations es₁.store es₂.store h)
    ?_
  intro s₁ s₂ hs
  rcases halloc : cr₁.allocations with _ | ⟨alloc, restAl⟩
  · dsimp only []
    exact runPeriod_pair_congr s₁ s₂ t₁' k₁' t₂' k₂' _ _ hs (by
      unfold scrubRecord
      dsimp only []
      rw [hsc])
  · rcases restAl with _ | ⟨al2, rest2⟩
    · cases rescindAllowed with
      | false =>
        dsimp only []
        exact runPeriod_pair_congr s₁ s₂ t₁' k₁' t₂' k₂' _ _ hs (by
          unfold scrubRecord
          dsimp only []
          rw [hsc])
      | true =>
        dsimp only []
        cases hdr : (agents.find? (fun a => a.bot_id == alloc.bot_id)).bind
            (fun a => a.decideRescind ctx.absolute_period) with
        | none =>
          dsimp only []
          exact runPeriod_pair_congr s₁ s₂ t₁' k₁' t₂' k₂' _ _ hs (by
            unfold scrubRecord
            dsimp only []
            rw [hsc])
        | some b =>
          cases b with
          | false =>
            dsimp only []
            exact runPeriod_pair_congr s₁ s₂ t₁' k₁' t₂' k₂' _ _ hs (by
              unfold scrubRecord
              dsimp only []
              rw [hsc])
          | true =>
            dsimp only []
            refine bind_congr_scrub scrubStore _ _ _ _ _
              (processRescind_scrub_congr s₁ s₂ alloc.bot_id ctx alloc
                ctx.absolute_period hs) ?_
            intro u₁ u₂ hu
            exact runPeriod_pair_congr u₁ u₂ t₁' k₁' t₂' k₂' _ _ hu (by
              unfold scrubRecord
              dsimp only []
              rw [hsc])
    · dsimp only []
      exact runPeriod_pair_congr s₁ s₂ t₁' k₁' t₂' k₂' _ _ hs (by
        unfold scrubRecord
        dsimp only []
        rw [hsc])

theorem runStagePeriods_scrub_congr (c₁ c₂ : ℕ → ℕ) (hm₁ : Monotone c₁)
    (hm₂ : Monotone c₂) (agents : List AgentOracle)
    (config : TournamentConfig) (stageIdx : ℕ) (stageCfg : StageConfig)
    (baseSupply : ℚ) :
    ∀ (periodsLeft periodIdx absolutePeriod : ℕ) (es₁ es₂ : EngineState),
      scrubStore es₁.store = scrubStore es₂.store →
      (TournamentEngine.runStagePeriods c₁ agents config stageIdx stageCfg
        baseSupply periodsLeft periodIdx absolutePeriod es₁).map
          (fun p => (scrubStore p.1.store, p.2)) =
      (TournamentEngine.runStagePeriods c₂ agents config stageIdx stageCfg
        baseSupply periodsLeft periodIdx absolutePeriod es₂).map
          (fun p => (scrubStore p.1.store, p.2))
  | 0, periodIdx, absolutePeriod, es₁, es₂, h => by
    unfold TournamentEngine.runStagePeriods
    simp only [Except.map]
    rw [h]
  | periodsLeft + 1, periodIdx, absolutePeriod, es₁, es₂, h => by
    unfold TournamentEngine.runStagePeriods
    dsimp only []
    generalize hgr₁ : TournamentStore.revealRescinds
      (TournamentStore.setCurrentPeriod es₁.store (periodIdx : ℤ))
      absolutePeriod = p₁
    generalize hgr₂ : TournamentStore.revealRescinds
      (TournamentStore.setCurrentPeriod es₂.store (periodIdx : ℤ))
      absolutePeriod = p₂
    obtain ⟨st1₁, rev₁⟩ := p₁
    obtain ⟨st1₂, rev₂⟩ := p₂
    dsimp only []
    have hrev : rev₁ = rev₂ := by
      have e1 : es₁.store.pending_rescinds.filter
          (fun r => r.reveal_at_absolute ≤ absolutePeriod) = rev₁ :=
        congrArg Prod.snd hgr₁
      have e2 : es₂.store.pending_rescinds.filter
          (fun r => r.reveal_at_absolute ≤ absolutePeriod) = rev₂ :=
        congrArg Prod.snd hgr₂
      rw [← e1, ← e2, @scrubStore_pending _ _ h]
    have h1 : scrubStore st1₁ = scrubStore st1₂ := by
      have e1 : ({ TournamentStore.setCurrentPeriod es₁.store (periodIdx : ℤ)
          with pending_rescinds :=
            ((TournamentStore.setCurrentPeriod es₁.store
              (periodIdx : ℤ)).pending_rescinds.filter
              (fun r => absolutePeriod < r.reveal_at_absolute)) }
          : TournamentState) = st1₁ :=
        congrArg Prod.fst hgr₁
      have e2 : ({ TournamentStore.setCurrentPeriod es₂.store (periodIdx : ℤ)
          with pending_rescinds :=
            ((TournamentStore.setCurrentPeriod es₂.store
              (periodIdx : ℤ)).pending_rescinds.filter
              (fun r => absolutePeriod < r.reveal_at_absolute)) }
          : TournamentState) = st1₂ :=
        congrArg Prod.fst hgr₂
      rw [← e1, ← e2]
      refine scrubStore_ext (@scrubStore_config es₁.store es₂.store h)
        (@scrubStore_phase es₁.store es₂.store h)
        (@scrubStore_cstage es₁.store es₂.store h) rfl
        (@scrubStore_bots es₁.store es₂.store h)
        (@scrubStore_results es₁.store es₂.store h) ?_
        (@scrubStore_queue es₁.store es₂.store h)
      show es₁.store.pending_rescinds.filter _ =
        es₂.store.pending_rescinds.filter _
      rw [@scrubStore_pending es₁.store es₂.store h]
    have h2 : scrubStore (TournamentEngine.processRescindRevelations st1₁ rev₁)
        = scrubStore (TournamentEngine.processRescindRevelations st1₂ rev₂) := by
      rw [hrev]
      exact processRescindRevelations_scrub_congr rev₂ st1₁ st1₂ h1
    have hextra : TournamentStore.getRescindSupplyForPeriod
        (TournamentEngine.processRescindRevelations st1₁ rev₁) absolutePeriod =
      TournamentStore.getRescindSupplyForPeriod
        (TournamentEngine.processRescindRevelations st1₂ rev₂)
          absolutePeriod := by
      unfold TournamentStore.getRescindSupplyForPeriod
      rw [@scrubStore_queue _ _ h2]
    rw [hextra]
    refine bind_congr_scrub (fun p => (scrubStore p.1.store, scrubRecord p.2))
      _ _ _ _ _
      (runPeriod_scrub_congr c₁ c₂ hm₁ hm₂ agents _ _ _ _ _ _ h2) ?_
    intro q₁ q₂ hq
    obtain ⟨es1₁, rec₁⟩ := q₁
    obtain ⟨es1₂, rec₂⟩ := q₂
    dsimp only [] at hq ⊢
    have hst : scrubStore es1₁.store = scrubStore es1₂.store :=
      congrArg Prod.fst hq
    have hrec : scrubRecord rec₁ = scrubRecord rec₂ :=
      congrArg Prod.snd hq
    exact runStagePeriods_scrub_congr c₁ c₂ hm₁ hm₂ agents config stageIdx
      stageCfg baseSupply periodsLeft (periodIdx + 1) (absolutePeriod + 1) _ _
      (scrubStore_congr_addResult rec₁ rec₂ hst hrec)

theorem runStages_scrub_congr (c₁ c₂ : ℕ → ℕ) (hm₁ : Monotone c₁)
    (hm₂ : Monotone c₂) (agents : List AgentOracle)
    (config : TournamentConfig) :
    ∀ (stages : List StageConfig) (stageIdx absolutePeriod : ℕ)
      (es₁ es₂ : EngineState),
      scrubStore es₁.store = scrubStore es₂.store →
      (TournamentEngine.runStages c₁ agents config stages stageIdx
        absolutePeriod es₁).map scrubES =
      (TournamentEngine.runStages c₂ agents config stages stageIdx
        absolutePeriod es₂).map scrubES
  | [], stageIdx, absolutePeriod, es₁, es₂, h => by
    unfold TournamentEngine.runStages
    simp only [Except.map, scrubES]
    rw [h]
  | stageCfg :: rest, stageIdx, absolutePeriod, es₁, es₂, h => by
    unfold TournamentEngine.runStages
    dsimp only []
    refine bind_congr_scrub (fun p => (scrubStore p.1.store, p.2)) _ _ _ _ _
      (runStagePeriods_scrub_congr c₁ c₂ hm₁ hm₂ agents config stageIdx
        stageCfg _ stageCfg.num_periods 0 absolutePeriod _ _
        (scrubStore_congr_setCurrentStage (stageIdx : ℤ) h)) ?_
    intro q₁ q₂ hq
    obtain ⟨es1₁, abs1₁⟩ := q₁
    obtain ⟨es1₂, abs1₂⟩ := q₂
    dsimp only [] at hq ⊢
    have habs : abs1₁ = abs1₂ := congrArg Prod.snd hq
    subst habs
    have hst : scrubStore es1₁.store = scrubStore es1₂.store :=
      congrArg Prod.fst hq
    refine bind_congr_scrub scrubStore _ _ _ _ _
      (awardStageSP_scrub_congr es1₁.store es1₂.store stageIdx hst) ?_
    intro a₁ a₂ ha
    by_cases hlt : stageIdx < config.stages.length - 1
    · rw [if_pos hlt, if_pos hlt]
      exact runStages_scrub_congr c₁ c₂ hm₁ hm₂ agents config rest
        (stageIdx + 1) _ _ _
        (scrubStore_congr_setPhase _ (scrubStore_congr_setPhase _ ha))
    · rw [if_neg hlt, if_neg hlt]
      exact runStages_scrub_congr c₁ c₂ hm₁ hm₂ agents config rest
        (stageIdx + 1) _ _ _ ha

theorem runEngine_scrub_congr (c₁ c₂ : ℕ → ℕ) (hm₁ : Monotone c₁)
    (hm₂ : Monotone c₂) (k₁ k₂ : ℕ) (config : TournamentConfig)
    (agents : List AgentOracle) :
    (TournamentEngine.runEngine c₁ k₁ config agents).map scrubStore =
    (TournamentEngine.runEngine c₂ k₂ config agents).map scrubStore := by
  unfold TournamentEngine.runEngine
  refine bind_congr_scrub (fun x => x) _ _ _ _ _ rfl ?_
  intro s₁ s₂ hs
  have hs2 : s₁ = s₂ := hs
  subst hs2
  dsimp only []
  refine bind_congr_scrub scrubES _ _ _ _ _
    (runStages_scrub_congr c₁ c₂ hm₁ hm₂ agents config config.stages 0 0
      ⟨TournamentStore.setPhase s₁ .stage_active, 0, k₁⟩
      ⟨TournamentStore.setPhase s₁ .stage_active, 0, k₂⟩ rfl) ?_
  intro e₁ e₂ he
  refine bind_congr_scrub scrubStore _ _ _ _ _
    (awardOverallBonusSP_scrub_congr e₁.store e₂.store he) ?_
  intro u₁ u₂ hu
  simp only [Except.map]
  exact congrArg Except.ok (scrubStore_congr_setPhase _ hu)

theorem map_congr_scrub {A C D : Type _} {B : Type _} (proj : A → B)
    (f : A → C) (projC : C → D) (x₁ x₂ : Except String A)
    (hx : x₁.map proj = x₂.map proj)
    (hf : ∀ a₁ a₂, proj a₁ = proj a₂ → projC (f a₁) = projC (f a₂)) :
    (x₁.map f).map projC = (x₂.map f).map projC := by
  cases x₁ with
  | error e =>
    cases x₂ with
    | error e2 =>
      simp only [Except.map] at hx ⊢
      injection hx with h2
      rw [h2]
    | ok a =>
      simp only [Except.map] at hx
      cases hx
  | ok a =>
    cases x₂ with
    | error e2 =>
      simp only [Except.map] at hx
      cases hx
    | ok a2 =>
      simp only [Except.map] at hx ⊢
      injection hx with h2
      exact congrArg Except.ok (hf a a2 h2)

theorem countP_scrub (p : PeriodResult → Bool)
    (hp : ∀ r, p (scrubRecord r) = p r)
    (l₁ l₂ : List PeriodResult)
    (hmap : l₁.map scrubRecord = l₂.map scrubRecord) :
    l₁.countP p = l₂.countP p := by
  have h1 : (l₁.map scrubRecord).countP p = (l₂.map scrubRecord).countP p := by
    rw [hmap]
  rw [List.countP_map, List.countP_map] at h1
  have e : (p ∘ scrubRecord) = p := funext hp
  rw [e] at h1
  exact h1

theorem buildResult_scrub_congr (st₁ st₂ : TournamentState)
    (h : scrubStore st₁ = scrubStore st₂) :
    scrubResult (TournamentEngine.buildResult st₁) =
      scrubResult (TournamentEngine.buildResult st₂) := by
  have hb := @scrubStore_bots st₁ st₂ h
  have hc := @scrubStore_config st₁ st₂ h
  have hr := @scrubStore_results st₁ st₂ h
  unfold scrubResult TournamentEngine.buildResult
  dsimp only []
  rw [hb, hc, hr]
  congr 1
  refine List.map_congr_left ?_
  intro bot _
  dsimp only []
  have hw : (st₁.period_results.filter (fun r =>
      r.winner_bot_id == some bot.bot_id && r.rescinded != some true)).length =
    (st₂.period_results.filter (fun r =>
      r.winner_bot_id == some bot.bot_id && r.rescinded != some true)).length := by
    rw [← List.countP_eq_length_filter, ← List.countP_eq_length_filter]
    exact countP_scrub (fun r =>
      r.winner_bot_id == some bot.bot_id && r.rescinded != some true)
      (fun r => rfl) _ _ hr
  have hm2 : (st₁.period_results.filter (fun r =>
      r.winner_bot_id == some bot.bot_id && r.rescinded == some true)).length =
    (st₂.period_results.filter (fun r =>
      r.winner_bot_id == some bot.bot_id && r.rescinded == some true)).length := by
    rw [← List.countP_eq_length_filter, ← List.countP_eq_length_filter]
    exact countP_scrub (fun r =>
      r.winner_bot_id == some bot.bot_id && r.rescinded == some true)
      (fun r => rfl) _ _ hr
  rw [hw, hm2]

/-- **C2 (amended).** For every configuration and ordered agent list, two runs
of the engine under any two monotone wall clocks and any two starting values of
the global id counter produce identical outputs *up to the generated bid ids
and submission timestamps*: the period logs agree after erasing each recorded
bid's generated `id` and `submitted_at` (everything else — clearing prices,
allocations, winners, rescinded flags, bot summaries — is byte-identical), and
the final leaderboards are byte-identical.  (Byte-identical *logs* are
impossible, because the recorded bid ids embed `Date.now()` and a
process-global counter; see the counterexample.) -/
theorem C2_amended_determinism_up_to_generated_ids
    (c₁ c₂ : ℕ → ℕ) (hm₁ : Monotone c₁) (hm₂ : Monotone c₂) (k₁ k₂ : ℕ)
    (config : TournamentConfig) (agents : List AgentOracle) :
    (TournamentEngine.runTournament c₁ k₁ config agents).map scrubResult =
      (TournamentEngine.runTournament c₂ k₂ config agents).map scrubResult ∧
    ∀ r₁ r₂,
      TournamentEngine.runTournament c₁ k₁ config agents = .ok r₁ →
      TournamentEngine.runTournament c₂ k₂ config agents = .ok r₂ →
      r₁.final_leaderboard = r₂.final_leaderboard := by
  have hmain : (TournamentEngine.runTournament c₁ k₁ config agents).map
      scrubResult = (TournamentEngine.runTournament c₂ k₂ config agents).map
      scrubResult := by
    unfold TournamentEngine.runTournament
    exact map_congr_scrub scrubStore TournamentEngine.buildResult scrubResult
      _ _ (runEngine_scrub_congr c₁ c₂ hm₁ hm₂ k₁ k₂ config agents)
      buildResult_scrub_congr
  refine ⟨hmain, ?_⟩
  intro r₁ r₂ h1 h2
  rw [h1, h2] at hmain
  simp only [Except.map] at hmain
  injection hmain with h3
  have h4 := congrArg TournamentResult.final_leaderboard h3
  exact h4

/-- Closed instance of the amended C2 theorem: two different concrete monotone
clocks and two different id-counter starts on a concrete tournament give equal
scrubbed results. -/
theorem C2_amended_determinism_witness :
    (TournamentEngine.runTournament (fun t => t) 0 c2_config [c2_agent]).map
        scrubResult =
      (TournamentEngine.runTournament (fun t => 2 * t + 5) 7 c2_config
        [c2_agent]).map scrubResult :=
  (C2_amended_determinism_up_to_generated_ids (fun t => t)
    (fun t => 2 * t + 5) (fun a b h => h)
    (fun a b h => by show 2 * a + 5 ≤ 2 * b + 5; omega) 0 7 c2_config
    [c2_agent]).1

end SimAuction
